import Mathlib

/-! # wraith.c: Wraith Prism configuration utility

A shallow embedding of `wraith.c` and the properties of its binary protocol layer.

Conventions of the embedding:

* a C string (`char *`) is a `List Char`; a pointer that may be `NULL` is an `Option`;
* `unsigned char` values are `Nat`, reduced `% 256` where the C code stores into an
  `unsigned char`; `int` values are `Int`;
* a command buffer `unsigned char buf[CMD_SIZE]` is a `List Nat`;
* the HID device is explicit state: the frames handed to `hid_write`, the number of
  `hid_read` calls, and the results the library returns for each call;
* `float` and `double` are IEEE 754 binary32 and binary64 with round-to-nearest-even,
  every operation rounded once in its own format; a floating value is the rational
  number it stands for;
* a result of type `Option α` is `none` exactly when the C code reads an array past its
  end (undefined behaviour);
* the logging functions (`log_debug`, `log_bytes`, `log_error`) and `verbose_mode` only
  write to `stderr` and are left out.
-/

namespace Wraith

/-! ## Constants -/

def CMD_SIZE : Nat := 65
def REPLY_SIZE : Int := 64

def MODE_STATIC : Nat := 0x01
def MODE_COLOUR_CYCLE : Nat := 0x02
def MODE_BREATH : Nat := 0x03
def MODE_RING_RAINBOW : Nat := 0x05
def MODE_RING_CHASE : Nat := 0xC3
def MODE_RING_SWIRL : Nat := 0x4A
def MODE_RING_DEFAULT : Nat := 0xFF

def CHANNEL_OFF : Nat := 0xFE
def CHANNEL_LOGO : Nat := 0x05
def CHANNEL_FAN : Nat := 0x06
def CHANNEL_RING_STATIC : Nat := 0x00
def CHANNEL_RING_BREATH : Nat := 0x01
def CHANNEL_RING_COLOUR_CYCLE : Nat := 0x02
def CHANNEL_RING_RAINBOW : Nat := 0x07
def CHANNEL_RING_BOUNCE : Nat := 0x08
def CHANNEL_RING_CHASE : Nat := 0x09
def CHANNEL_RING_SWIRL : Nat := 0x0A
def CHANNEL_RING_MORSE : Nat := 0x0B

def STATIC_SPEED : Nat := 0xFF

def breath_speed : List Nat := [0x3C, 0x37, 0x31, 0x2C, 0x26]
def cycle_speed : List Nat := [0x96, 0x8C, 0x80, 0x6E, 0x68]
def rainbow_speed : List Nat := [0x72, 0x68, 0x64, 0x62, 0x61]
def chase_speed : List Nat := [0x77, 0x74, 0x6E, 0x6B, 0x67]
def swirl_speed : List Nat := [0x77, 0x74, 0x6E, 0x6B, 0x67]

/-! ## Machine integers -/

/-- Conversion of an `int` to `unsigned char`. -/
def to_uchar (x : Int) : Nat := (x % 256).toNat

/-- Conversion of an `unsigned char` to a signed `char`. -/
def to_schar (x : Nat) : Int := if x % 256 < 128 then ((x % 256 : Nat) : Int) else ((x % 256 : Nat) : Int) - 256

/-- Conversion of an `unsigned long` to `int` (truncation to 32 bits, two's complement). -/
def to_int (x : Nat) : Int :=
  if x % 2 ^ 32 < 2 ^ 31 then ((x % 2 ^ 32 : Nat) : Int) else ((x % 2 ^ 32 : Nat) : Int) - 2 ^ 32

/-- Table read `table[i]` with an `int` index; `none` when the index is outside the table. -/
def table_at (table : List Nat) (i : Int) : Option Nat :=
  if 0 ≤ i then table.get? i.toNat else none

/-! ## The HID device -/

/-- An open HID device: what the library returns for the n-th `hid_write` and the n-th
`hid_read`, the buffers handed to `hid_write` so far, and the number of `hid_read` calls. -/
structure hid_device where
  write_result : Nat → Int
  read_result : Nat → Int
  written : List (List Nat)
  reads : Nat

/-- Library call `hid_write(dev, buf, length)`. -/
def hid_write (dev : hid_device) (buf : List Nat) (length : Nat) : Int × hid_device :=
  (dev.write_result dev.written.length, { dev with written := dev.written ++ [buf.take length] })

/-- Library call `hid_read(dev, buf, length)`; the reply bytes are only logged. -/
def hid_read (dev : hid_device) : Int × hid_device :=
  (dev.read_result dev.reads, { dev with reads := dev.reads + 1 })

def wraith_communicate (dev : hid_device) (buf : List Nat) : Int × hid_device :=
  let (ret, dev1) := hid_write dev buf CMD_SIZE
  if ret < 0 then (-1, dev1)
  else if ret < (CMD_SIZE : Int) then (-1, dev1)
  else
    let (ret, dev2) := hid_read dev1
    if ret < 0 then (-1, dev2)
    else if ret ≠ REPLY_SIZE then (-1, dev2)
    else (0, dev2)

/-- A device whose writes and reads all succeed. -/
def hid_ok : hid_device :=
  { write_result := fun _ => 65, read_result := fun _ => 64, written := [], reads := 0 }

/-! ## Frame builders -/

/-- The C call `memset(buf, c, sizeof(buf))` on a fresh `buf[CMD_SIZE]`. -/
def memset (c : Nat) (n : Nat) : List Nat := List.replicate n (c % 256)

/-- Assignment `buf[i] = v` into an `unsigned char` array. -/
def poke (buf : List Nat) (i : Nat) (v : Nat) : List Nat := buf.set i (v % 256)

def wraith_enable_buf : List Nat :=
  let buf := memset 0 CMD_SIZE
  let buf := poke buf 1 0x41
  let buf := poke buf 2 0x80
  buf

def wraith_enable (dev : hid_device) : hid_device :=
  (wraith_communicate dev wraith_enable_buf).2

def wraith_apply_buf : List Nat :=
  let buf := memset 0 CMD_SIZE
  let buf := poke buf 1 0x51
  let buf := poke buf 2 0x28
  let buf := poke buf 5 0xE0
  buf

def wraith_apply (dev : hid_device) : hid_device :=
  (wraith_communicate dev wraith_apply_buf).2

/-! ### Floating point -/

/-- Binary logarithm by repeated halving: `ilog2_aux fuel n` is `floor (log2 n)` for
`0 < n` when `fuel` is at least that logarithm (and `0` for `n = 0`). -/
def ilog2_aux : Nat → Nat → Nat
  | 0, _ => 0
  | fuel + 1, n => if n < 2 then 0 else ilog2_aux fuel (n / 2) + 1

/-- Position of the leading bit of `n`. -/
def ilog2 (n : Nat) : Nat := ilog2_aux n n

/-- The exponent `floor (log2 x)` of a positive rational `x`. -/
def qlog2 (x : ℚ) : Int :=
  let e0 : Int := (ilog2 x.num.natAbs : Int) - (ilog2 x.den : Int)
  if (2 : ℚ) ^ e0 ≤ x then e0 else e0 - 1

/-- Round a non-negative rational to the nearest integer, ties to the even one. -/
def round_half_even (s : ℚ) : Int :=
  if 1 / 2 < s - ⌊s⌋ ∨ (s - ⌊s⌋ = 1 / 2 ∧ ⌊s⌋ % 2 = 1) then ⌊s⌋ + 1 else ⌊s⌋

/-- Round a non-negative rational to the nearest value with a `p`-bit significand, ties to
even (IEEE 754 round-to-nearest-even; the exponent range is not limited, which no value of
this program comes near). -/
def fl_round (p : Nat) (x : ℚ) : ℚ :=
  (round_half_even (x * (2 : ℚ) ^ ((p : Int) - 1 - qlog2 x)) : ℚ)
    * (2 : ℚ) ^ (qlog2 x - ((p : Int) - 1))

/-- Rounding to `float` (binary32, 24-bit significand). -/
def to_float (x : ℚ) : ℚ := fl_round 24 x

/-- Rounding to `double` (binary64, 53-bit significand). -/
def to_double (x : ℚ) : ℚ := fl_round 53 x

/-- Conversion `(unsigned) x` of a non-negative floating value: truncation towards zero
(every value converted in this program is far below `2 ^ 32`). -/
def to_unsigned (x : ℚ) : Nat := ⌊x⌋.toNat % 2 ^ 32

/-- Local variable `v` of `hz_to_bytes`: `1500000.0f / ((float) hz)`. -/
def hz_v (hz : Nat) : ℚ := to_float (1500000 / to_float (hz : ℚ))

/-- Local variable `m` of `hz_to_bytes`: `(unsigned) (v / 256.0)`. -/
def hz_m (hz : Nat) : Nat := to_unsigned (to_double (hz_v hz / 256))

/-- Local variable `r` of `hz_to_bytes`: `v / (((float) m) + 0.75)`, stored as `float`. -/
def hz_r (hz : Nat) : ℚ :=
  to_float (to_double (hz_v hz / to_double (to_float (hz_m hz : ℚ) + 3 / 4)))

/-- Local variable `r0` of `hz_to_bytes`: `(unsigned) r`. -/
def hz_r0 (hz : Nat) : Nat := to_unsigned (hz_r hz)

/-- Local variable `r1` of `hz_to_bytes`: `(unsigned) ((r - (float) r0) * 256.0)`. -/
def hz_r1 (hz : Nat) : Nat :=
  to_unsigned (to_double (to_float (hz_r hz - to_float (hz_r0 hz : ℚ)) * 256))

def hz_to_bytes (dst : List Nat) (off : Nat) (hz : Nat) : List Nat :=
  if hz = 0 then
    let dst := poke dst off 0x00
    let dst := poke dst (off + 1) 0xFF
    let dst := poke dst (off + 2) 0x4A
    dst
  else
    let m := hz_m hz
    let dst := poke dst off (if m < 255 then m else 255)
    let dst := poke dst (off + 1) (hz_r1 hz)
    let dst := poke dst (off + 2) (hz_r0 hz)
    dst

def wraith_mirage_buf (rhz ghz bhz : Nat) : List Nat :=
  let buf := memset 0 CMD_SIZE
  let buf := poke buf 0x01 0x51
  let buf := poke buf 0x02 0x71
  let buf := poke buf 0x05 0x01
  let buf := hz_to_bytes buf 0x06 0
  let buf := poke buf 0x09 0x02
  let buf := hz_to_bytes buf 0x0a rhz
  let buf := poke buf 0x0d 0x03
  let buf := hz_to_bytes buf 0x0e ghz
  let buf := poke buf 0x11 0x04
  let buf := hz_to_bytes buf 0x12 bhz
  buf

def wraith_mirage (dev : hid_device) (rhz ghz bhz : Nat) : hid_device :=
  (wraith_communicate dev (wraith_mirage_buf rhz ghz bhz)).2

def wraith_effect_update_buf (channel speed flags mode brightness
    red1 green1 blue1 red2 green2 blue2 : Nat) : List Nat :=
  let buf := memset 0xFF CMD_SIZE
  let buf := poke buf 0x00 0x00
  let buf := poke buf 0x01 0x51
  let buf := poke buf 0x02 0x2C
  let buf := poke buf 0x03 0x01
  let buf := poke buf 0x04 0x00
  let buf := poke buf 0x05 channel
  let buf := poke buf 0x06 speed
  let buf := poke buf 0x07 flags
  let buf := poke buf 0x08 mode
  let buf := poke buf 0x09 0xFF
  let buf := poke buf 0x0A brightness
  let buf := poke buf 0x0B red1
  let buf := poke buf 0x0C green1
  let buf := poke buf 0x0D blue1
  let buf := poke buf 0x0E red2
  let buf := poke buf 0x0F green2
  let buf := poke buf 0x10 blue2
  buf

def wraith_effect_update (dev : hid_device) (channel speed flags mode brightness
    red1 green1 blue1 red2 green2 blue2 : Nat) : hid_device :=
  (wraith_communicate dev (wraith_effect_update_buf channel speed flags mode brightness
    red1 green1 blue1 red2 green2 blue2)).2

def wraith_query_channel_buf (channel : Nat) : List Nat :=
  let buf := memset 0 CMD_SIZE
  let buf := poke buf 0x01 0x40
  let buf := poke buf 0x02 0x21
  let buf := poke buf 0x03 channel
  buf

def wraith_query_channel (dev : hid_device) (channel : Nat) : hid_device :=
  (wraith_communicate dev (wraith_query_channel_buf channel)).2

/-- The loop `for (i = 0; i < 15; ++i) buf[0x0B + i] = ring[i]`, from index `i`. -/
def wraith_channel_map_loop (ring : List Nat) : Nat → Nat → List Nat → List Nat
  | 0, _, buf => buf
  | fuel + 1, i, buf => wraith_channel_map_loop ring fuel (i + 1) (poke buf (0x0B + i) (ring.getD i 0))

def wraith_channel_map_buf (ring : List Nat) (logo fan : Nat) : List Nat :=
  let buf := memset 0 CMD_SIZE
  let buf := poke buf 0x01 0x51
  let buf := poke buf 0x02 0xA0
  let buf := poke buf 0x03 0x01
  let buf := poke buf 0x06 0x03
  let buf := poke buf 0x09 logo
  let buf := poke buf 0x0A fan
  wraith_channel_map_loop ring 15 0 buf

def wraith_channel_map (dev : hid_device) (ring : List Nat) (logo fan : Nat) : hid_device :=
  (wraith_communicate dev (wraith_channel_map_buf ring logo fan)).2

/-! ## Command parsing -/

/-- Split a string at the first delimiter: the token before it, and the rest after it
(`none` when the string holds no delimiter). -/
def strsep_split (delim : Char) : List Char → List Char × Option (List Char)
  | [] => ([], none)
  | c :: cs =>
    if c = delim then ([], some cs)
    else (c :: (strsep_split delim cs).1, (strsep_split delim cs).2)

/-- Library call `strsep(&buffer, delim)` with a one-character delimiter set: the returned
token and the new value of `buffer`. -/
def strsep (buffer : Option (List Char)) (delim : Char) :
    Option (List Char) × Option (List Char) :=
  match buffer with
  | none => (none, none)
  | some s => (some (strsep_split delim s).1, (strsep_split delim s).2)

/-- Size of a `const char *` in bytes on a 64-bit target; `sizeof(strings)` is the number
of entries times this. -/
def SIZEOF_POINTER : Nat := 8

/-- The loop of `FIND_VALUE` from index `i`, with `fuel` iterations left before
`i < sizeof(strings)` fails. -/
def FIND_VALUE_loop (str : List Char) (strings : List (List Char)) (values : List Nat) :
    Nat → Nat → Option Int
  | 0, _ => some (-1)
  | fuel + 1, i =>
    match strings.get? i with
    | none => none
    | some s =>
      if s = str then
        match values.get? i with
        | none => none
        | some v => some (v : Int)
      else FIND_VALUE_loop str strings values fuel (i + 1)

/-- The body that `FIND_VALUE(str, strings, values)` expands to; the loop bound is
`sizeof(strings)`, the size of the pointer array in bytes. -/
def FIND_VALUE (str : Option (List Char)) (strings : List (List Char)) (values : List Nat) :
    Option Int :=
  match str with
  | none => some (-1)
  | some s => FIND_VALUE_loop s strings values (strings.length * SIZEOF_POINTER) 0

def parse_channel (str : Option (List Char)) : Option Int :=
  FIND_VALUE str ["logo".toList, "fan".toList] [CHANNEL_LOGO, CHANNEL_FAN]

def parse_mode (str : Option (List Char)) : Option Int :=
  FIND_VALUE str ["static".toList, "cycle".toList, "breath".toList]
    [ MODE_STATIC, MODE_COLOUR_CYCLE, MODE_BREATH]

/-- The array `strings` of `parse_ring_channel`. -/
def ring_channel_strings : List (List Char) :=
  ["static".toList, "cycle".toList, "breath".toList, "rainbow".toList,
   "bounce".toList, "chase".toList, "swirl".toList, "morse".toList,
   "off".toList]

/-- The array `values` of `parse_ring_channel`. -/
def ring_channel_values : List Nat :=
  [CHANNEL_RING_STATIC,
   CHANNEL_RING_COLOUR_CYCLE,
   CHANNEL_RING_BREATH,
   CHANNEL_RING_RAINBOW,
   CHANNEL_RING_BOUNCE,
   CHANNEL_RING_CHASE,
   CHANNEL_RING_SWIRL,
   CHANNEL_RING_MORSE,
   CHANNEL_OFF]

def parse_ring_channel (str : Option (List Char)) : Option Int :=
  FIND_VALUE str ring_channel_strings ring_channel_values

/-- The C predicate `isspace` in the "C" locale. -/
def isspace (c : Char) : Bool :=
  c.toNat = 32 || (9 ≤ c.toNat && c.toNat ≤ 13)

/-- Value of a character as a digit (letters count from ten), if it is one. -/
def digit_value (c : Char) : Option Nat :=
  if 48 ≤ c.toNat ∧ c.toNat ≤ 57 then some (c.toNat - 48)
  else if 97 ≤ c.toNat ∧ c.toNat ≤ 122 then some (c.toNat - 97 + 10)
  else if 65 ≤ c.toNat ∧ c.toNat ≤ 90 then some (c.toNat - 65 + 10)
  else none

/-- Value of the longest run of leading digits valid in `base`, continuing from `acc`. -/
def strtoul_digits (base : Nat) : List Char → Nat → Nat
  | [], acc => acc
  | c :: cs, acc =>
    match digit_value c with
    | none => acc
    | some d => if d < base then strtoul_digits base cs (acc * base + d) else acc

def ULONG_MAX : Nat := 2 ^ 64 - 1

/-- Skip leading white space. -/
def skip_space : List Char → List Char
  | [] => []
  | c :: cs => if isspace c then skip_space cs else c :: cs

/-- Library call `strtoul(str, NULL, 0)` with a 64-bit `unsigned long`: optional white
space and sign, base 16 after `0x`, base 8 after `0`, base 10 otherwise; the value of the
longest valid digit run (0 when there is none), `ULONG_MAX` on overflow, negated modulo
`2 ^ 64` after a minus sign. -/
def strtoul (str : List Char) : Nat :=
  let s := skip_space str
  let neg : Bool := s.head? = some '-'
  let s := if s.head? = some '-' ∨ s.head? = some '+' then s.tail else s
  let hex : Bool := match s with
    | z :: x :: d :: _ =>
      z == '0' && (x == 'x' || x == 'X') && (digit_value d).any (fun v => decide (v < 16))
    | _ => false
  let v := if hex then strtoul_digits 16 (s.drop 2) 0
    else if s.head? = some '0' then strtoul_digits 8 s 0
    else strtoul_digits 10 s 0
  if ULONG_MAX < v then ULONG_MAX
  else if neg then (2 ^ 64 - v) % 2 ^ 64
  else v

/-- The flag `ignore_error` only decides whether the failure is logged. -/
def parse_value (str : Option (List Char)) (min max : Int) (_ignore_error : Bool) (defv : Int) :
    Int :=
  match str with
  | none => defv
  | some s =>
    let value := to_int (strtoul s)
    if value ≥ min ∧ value ≤ max then value
    else defv

/-- The first loop of `parse_ring_map` from index `i` (`fuel` iterations are left before
`i < 15` fails): `.error r` stands for `return r`, `.ok (i, ring)` for leaving the loop. -/
def parse_ring_map_scan : Nat → Nat → Option (List Char) → List Nat →
    Option (Except Int (Nat × List Nat))
  | 0, i, _, ring => some (.ok (i, ring))
  | fuel + 1, i, buffer, ring =>
    match (strsep buffer ' ').1 with
    | none => some (.ok (i, ring))
    | some channel =>
      match parse_ring_channel (some channel) with
      | none => none
      | some value =>
        if value < 0 then some (.error (-1))
        else parse_ring_map_scan fuel (i + 1) (strsep buffer ' ').2 (poke ring i (to_uchar value))

/-- The second loop of `parse_ring_map`: `for (...; i < 15; ++i) ring[i] = value`, with a
`char value`. -/
def parse_ring_map_fill (value : Int) : Nat → Nat → List Nat → List Nat
  | 0, _, ring => ring
  | fuel + 1, i, ring => parse_ring_map_fill value fuel (i + 1) (poke ring i (to_uchar value))

/-- The array `ring` as `parse_ring_map` hands it to `wraith_channel_map`, or the value it
returns before. -/
def parse_ring_map_ring (buffer : Option (List Char)) : Option (Except Int (List Nat)) :=
  match parse_ring_map_scan 15 0 buffer (List.replicate 15 0) with
  | none => none
  | some (.error r) => some (.error r)
  | some (.ok (i, ring)) =>
    if i = 0 then some (.error (-1))
    else some (.ok (parse_ring_map_fill (to_schar (ring.getD (i - 1) 0)) (15 - i) i ring))

def parse_ring_map (dev : hid_device) (buffer : Option (List Char)) :
    Option (Int × hid_device) :=
  match parse_ring_map_ring buffer with
  | none => none
  | some (.error r) => some (r, dev)
  | some (.ok ring) => some (1, wraith_channel_map dev ring CHANNEL_LOGO CHANNEL_FAN)

/-- The tokens that eleven successive `strsep(&buffer, " ")` calls return: `strsep_nth
buffer n` is the token of call number `n` (from 0). -/
def strsep_nth (buffer : Option (List Char)) : Nat → Option (List Char)
  | 0 => (strsep buffer ' ').1
  | n + 1 => strsep_nth (strsep buffer ' ').2 n

/-- The `switch (mode)` of `parse_effect`: the new `speed`; `some none` is the `default`
case (`return -1`), `none` a table read outside the table. -/
def effect_switch (mode speed : Int) : Option (Option Int) :=
  if mode = (MODE_STATIC : Int) then some (some (STATIC_SPEED : Int))
  else if mode = (MODE_COLOUR_CYCLE : Int) then
    (table_at cycle_speed (speed - 1)).map (fun b => some (b : Int))
  else if mode = (MODE_BREATH : Int) then
    (table_at breath_speed (speed - 1)).map (fun b => some (b : Int))
  else some none

/-- The `if` statement that ends `parse_effect`, on the eleven parsed values. -/
def parse_effect_if (dev : hid_device)
    (channel mode speed brightness red green blue red2 green2 blue2 flags : Int) :
    Option (Int × hid_device) :=
  if channel ≥ 0 ∧ mode ≥ 0 ∧ speed ≥ 0 ∧
      brightness ≥ 0 ∧ red ≥ 0 ∧ blue ≥ 0 ∧ green ≥ 0 then
    match effect_switch mode speed with
    | none => none
    | some none => some (-1, dev)
    | some (some speed) =>
      some (1, wraith_effect_update dev
        (to_uchar channel) (to_uchar speed)
        (to_uchar flags) (to_uchar mode)
        (to_uchar brightness) (to_uchar red) (to_uchar green) (to_uchar blue)
        (to_uchar red2) (to_uchar green2) (to_uchar blue2))
  else some (-1, dev)

def parse_effect (dev : hid_device) (buffer : Option (List Char)) :
    Option (Int × hid_device) :=
  match parse_channel (strsep_nth buffer 0) with
  | none => none
  | some channel =>
  match parse_mode (strsep_nth buffer 1) with
  | none => none
  | some mode =>
    let speed := parse_value (strsep_nth buffer 2) 1 5 false (-1)
    let brightness := parse_value (strsep_nth buffer 3) 0 255 false (-1)
    let red := parse_value (strsep_nth buffer 4) 0 255 false (-1)
    let green := parse_value (strsep_nth buffer 5) 0 255 false (-1)
    let blue := parse_value (strsep_nth buffer 6) 0 255 false (-1)
    let red2 := parse_value (strsep_nth buffer 7) 0 255 true 0
    let green2 := parse_value (strsep_nth buffer 8) 0 255 true 0
    let blue2 := parse_value (strsep_nth buffer 9) 0 255 true 0
    let flags := parse_value (strsep_nth buffer 10) 0 255 true 0x20
    parse_effect_if dev channel mode speed brightness red green blue red2 green2 blue2 flags

/-- The `switch (channel)` of `parse_ring_effect`: the new `(mode, speed)`; `some none`
is the `default` case (`return -1`), `none` a table read outside the table. -/
def ring_effect_switch (channel speed : Int) : Option (Option (Int × Int)) :=
  if channel = (CHANNEL_RING_STATIC : Int) then
    some (some ((MODE_RING_DEFAULT : Int), (STATIC_SPEED : Int)))
  else if channel = (CHANNEL_RING_COLOUR_CYCLE : Int) then
    (table_at cycle_speed (speed - 1)).map (fun b => some ((MODE_RING_DEFAULT : Int), (b : Int)))
  else if channel = (CHANNEL_RING_BREATH : Int) then
    (table_at breath_speed (speed - 1)).map (fun b => some ((MODE_BREATH : Int), (b : Int)))
  else if channel = (CHANNEL_RING_RAINBOW : Int) then
    (table_at rainbow_speed (speed - 1)).map (fun b => some ((MODE_RING_RAINBOW : Int), (b : Int)))
  else if channel = (CHANNEL_RING_BOUNCE : Int) then some (some ((MODE_RING_DEFAULT : Int), 0))
  else if channel = (CHANNEL_RING_CHASE : Int) then
    (table_at chase_speed (speed - 1)).map (fun b => some ((MODE_RING_CHASE : Int), (b : Int)))
  else if channel = (CHANNEL_RING_SWIRL : Int) then
    (table_at swirl_speed (speed - 1)).map (fun b => some ((MODE_RING_SWIRL : Int), (b : Int)))
  else if channel = (CHANNEL_RING_MORSE : Int) then some (some ((MODE_RING_RAINBOW : Int), 0))
  else some none

/-- The `if` statement that ends `parse_ring_effect`, on the ten parsed values. -/
def parse_ring_effect_if (dev : hid_device)
    (channel speed brightness red green blue red2 green2 blue2 flags : Int) :
    Option (Int × hid_device) :=
  if channel ≥ 0 ∧ speed ≥ 0 ∧ brightness ≥ 0 ∧
      red ≥ 0 ∧ blue ≥ 0 ∧ green ≥ 0 then
    match ring_effect_switch channel speed with
    | none => none
    | some none => some (-1, dev)
    | some (some (mode, speed)) =>
      some (1, wraith_effect_update dev
        (to_uchar channel) (to_uchar speed)
        (to_uchar flags) (to_uchar mode)
        (to_uchar brightness) (to_uchar red) (to_uchar green) (to_uchar blue)
        (to_uchar red2) (to_uchar green2) (to_uchar blue2))
  else some (-1, dev)

def parse_ring_effect (dev : hid_device) (buffer : Option (List Char)) :
    Option (Int × hid_device) :=
  match parse_ring_channel (strsep_nth buffer 0) with
  | none => none
  | some channel =>
    let speed := parse_value (strsep_nth buffer 1) 1 5 false (-1)
    let brightness := parse_value (strsep_nth buffer 2) 0 255 false (-1)
    let red := parse_value (strsep_nth buffer 3) 0 255 false (-1)
    let green := parse_value (strsep_nth buffer 4) 0 255 false (-1)
    let blue := parse_value (strsep_nth buffer 5) 0 255 false (-1)
    let red2 := parse_value (strsep_nth buffer 6) 0 255 true 0
    let green2 := parse_value (strsep_nth buffer 7) 0 255 true 0
    let blue2 := parse_value (strsep_nth buffer 8) 0 255 true 0
    let flags := parse_value (strsep_nth buffer 9) 0 255 true 0x20
    parse_ring_effect_if dev channel speed brightness red green blue red2 green2 blue2 flags

def parse_mirage (dev : hid_device) (buffer : Option (List Char)) : Int × hid_device :=
  let red := parse_value (strsep_nth buffer 0) 0 65536 false (-1)
  let green := parse_value (strsep_nth buffer 1) 0 65336 false (-1)
  let blue := parse_value (strsep_nth buffer 2) 0 65536 false (-1)
  if red ≥ 0 ∧ green ≥ 0 ∧ blue ≥ 0 then
    (1, wraith_mirage dev red.toNat green.toNat blue.toNat)
  else (-1, dev)

def parse_query_channel (dev : hid_device) (buffer : Option (List Char)) : Int × hid_device :=
  let id := parse_value (strsep_nth buffer 0) 0 0x0f false (-1)
  if id ≥ 0 then (0, wraith_query_channel dev (to_uchar id))
  else (-1, dev)

def parse_command (dev : hid_device) (command : List Char) : Option (Int × hid_device) :=
  if command.length ≥ 256 then some (-1, dev)
  else
    let cmd := (strsep (some command) ' ').1
    let buffer := (strsep (some command) ' ').2
    if cmd = some "ring-map".toList then parse_ring_map dev buffer
    else if cmd = some "effect".toList then parse_effect dev buffer
    else if cmd = some "ring-effect".toList then parse_ring_effect dev buffer
    else if cmd = some "mirage".toList then some (parse_mirage dev buffer)
    else if cmd = some "query-channel".toList then some (parse_query_channel dev buffer)
    else some (-1, dev)

/-! ## The command loop -/

/-- The loop `for (i = argc_offset; i < argc; ++i)` of `main` over the remaining
arguments, with the running `n_commands`; it ends at the first command for which
`parse_command` returns a negative value. The loop's own `int ret` shadows the `ret` of
`main`, so its `ret = 1` does not reach the exit status. -/
def main_loop : List (List Char) → hid_device → Nat → Option (Nat × hid_device)
  | [], dev, n_commands => some (n_commands, dev)
  | command :: rest, dev, n_commands =>
    match parse_command dev command with
    | none => none
    | some (ret, dev1) =>
      if ret < 0 then some (n_commands, dev1)
      else main_loop rest dev1 ((n_commands + ret.toNat) % 2 ^ 32)

/-- The function `main`: `argv` holds the program name and the arguments, `hid_init_result`
is what `hid_init()` returns and `opened` what `wraith_open()` returns (`none` for `NULL`).
The result is the exit status and the device as it is when `hid_close` is reached. -/
def main (argv : List (List Char)) (hid_init_result : Int) (opened : Option hid_device) :
    Option (Int × Option hid_device) :=
  let argc := argv.length
  let verbose := decide (argc ≥ 2) && decide (argv.get? 1 = some "-v".toList)
  let argc_offset := if verbose then 2 else 1
  if argc ≥ 2 ∧ ¬ verbose ∧ (argv.getD 1 []).head? = some '-' then some (1, none)
  else if argc ≤ argc_offset then some (1, none)
  else if hid_init_result < 0 then some (1, none)
  else
    match opened with
    | some dev =>
      let dev := wraith_enable dev
      match main_loop (argv.drop argc_offset) dev 0 with
      | none => none
      | some (n_commands, dev) =>
        let dev := if n_commands > 0 then wraith_apply dev else dev
        some (0, some dev)
    | none => some (1, none)

/-! ## Command text -/

/-- The argument text made of the given words with one space between neighbours, as a
`buffer` pointer: `NULL` when there is no word. -/
def words_buffer : List (List Char) → Option (List Char)
  | [] => none
  | w :: ws =>
    match words_buffer ws with
    | none => some w
    | some rest => some (w ++ ' ' :: rest)

/-- The id that `parse_ring_channel` returns for a ring-channel name. -/
def ring_channel_id (name : List Char) : Nat :=
  ((parse_ring_channel (some name)).getD 0).toNat

/-! ## Frequency encoding -/

/-- A value a `p`-bit significand can hold exactly: zero, or `a * 2 ^ z` with `0 < a < 2 ^ p`. -/
def representable (p : Nat) (x : ℚ) : Prop :=
  x = 0 ∨ ∃ (a : ℕ) (z : ℤ), 0 < a ∧ a < 2 ^ p ∧ x = (a : ℚ) * (2 : ℚ) ^ z

/-- Section 4.1 of the specification read literally: exact division, `m` saturated to 255
before `r` is formed, `r0` and `r1` not reduced to a byte. -/
def spec_encode (hz : Nat) : Nat × Nat × Nat :=
  let v : ℚ := 1500000 / (hz : ℚ)
  let m : Nat := min ⌊v / 256⌋.toNat 255
  let r : ℚ := v / ((m : ℚ) + 3 / 4)
  let r0 : Nat := ⌊r⌋.toNat
  let r1 : Nat := ⌊(r - (r0 : ℚ)) * 256⌋.toNat
  (m, r1, r0)

/-- The quotient `v = 1500000 / hz` rounded to single precision. -/
def encode_v (hz : Nat) : ℚ := to_float (1500000 / (hz : ℚ))

/-- The divisor `m = floor (v / 256)`, not saturated. -/
def encode_m (hz : Nat) : Nat := ⌊encode_v hz / 256⌋.toNat

/-- The quotient `r = v / (m + 0.75)` rounded to double and then to single precision. -/
def encode_r (hz : Nat) : ℚ :=
  to_float (to_double (encode_v hz / ((encode_m hz : ℚ) + 3 / 4)))

/-! ## Outcome of a command -/

/-- What a command does, whatever the device: the value `parse_command` returns and the
frame it hands to `wraith_communicate`, if any (read off a run on a fresh device). -/
def command_outcome (command : List Char) : Option (Int × Option (List Nat)) :=
  (parse_command hid_ok command).map (fun res => (res.1, res.2.written.head?))

/-- The frame a command transmits (empty when it transmits none). -/
def command_frame (command : List Char) : List Nat :=
  ((command_outcome command).bind (fun o => o.2)).getD []

/-- An outcome carried out on a device: the frame, if any, goes through
`wraith_communicate`. -/
def apply_outcome (dev : hid_device) (o : Int × Option (List Nat)) : Int × hid_device :=
  (o.1, match o.2 with
    | none => dev
    | some buf => (wraith_communicate dev buf).2)

/-- Shape of an outcome: -1 without a frame, or 0 or 1 with one 65-byte frame. -/
def outcome_ok (o : Option (Int × Option (List Nat))) : Prop :=
  ∀ r f, o = some (r, f) →
    (r = -1 ∧ f = none) ∨ ((r = 0 ∨ r = 1) ∧ ∃ buf, f = some buf ∧ buf.length = 65)

/-! ## Devices for examples -/

/-- A device whose writes and reads all fail. -/
def hid_fail : hid_device :=
  { write_result := fun _ => -1, read_result := fun _ => -1, written := [], reads := 0 }

/-! ## Properties -/

/-! ### Transport -/

theorem wraith_communicate_written (dev : hid_device) (buf : List Nat) :
    (wraith_communicate dev buf).2.written = dev.written ++ [buf.take CMD_SIZE] := by
  unfold wraith_communicate hid_write hid_read
  dsimp only
  split_ifs <;> rfl

theorem wraith_effect_update_buf_eq
    (channel speed flags mode brightness r1 g1 b1 r2 g2 b2 : Nat) :
    wraith_effect_update_buf channel speed flags mode brightness r1 g1 b1 r2 g2 b2
      = [0x00, 0x51, 0x2C, 0x01, 0x00, channel % 256, speed % 256, flags % 256, mode % 256,
          0xFF, brightness % 256, r1 % 256, g1 % 256, b1 % 256, r2 % 256, g2 % 256, b2 % 256]
        ++ List.replicate 48 0xFF := rfl

/-- C1: for all byte values of its arguments, `wraith_effect_update` hands exactly one
frame to the transport; the frame is 65 bytes long and holds 0x00 0x51 0x2C 0x01 0x00 at
offsets 0-4, then channel, speed, flags, mode, 0xFF, brightness, the primary and the
secondary colour at offsets 5-16, and 0xFF at every offset 17..64. -/
theorem wraith_effect_update_frame (dev : hid_device)
    (channel speed flags mode brightness r1 g1 b1 r2 g2 b2 : Nat)
    (hc : channel < 256) (hs : speed < 256) (hf : flags < 256) (hm : mode < 256)
    (hb : brightness < 256) (hr1 : r1 < 256) (hg1 : g1 < 256) (hb1 : b1 < 256)
    (hr2 : r2 < 256) (hg2 : g2 < 256) (hb2 : b2 < 256) :
    (wraith_effect_update dev channel speed flags mode brightness r1 g1 b1 r2 g2 b2).written
      = dev.written ++
        [[0x00, 0x51, 0x2C, 0x01, 0x00, channel, speed, flags, mode, 0xFF, brightness,
          r1, g1, b1, r2, g2, b2] ++ List.replicate 48 0xFF]
    ∧ ([0x00, 0x51, 0x2C, 0x01, 0x00, channel, speed, flags, mode, 0xFF, brightness,
          r1, g1, b1, r2, g2, b2] ++ List.replicate 48 0xFF).length = 65 := by
  refine ⟨?_, by simp⟩
  unfold wraith_effect_update
  rw [wraith_communicate_written, wraith_effect_update_buf_eq]
  simp only [Nat.mod_eq_of_lt, hc, hs, hf, hm, hb, hr1, hg1, hb1, hr2, hg2, hb2]
  rfl

theorem wraith_effect_update_frame_witness :
    (wraith_effect_update hid_ok 5 0xFF 0x20 1 200 10 20 30 40 50 60).written
      = [] ++ [[0x00, 0x51, 0x2C, 0x01, 0x00, 5, 0xFF, 0x20, 1, 0xFF, 200,
          10, 20, 30, 40, 50, 60] ++ List.replicate 48 0xFF]
    ∧ ([0x00, 0x51, 0x2C, 0x01, 0x00, 5, 0xFF, 0x20, 1, 0xFF, 200,
          10, 20, 30, 40, 50, 60] ++ List.replicate 48 0xFF).length = 65 :=
  wraith_effect_update_frame hid_ok 5 0xFF 0x20 1 200 10 20 30 40 50 60
    (by decide) (by decide) (by decide) (by decide) (by decide) (by decide)
    (by decide) (by decide) (by decide) (by decide) (by decide)

/-- C2: with `w` the result of the write call and `r` the result of the read call,
`wraith_communicate` returns 0 exactly when `65 ≤ w` and `r = 64`, and -1 in every other
case; when the write failed (`w < 65`) no read is made; the frame is written once. -/
theorem wraith_communicate_result (dev : hid_device) (buf : List Nat) (w r : Int)
    (hw : dev.write_result dev.written.length = w) (hr : dev.read_result dev.reads = r) :
    ((wraith_communicate dev buf).1 = 0 ↔ (65 ≤ w ∧ r = 64))
    ∧ (¬ (65 ≤ w ∧ r = 64) → (wraith_communicate dev buf).1 = -1)
    ∧ (w < 65 → (wraith_communicate dev buf).2.reads = dev.reads)
    ∧ (65 ≤ w → (wraith_communicate dev buf).2.reads = dev.reads + 1) := by
  subst hw hr
  unfold wraith_communicate hid_write hid_read
  simp only [CMD_SIZE, REPLY_SIZE, Nat.cast_ofNat]
  split_ifs <;> simp <;> omega

theorem wraith_communicate_result_witness :
    ((wraith_communicate hid_ok [1, 2, 3]).1 = 0 ↔ ((65 : Int) ≤ 65 ∧ (64 : Int) = 64))
    ∧ (¬ ((65 : Int) ≤ 65 ∧ (64 : Int) = 64) → (wraith_communicate hid_ok [1, 2, 3]).1 = -1)
    ∧ ((65 : Int) < 65 → (wraith_communicate hid_ok [1, 2, 3]).2.reads = hid_ok.reads)
    ∧ ((65 : Int) ≤ 65 → (wraith_communicate hid_ok [1, 2, 3]).2.reads = hid_ok.reads + 1) :=
  wraith_communicate_result hid_ok [1, 2, 3] 65 64 rfl rfl

/-! ### Frames -/

theorem list_length_fifteen (l : List Nat) (h : l.length = 15) :
    ∃ a0 a1 a2 a3 a4 a5 a6 a7 a8 a9 a10 a11 a12 a13 a14,
      l = [a0, a1, a2, a3, a4, a5, a6, a7, a8, a9, a10, a11, a12, a13, a14] := by
  rcases l with _ | ⟨a0, _ | ⟨a1, _ | ⟨a2, _ | ⟨a3, _ | ⟨a4, _ | ⟨a5, _ | ⟨a6, _ | ⟨a7,
    _ | ⟨a8, _ | ⟨a9, _ | ⟨a10, _ | ⟨a11, _ | ⟨a12, _ | ⟨a13, _ | ⟨a14, _ | ⟨a15, l⟩⟩⟩⟩⟩⟩⟩⟩⟩⟩⟩⟩⟩⟩⟩⟩
    <;> simp at h
  exact ⟨a0, a1, a2, a3, a4, a5, a6, a7, a8, a9, a10, a11, a12, a13, a14, rfl⟩

/-- C4 (as stated, refuted): with every ring slot set to 0x07 the channel-map frame holds
0x07 at offsets 24 and 25, so the ring ids do not end at offset 23 and offsets 24..64 are
not all zero. -/
theorem wraith_channel_map_offsets_24_25 :
    (wraith_channel_map_buf (List.replicate 15 0x07) CHANNEL_LOGO CHANNEL_FAN).drop 23
      = [0x07, 0x07, 0x07] ++ List.replicate 39 0 := by
  decide

/-- C4 (amended): for every logo id, fan id and 15-entry ring array of bytes, the
channel-map frame is 65 bytes, zero-filled, with 0x51 0xA0 at offsets 1-2, 0x01 at offset
3, 0x03 at offset 6, the logo id at offset 9, the fan id at offset 10 and the 15 ring-slot
ids at offsets 11-25; offsets 26..64 are zero. -/
theorem wraith_channel_map_frame (dev : hid_device) (ring : List Nat) (logo fan : Nat)
    (hlen : ring.length = 15) (hring : ∀ x ∈ ring, x < 256)
    (hlogo : logo < 256) (hfan : fan < 256) :
    (wraith_channel_map dev ring logo fan).written
      = dev.written ++
        [[0x00, 0x51, 0xA0, 0x01, 0x00, 0x00, 0x03, 0x00, 0x00, logo, fan] ++ ring
          ++ List.replicate 39 0]
    ∧ ([0x00, 0x51, 0xA0, 0x01, 0x00, 0x00, 0x03, 0x00, 0x00, logo, fan] ++ ring
          ++ List.replicate 39 0).length = 65 := by
  obtain ⟨a0, a1, a2, a3, a4, a5, a6, a7, a8, a9, a10, a11, a12, a13, a14, rfl⟩ :=
    list_length_fifteen ring hlen
  have hbuf : wraith_channel_map_buf
      [a0, a1, a2, a3, a4, a5, a6, a7, a8, a9, a10, a11, a12, a13, a14] logo fan
      = [0x00, 0x51, 0xA0, 0x01, 0x00, 0x00, 0x03, 0x00, 0x00, logo % 256, fan % 256,
          a0 % 256, a1 % 256, a2 % 256, a3 % 256, a4 % 256, a5 % 256, a6 % 256, a7 % 256,
          a8 % 256, a9 % 256, a10 % 256, a11 % 256, a12 % 256, a13 % 256, a14 % 256]
        ++ List.replicate 39 0 := by
    simp [wraith_channel_map_buf, wraith_channel_map_loop, poke, memset, CMD_SIZE,
      List.replicate]
  refine ⟨?_, by simp⟩
  unfold wraith_channel_map
  rw [wraith_communicate_written, hbuf]
  simp only [List.mem_cons, List.mem_singleton, forall_eq_or_imp, forall_eq] at hring
  obtain ⟨h0, h1, h2, h3, h4, h5, h6, h7, h8, h9, h10, h11, h12, h13, h14, -⟩ := hring
  simp only [Nat.mod_eq_of_lt, hlogo, hfan, h0, h1, h2, h3, h4, h5, h6, h7, h8, h9, h10,
    h11, h12, h13, h14]
  rfl

theorem wraith_channel_map_frame_witness :
    (wraith_channel_map hid_ok [0, 2, 1, 7, 8, 9, 10, 11, 0xFE, 0, 2, 1, 7, 8, 9] 5 6).written
      = [] ++
        [[0x00, 0x51, 0xA0, 0x01, 0x00, 0x00, 0x03, 0x00, 0x00, 5, 6]
          ++ [0, 2, 1, 7, 8, 9, 10, 11, 0xFE, 0, 2, 1, 7, 8, 9]
          ++ List.replicate 39 0]
    ∧ ([0x00, 0x51, 0xA0, 0x01, 0x00, 0x00, 0x03, 0x00, 0x00, 5, 6]
          ++ [0, 2, 1, 7, 8, 9, 10, 11, 0xFE, 0, 2, 1, 7, 8, 9]
          ++ List.replicate 39 0).length = 65 :=
  wraith_channel_map_frame hid_ok [0, 2, 1, 7, 8, 9, 10, 11, 0xFE, 0, 2, 1, 7, 8, 9] 5 6
    (by decide) (by decide) (by decide) (by decide)

theorem hz_to_bytes_triple (hz : Nat) :
    ∃ a b c, a < 256 ∧ b < 256 ∧ c < 256 ∧
      ∀ dst off, hz_to_bytes dst off hz = ((dst.set off a).set (off + 1) b).set (off + 2) c := by
  by_cases h : hz = 0
  · exact ⟨0x00, 0xFF, 0x4A, by decide, by decide, by decide, fun dst off => by
      simp [hz_to_bytes, h, poke]⟩
  · exact ⟨(if hz_m hz < 255 then hz_m hz else 255) % 256, hz_r1 hz % 256, hz_r0 hz % 256,
      Nat.mod_lt _ (by decide), Nat.mod_lt _ (by decide), Nat.mod_lt _ (by decide),
      fun dst off => by simp [hz_to_bytes, h, poke]⟩

theorem hz_to_bytes_zero (dst : List Nat) (off : Nat) :
    hz_to_bytes dst off 0 = ((dst.set off 0x00).set (off + 1) 0xFF).set (off + 2) 0x4A := by
  simp [hz_to_bytes, poke]

/-- C5: for all targets `rhz`, `ghz`, `bhz` the mirage frame is 65 bytes and zero
everywhere except 0x51 0x71 at offsets 1-2, the channel-select bytes 0x01, 0x02, 0x03,
0x04 at offsets 5, 9, 13, 17, the triple (0x00, 0xFF, 0x4A) of `hz_to_bytes` at 0 Hz at
offsets 6-8, and the triples `hz_to_bytes` writes for `rhz`, `ghz`, `bhz` at offsets 10-12,
14-16, 18-20; with all three targets 0 all four triples are (0x00, 0xFF, 0x4A). -/
theorem wraith_mirage_frame (dev : hid_device) (rhz ghz bhz : Nat) :
    (wraith_mirage dev rhz ghz bhz).written
      = dev.written ++
        [[0x00, 0x51, 0x71, 0x00, 0x00, 0x01, 0x00, 0xFF, 0x4A, 0x02]
          ++ hz_to_bytes [0, 0, 0] 0 rhz ++ [0x03]
          ++ hz_to_bytes [0, 0, 0] 0 ghz ++ [0x04]
          ++ hz_to_bytes [0, 0, 0] 0 bhz ++ List.replicate 44 0]
    ∧ ([0x00, 0x51, 0x71, 0x00, 0x00, 0x01, 0x00, 0xFF, 0x4A, 0x02]
          ++ hz_to_bytes [0, 0, 0] 0 rhz ++ [0x03]
          ++ hz_to_bytes [0, 0, 0] 0 ghz ++ [0x04]
          ++ hz_to_bytes [0, 0, 0] 0 bhz ++ List.replicate 44 0).length = 65
    ∧ hz_to_bytes [0, 0, 0] 0 0 = [0x00, 0xFF, 0x4A]
    ∧ wraith_mirage_buf 0 0 0
      = [0x00, 0x51, 0x71, 0x00, 0x00, 0x01, 0x00, 0xFF, 0x4A, 0x02, 0x00, 0xFF, 0x4A,
          0x03, 0x00, 0xFF, 0x4A, 0x04, 0x00, 0xFF, 0x4A] ++ List.replicate 44 0 := by
  obtain ⟨ra, rb, rc, -, -, -, hr⟩ := hz_to_bytes_triple rhz
  obtain ⟨ga, gb, gc, -, -, -, hg⟩ := hz_to_bytes_triple ghz
  obtain ⟨ba, bb, bc, -, -, -, hb⟩ := hz_to_bytes_triple bhz
  refine ⟨?_, by simp [hr, hg, hb], by simp [hz_to_bytes_zero], by
    simp [wraith_mirage_buf, hz_to_bytes_zero, poke, memset, CMD_SIZE, List.replicate]⟩
  unfold wraith_mirage
  rw [wraith_communicate_written]
  simp [wraith_mirage_buf, hz_to_bytes_zero, hr, hg, hb, poke, memset, CMD_SIZE,
    List.replicate]

/-! ### Tokens -/

theorem strsep_split_word (w : List Char) (h : ' ' ∉ w) :
    strsep_split ' ' w = (w, none)
    ∧ ∀ rest, strsep_split ' ' (w ++ ' ' :: rest) = (w, some rest) := by
  induction w with
  | nil => exact ⟨rfl, fun rest => by simp [strsep_split]⟩
  | cons c cs ih =>
    have hc : c ≠ ' ' := fun e => h (by simp [e])
    have hcs : ' ' ∉ cs := fun e => h (by simp [e])
    obtain ⟨ih1, ih2⟩ := ih hcs
    exact ⟨by simp [strsep_split, hc, ih1], fun rest => by simp [strsep_split, hc, ih2 rest]⟩

theorem strsep_words (w : List Char) (ws : List (List Char)) (h : ' ' ∉ w) :
    strsep (words_buffer (w :: ws)) ' ' = (some w, words_buffer ws) := by
  obtain ⟨h1, h2⟩ := strsep_split_word w h
  cases hws : words_buffer ws with
  | none => simp [words_buffer, hws, strsep, h1]
  | some rest => simp [words_buffer, hws, strsep, h2 rest]

theorem strsep_nth_words (ws : List (List Char)) (h : ∀ w ∈ ws, ' ' ∉ w) (n : Nat) :
    strsep_nth (words_buffer ws) n = ws.get? n := by
  induction ws generalizing n with
  | nil =>
    induction n with
    | zero => rfl
    | succ n ih => simpa [strsep_nth, words_buffer, strsep] using ih
  | cons w ws ih =>
    have hw : ' ' ∉ w := h w (by simp)
    have hws : ∀ w ∈ ws, ' ' ∉ w := fun x hx => h x (by simp [hx])
    cases n with
    | zero => simp [strsep_nth, strsep_words w ws hw]
    | succ n => simp [strsep_nth, strsep_words w ws hw, ih hws]

/-! ### Ring map -/

theorem ring_channel_strings_spec :
    ∀ n ∈ ring_channel_strings, ' ' ∉ n ∧ ring_channel_id n < 256 ∧
      parse_ring_channel (some n) = some ((ring_channel_id n : Nat) : Int) := by
  decide

theorem poke_append (pre rest : List Nat) (r v : Nat) (hv : v < 256) :
    poke (pre ++ r :: rest) pre.length v = (pre ++ [v]) ++ rest := by
  simp [poke, Nat.mod_eq_of_lt hv]

theorem to_uchar_natCast (v : Nat) (hv : v < 256) : to_uchar (v : Int) = v := by
  unfold to_uchar
  omega

theorem to_uchar_to_schar (v : Nat) (hv : v < 256) : to_uchar (to_schar v) = v := by
  unfold to_uchar to_schar
  split_ifs <;> omega

theorem parse_ring_map_scan_words (names : List (List Char))
    (hvalid : ∀ n ∈ names, n ∈ ring_channel_strings) :
    ∀ pre rest : List Nat, names.length ≤ rest.length →
      parse_ring_map_scan rest.length pre.length (words_buffer names) (pre ++ rest)
        = some (.ok (pre.length + names.length,
            pre ++ names.map ring_channel_id ++ rest.drop names.length)) := by
  induction names with
  | nil =>
    intro pre rest _
    cases rest <;> simp [parse_ring_map_scan, words_buffer, strsep]
  | cons n ns ih =>
    intro pre rest hlen
    obtain ⟨hsp, hlt, hid⟩ := ring_channel_strings_spec n (hvalid n (by simp))
    have hns : ∀ m ∈ ns, m ∈ ring_channel_strings := fun m hm => hvalid m (by simp [hm])
    cases rest with
    | nil => simp at hlen
    | cons r rs =>
      have hlen1 : ns.length ≤ rs.length := by simpa using hlen
      have h := ih hns (pre ++ [ring_channel_id n]) rs hlen1
      simp only [List.length_append, List.length_singleton] at h
      simp only [List.length_cons, parse_ring_map_scan, strsep_words n ns hsp, hid,
        to_uchar_natCast _ hlt, poke_append pre rs r _ hlt, h]
      rw [if_neg (by omega), Nat.add_assoc, Nat.add_comm 1]
      simp

theorem parse_ring_map_fill_spec (value : Int) :
    ∀ pre rest : List Nat,
      parse_ring_map_fill value rest.length pre.length (pre ++ rest)
        = pre ++ List.replicate rest.length (to_uchar value % 256) := by
  intro pre rest
  induction rest generalizing pre with
  | nil => simp [parse_ring_map_fill]
  | cons r rs ih =>
    have h := ih (pre ++ [to_uchar value % 256])
    simp only [List.length_append, List.length_singleton] at h
    simp only [List.length_cons, parse_ring_map_fill]
    have hp : poke (pre ++ r :: rs) pre.length (to_uchar value)
        = (pre ++ [to_uchar value % 256]) ++ rs := by simp [poke]
    rw [hp, h]
    simp [List.replicate_succ]

theorem parse_ring_map_ring_words (names : List (List Char)) (hne : names ≠ [])
    (hlen : names.length ≤ 15) (hvalid : ∀ n ∈ names, n ∈ ring_channel_strings) :
    parse_ring_map_ring (words_buffer names)
      = some (.ok (names.map ring_channel_id
          ++ List.replicate (15 - names.length) (ring_channel_id (names.getLast hne)))) := by
  have hscan := parse_ring_map_scan_words names hvalid [] (List.replicate 15 0)
    (by simpa using hlen)
  simp only [List.length_replicate, List.length_nil, Nat.zero_add, List.nil_append,
    List.drop_replicate] at hscan
  have hk : names.length ≠ 0 := by simpa using hne
  have hlast : ring_channel_id (names.getLast hne) < 256 :=
    (ring_channel_strings_spec _ (hvalid _ (List.getLast_mem hne))).2.1
  have hget : (names.map ring_channel_id ++ List.replicate (15 - names.length) 0).getD
      (names.length - 1) 0 = ring_channel_id (names.getLast hne) := by
    have hlt : names.length - 1 < (names.map ring_channel_id).length := by
      simp only [List.length_map]
      omega
    rw [List.getD_eq_getElem?_getD, List.getElem?_append_left hlt, List.getElem?_eq_getElem hlt]
    simp [List.getLast_eq_getElem]
  have hfill := parse_ring_map_fill_spec (to_schar (ring_channel_id (names.getLast hne)))
    (names.map ring_channel_id) (List.replicate (15 - names.length) 0)
  simp only [List.length_replicate, List.length_map] at hfill
  simp only [parse_ring_map_ring, hscan, if_neg hk, hget, hfill, to_uchar_to_schar _ hlast,
    Nat.mod_eq_of_lt hlast]

/-- C3: for every list of `k` valid ring-channel names, `1 ≤ k ≤ 15`, `parse_ring_map`
builds a 15-entry ring whose slot `i < k` holds the id of the `i`-th name and whose slots
`k ≤ i < 15` hold the id of the last name (also when that id is `off` = 0xFE, which passes
through a signed `char`), hands it to `wraith_channel_map` and returns 1; with no name it
returns -1 and builds no frame. -/
theorem parse_ring_map_right_fill (dev : hid_device) (names : List (List Char))
    (hne : names ≠ []) (hlen : names.length ≤ 15)
    (hvalid : ∀ n ∈ names, n ∈ ring_channel_strings) :
    parse_ring_map dev (words_buffer names)
      = some (1, wraith_channel_map dev
          (names.map ring_channel_id
            ++ List.replicate (15 - names.length) (ring_channel_id (names.getLast hne)))
          CHANNEL_LOGO CHANNEL_FAN)
    ∧ (names.map ring_channel_id
        ++ List.replicate (15 - names.length) (ring_channel_id (names.getLast hne))).length = 15
    ∧ (∀ n ∈ names, parse_ring_channel (some n) = some ((ring_channel_id n : Nat) : Int))
    ∧ ring_channel_id "off".toList = 0xFE
    ∧ to_uchar (to_schar 0xFE) = 0xFE
    ∧ parse_ring_map dev (words_buffer []) = some (-1, dev) := by
  refine ⟨?_, ?_, fun n hn => (ring_channel_strings_spec n (hvalid n hn)).2.2, by decide,
    by decide, rfl⟩
  · simp only [parse_ring_map, parse_ring_map_ring_words names hne hlen hvalid]
  · simp only [List.length_append, List.length_map, List.length_replicate]
    omega

theorem parse_ring_map_right_fill_witness :
    parse_ring_map hid_ok (some "static cycle off".toList)
      = some (1, wraith_channel_map hid_ok
          [0x00, 0x02, 0xFE, 0xFE, 0xFE, 0xFE, 0xFE, 0xFE, 0xFE, 0xFE, 0xFE, 0xFE, 0xFE, 0xFE,
            0xFE] CHANNEL_LOGO CHANNEL_FAN) := by
  have h := (parse_ring_map_right_fill hid_ok ["static".toList, "cycle".toList, "off".toList]
    (by decide) (by decide) (by decide)).1
  have hbuf : words_buffer ["static".toList, "cycle".toList, "off".toList]
      = some "static cycle off".toList := by decide
  have hring : (["static".toList, "cycle".toList, "off".toList].map ring_channel_id
      ++ List.replicate (15 - 3) (ring_channel_id "off".toList))
      = [0x00, 0x02, 0xFE, 0xFE, 0xFE, 0xFE, 0xFE, 0xFE, 0xFE, 0xFE, 0xFE, 0xFE, 0xFE, 0xFE,
          0xFE] := by decide
  rw [hbuf] at h
  rw [h]
  exact congrArg (fun ring => some ((1 : Int), wraith_channel_map hid_ok ring
    CHANNEL_LOGO CHANNEL_FAN)) hring

/-! ### Effects -/

theorem parse_value_some (s : List Char) (min max : Int) (ig : Bool) (defv : Int) :
    parse_value (some s) min max ig defv
      = if min ≤ to_int (strtoul s) ∧ to_int (strtoul s) ≤ max then to_int (strtoul s)
        else defv := rfl

theorem parse_value_in_range (s : List Char) (min max : Int) (ig : Bool) (defv : Int)
    (h : min ≤ to_int (strtoul s) ∧ to_int (strtoul s) ≤ max) :
    parse_value (some s) min max ig defv = to_int (strtoul s) := by
  rw [parse_value_some, if_pos h]

theorem wraith_effect_update_written (dev : hid_device)
    (channel speed flags mode brightness r1 g1 b1 r2 g2 b2 : Nat) :
    (wraith_effect_update dev channel speed flags mode brightness r1 g1 b1 r2 g2 b2).written
      = dev.written ++
        [[0x00, 0x51, 0x2C, 0x01, 0x00, channel % 256, speed % 256, flags % 256, mode % 256,
          0xFF, brightness % 256, r1 % 256, g1 % 256, b1 % 256, r2 % 256, g2 % 256, b2 % 256]
        ++ List.replicate 48 0xFF] := by
  unfold wraith_effect_update
  rw [wraith_communicate_written, wraith_effect_update_buf_eq]
  rfl


theorem wraith_effect_update_bytes (dev : hid_device)
    (channel speed flags mode brightness r1 g1 b1 r2 g2 b2 : Nat) :
    ∃ frame : List Nat,
      (wraith_effect_update dev channel speed flags mode brightness r1 g1 b1 r2 g2 b2).written
        = dev.written ++ [frame]
      ∧ frame.length = 65
      ∧ frame.get? 5 = some (channel % 256)
      ∧ frame.get? 6 = some (speed % 256)
      ∧ frame.get? 8 = some (mode % 256) :=
  ⟨_, wraith_effect_update_written dev channel speed flags mode brightness r1 g1 b1 r2 g2 b2,
    by simp, rfl, rfl, rfl⟩

theorem effect_switch_table (mode L : Int) (hL : 1 ≤ L ∧ L ≤ 5)
    (hm : mode = 2 ∨ mode = 3) :
    (L - 1).toNat < 5 ∧
    ∃ v : Nat, v < 256 ∧ effect_switch mode L = some (some (v : Int))
      ∧ (if mode = 2 then [0x96, 0x8C, 0x80, 0x6E, 0x68]
          else [0x3C, 0x37, 0x31, 0x2C, 0x26]).get? (L - 1).toNat = some v := by
  obtain ⟨h1, h5⟩ := hL
  refine ⟨by omega, ?_⟩
  rcases hm with rfl | rfl <;> interval_cases L <;>
    simp [effect_switch, MODE_STATIC, MODE_COLOUR_CYCLE, MODE_BREATH, table_at, cycle_speed,
      breath_speed]

/-- C8: for an effect command on `logo` or `fan` with mode `cycle` or `breath` and valid
brightness and primary colour, a speed level `L` with `1 ≤ L ≤ 5` gives return value 1
and one frame whose byte at offset 6 is entry `L - 1` of the mode's table (cycle: 0x96,
0x8C, 0x80, 0x6E, 0x68; breath: 0x3C, 0x37, 0x31, 0x2C, 0x26), the index being below 5;
a level outside 1-5 gives return value -1 with no table read and no frame. -/
theorem parse_effect_speed_level (dev : hid_device)
    (ch md lvl br r g b : List Char) (opt : List (List Char)) (L : Int)
    (hsp : ∀ t ∈ ch :: md :: lvl :: br :: r :: g :: b :: opt, ' ' ∉ t)
    (hch : ch = "logo".toList ∨ ch = "fan".toList)
    (hmd : md = "cycle".toList ∨ md = "breath".toList)
    (hL : to_int (strtoul lvl) = L)
    (hbr : 0 ≤ to_int (strtoul br) ∧ to_int (strtoul br) ≤ 255)
    (hr : 0 ≤ to_int (strtoul r) ∧ to_int (strtoul r) ≤ 255)
    (hg : 0 ≤ to_int (strtoul g) ∧ to_int (strtoul g) ≤ 255)
    (hb : 0 ≤ to_int (strtoul b) ∧ to_int (strtoul b) ≤ 255) :
    (1 ≤ L ∧ L ≤ 5 →
      (L - 1).toNat < 5 ∧
      ∃ frame : List Nat,
        (parse_effect dev (words_buffer (ch :: md :: lvl :: br :: r :: g :: b :: opt))).map
            (fun res => (res.1, res.2.written)) = some (1, dev.written ++ [frame])
        ∧ frame.length = 65
        ∧ frame.get? 6 =
            (if md = "cycle".toList then [0x96, 0x8C, 0x80, 0x6E, 0x68]
              else [0x3C, 0x37, 0x31, 0x2C, 0x26]).get? (L - 1).toNat)
    ∧ (¬ (1 ≤ L ∧ L ≤ 5) →
      parse_effect dev (words_buffer (ch :: md :: lvl :: br :: r :: g :: b :: opt))
        = some (-1, dev)) := by
  have hn := strsep_nth_words _ hsp
  obtain ⟨c, hc, hc0⟩ : ∃ c : Int, parse_channel (some ch) = some c ∧ 0 ≤ c := by
    rcases hch with rfl | rfl
    · exact ⟨5, by decide, by decide⟩
    · exact ⟨6, by decide, by decide⟩
  obtain ⟨m, hm, hm23, hmif⟩ : ∃ m : Int, parse_mode (some md) = some m ∧ (m = 2 ∨ m = 3)
      ∧ (m = 2 ↔ md = "cycle".toList) := by
    rcases hmd with rfl | rfl
    · exact ⟨2, by decide, Or.inl rfl, by decide⟩
    · exact ⟨3, by decide, Or.inr rfl, by decide⟩
  have hpe : parse_effect dev (words_buffer (ch :: md :: lvl :: br :: r :: g :: b :: opt))
      = parse_effect_if dev c m (parse_value (some lvl) 1 5 false (-1))
          (to_int (strtoul br)) (to_int (strtoul r)) (to_int (strtoul g)) (to_int (strtoul b))
          (parse_value (opt.get? 0) 0 255 true 0) (parse_value (opt.get? 1) 0 255 true 0)
          (parse_value (opt.get? 2) 0 255 true 0) (parse_value (opt.get? 3) 0 255 true 0x20) := by
    simp only [parse_effect, hn, List.get?, hc, hm, parse_value_in_range _ _ _ _ _ hbr,
      parse_value_in_range _ _ _ _ _ hr, parse_value_in_range _ _ _ _ _ hg,
      parse_value_in_range _ _ _ _ _ hb]
  rw [hpe]
  constructor
  · intro hrange
    obtain ⟨hidx, v, hv, hsw, htab⟩ := effect_switch_table m L hrange hm23
    obtain ⟨frame, hw, hlen, -, h6, -⟩ := wraith_effect_update_bytes dev (to_uchar c)
      (to_uchar (v : Int))
      (to_uchar (parse_value (opt.get? 3) 0 255 true 0x20)) (to_uchar m)
      (to_uchar (to_int (strtoul br))) (to_uchar (to_int (strtoul r)))
      (to_uchar (to_int (strtoul g))) (to_uchar (to_int (strtoul b)))
      (to_uchar (parse_value (opt.get? 0) 0 255 true 0))
      (to_uchar (parse_value (opt.get? 1) 0 255 true 0))
      (to_uchar (parse_value (opt.get? 2) 0 255 true 0))
    refine ⟨hidx, frame, ?_, hlen, ?_⟩
    · rw [parse_value_in_range _ _ _ _ _ (by rw [hL]; exact hrange), hL]
      unfold parse_effect_if
      rw [if_pos ⟨hc0, by omega, by omega, hbr.1, hr.1, hb.1, hg.1⟩, hsw]
      exact congrArg (fun w => some ((1 : Int), w)) hw
    · rw [h6, to_uchar_natCast v hv, Nat.mod_eq_of_lt hv, ← htab]
      simp [hmif]
  · intro hrange
    rw [parse_value_some, if_neg (by rw [hL]; exact hrange)]
    unfold parse_effect_if
    rw [if_neg (by omega)]

theorem parse_effect_speed_level_witness :
    ((1 : Int) ≤ 3 ∧ (3 : Int) ≤ 5 →
      ((3 : Int) - 1).toNat < 5 ∧
      ∃ frame : List Nat,
        (parse_effect hid_ok (words_buffer ["logo".toList, "breath".toList, "3".toList,
            "255".toList, "1".toList, "2".toList, "3".toList])).map
            (fun res => (res.1, res.2.written)) = some (1, hid_ok.written ++ [frame])
        ∧ frame.length = 65
        ∧ frame.get? 6 =
            (if "breath".toList = "cycle".toList then [0x96, 0x8C, 0x80, 0x6E, 0x68]
              else [0x3C, 0x37, 0x31, 0x2C, 0x26]).get? ((3 : Int) - 1).toNat)
    ∧ (¬ ((1 : Int) ≤ 3 ∧ (3 : Int) ≤ 5) →
      parse_effect hid_ok (words_buffer ["logo".toList, "breath".toList, "3".toList,
            "255".toList, "1".toList, "2".toList, "3".toList])
        = some (-1, hid_ok)) :=
  parse_effect_speed_level hid_ok "logo".toList "breath".toList "3".toList "255".toList
    "1".toList "2".toList "3".toList [] 3 (by decide) (Or.inl rfl) (Or.inr rfl) (by decide)
    (by decide) (by decide) (by decide) (by decide)

theorem ring_effect_switch_fixed (c L : Int) (hc : c = 0 ∨ c = 8 ∨ c = 11) :
    ∃ mode : Int, ring_effect_switch c L = some (some (mode, if c = 0 then 0xFF else 0)) := by
  rcases hc with rfl | rfl | rfl <;>
    simp [ring_effect_switch, CHANNEL_RING_STATIC, CHANNEL_RING_COLOUR_CYCLE,
      CHANNEL_RING_BREATH, CHANNEL_RING_RAINBOW, CHANNEL_RING_BOUNCE, CHANNEL_RING_CHASE,
      CHANNEL_RING_SWIRL, CHANNEL_RING_MORSE, STATIC_SPEED]

/-- C9 (as stated, refuted): a ring-effect on `bounce` with speed level 6, and one on
`morse` with speed level 0, both otherwise valid, are rejected with -1 and no frame; the
level is not ignored. -/
theorem ring_effect_level_not_ignored :
    (parse_ring_effect hid_ok (some "bounce 6 255 255 0 0".toList)).map
        (fun res => (res.1, res.2.written)) = some (-1, [])
    ∧ (parse_ring_effect hid_ok (some "morse 0 255 255 0 0".toList)).map
        (fun res => (res.1, res.2.written)) = some (-1, []) := by
  decide

/-- C9 (amended): for every speed level `L` with `1 ≤ L ≤ 5`, an otherwise valid static
effect (logo or fan with mode `static`, or ring channel `static`) is accepted with speed
byte 0xFF and an otherwise valid ring-effect on `bounce` or `morse` is accepted with speed
byte 0x00, whatever `L` is; with a level outside 1-5 the ring-effect on `bounce` or `morse`
is rejected with -1 and no frame. -/
theorem speed_level_ignored_in_range (dev : hid_device)
    (ch rc lvl br r g b : List Char) (opt : List (List Char)) (L : Int)
    (hsp : ∀ t ∈ ch :: rc :: lvl :: br :: r :: g :: b :: opt, ' ' ∉ t)
    (hch : ch = "logo".toList ∨ ch = "fan".toList)
    (hrc : rc = "static".toList ∨ rc = "bounce".toList ∨ rc = "morse".toList)
    (hL : to_int (strtoul lvl) = L)
    (hbr : 0 ≤ to_int (strtoul br) ∧ to_int (strtoul br) ≤ 255)
    (hr : 0 ≤ to_int (strtoul r) ∧ to_int (strtoul r) ≤ 255)
    (hg : 0 ≤ to_int (strtoul g) ∧ to_int (strtoul g) ≤ 255)
    (hb : 0 ≤ to_int (strtoul b) ∧ to_int (strtoul b) ≤ 255) :
    (1 ≤ L ∧ L ≤ 5 →
      (∃ frame : List Nat,
        (parse_effect dev
            (words_buffer (ch :: "static".toList :: lvl :: br :: r :: g :: b :: opt))).map
          (fun res => (res.1, res.2.written)) = some (1, dev.written ++ [frame])
        ∧ frame.get? 6 = some 0xFF)
      ∧ (∃ frame : List Nat,
        (parse_ring_effect dev (words_buffer (rc :: lvl :: br :: r :: g :: b :: opt))).map
          (fun res => (res.1, res.2.written)) = some (1, dev.written ++ [frame])
        ∧ frame.get? 6 = some (if rc = "static".toList then 0xFF else 0x00)))
    ∧ (¬ (1 ≤ L ∧ L ≤ 5) → rc ≠ "static".toList →
      parse_ring_effect dev (words_buffer (rc :: lvl :: br :: r :: g :: b :: opt))
        = some (-1, dev)) := by
  have hsp1 : ∀ t ∈ ch :: "static".toList :: lvl :: br :: r :: g :: b :: opt, ' ' ∉ t := by
    intro t ht
    rcases List.mem_cons.1 ht with rfl | ht
    · exact hsp _ (by simp)
    · rcases List.mem_cons.1 ht with rfl | ht
      · decide
      · exact hsp t (by simp [ht])
  have hsp2 : ∀ t ∈ rc :: lvl :: br :: r :: g :: b :: opt, ' ' ∉ t :=
    fun t ht => hsp t (by simp [ht])
  have hn1 := strsep_nth_words _ hsp1
  have hn2 := strsep_nth_words _ hsp2
  obtain ⟨c, hc, hc0⟩ : ∃ c : Int, parse_channel (some ch) = some c ∧ 0 ≤ c := by
    rcases hch with rfl | rfl
    · exact ⟨5, by decide, by decide⟩
    · exact ⟨6, by decide, by decide⟩
  obtain ⟨k, hk, hk3, hkif⟩ : ∃ k : Int, parse_ring_channel (some rc) = some k
      ∧ (k = 0 ∨ k = 8 ∨ k = 11) ∧ (k = 0 ↔ rc = "static".toList) := by
    rcases hrc with rfl | rfl | rfl
    · exact ⟨0, by decide, by decide, by decide⟩
    · exact ⟨8, by decide, by decide, by decide⟩
    · exact ⟨11, by decide, by decide, by decide⟩
  have hmode : parse_mode (some "static".toList) = some 1 := by decide
  have hpe : parse_effect dev
      (words_buffer (ch :: "static".toList :: lvl :: br :: r :: g :: b :: opt))
      = parse_effect_if dev c 1 (parse_value (some lvl) 1 5 false (-1))
          (to_int (strtoul br)) (to_int (strtoul r)) (to_int (strtoul g)) (to_int (strtoul b))
          (parse_value (opt.get? 0) 0 255 true 0) (parse_value (opt.get? 1) 0 255 true 0)
          (parse_value (opt.get? 2) 0 255 true 0) (parse_value (opt.get? 3) 0 255 true 0x20) := by
    simp only [parse_effect, hn1, List.get?, hc, hmode, parse_value_in_range _ _ _ _ _ hbr,
      parse_value_in_range _ _ _ _ _ hr, parse_value_in_range _ _ _ _ _ hg,
      parse_value_in_range _ _ _ _ _ hb]
  have hpr : parse_ring_effect dev (words_buffer (rc :: lvl :: br :: r :: g :: b :: opt))
      = parse_ring_effect_if dev k (parse_value (some lvl) 1 5 false (-1))
          (to_int (strtoul br)) (to_int (strtoul r)) (to_int (strtoul g)) (to_int (strtoul b))
          (parse_value (opt.get? 0) 0 255 true 0) (parse_value (opt.get? 1) 0 255 true 0)
          (parse_value (opt.get? 2) 0 255 true 0) (parse_value (opt.get? 3) 0 255 true 0x20) := by
    simp only [parse_ring_effect, hn2, List.get?, hk, parse_value_in_range _ _ _ _ _ hbr,
      parse_value_in_range _ _ _ _ _ hr, parse_value_in_range _ _ _ _ _ hg,
      parse_value_in_range _ _ _ _ _ hb]
  rw [hpe, hpr]
  refine ⟨fun hrange => ⟨?_, ?_⟩, fun hrange _ => ?_⟩
  · obtain ⟨frame, hw, -, -, h6, -⟩ := wraith_effect_update_bytes dev (to_uchar c)
      (to_uchar ((STATIC_SPEED : Nat) : Int))
      (to_uchar (parse_value (opt.get? 3) 0 255 true 0x20)) (to_uchar 1)
      (to_uchar (to_int (strtoul br))) (to_uchar (to_int (strtoul r)))
      (to_uchar (to_int (strtoul g))) (to_uchar (to_int (strtoul b)))
      (to_uchar (parse_value (opt.get? 0) 0 255 true 0))
      (to_uchar (parse_value (opt.get? 1) 0 255 true 0))
      (to_uchar (parse_value (opt.get? 2) 0 255 true 0))
    refine ⟨frame, ?_, by rw [h6]; rfl⟩
    rw [parse_value_in_range _ _ _ _ _ (by rw [hL]; exact hrange), hL]
    unfold parse_effect_if
    rw [if_pos ⟨hc0, by omega, by omega, hbr.1, hr.1, hb.1, hg.1⟩]
    have hsw : effect_switch 1 L = some (some ((STATIC_SPEED : Nat) : Int)) := by
      simp [effect_switch, MODE_STATIC]
    rw [hsw]
    exact congrArg (fun w => some ((1 : Int), w)) hw
  · obtain ⟨mode, hsw⟩ := ring_effect_switch_fixed k L hk3
    obtain ⟨frame, hw, -, -, h6, -⟩ := wraith_effect_update_bytes dev (to_uchar k)
      (to_uchar (if k = 0 then 0xFF else 0))
      (to_uchar (parse_value (opt.get? 3) 0 255 true 0x20)) (to_uchar mode)
      (to_uchar (to_int (strtoul br))) (to_uchar (to_int (strtoul r)))
      (to_uchar (to_int (strtoul g))) (to_uchar (to_int (strtoul b)))
      (to_uchar (parse_value (opt.get? 0) 0 255 true 0))
      (to_uchar (parse_value (opt.get? 1) 0 255 true 0))
      (to_uchar (parse_value (opt.get? 2) 0 255 true 0))
    refine ⟨frame, ?_, ?_⟩
    · rw [parse_value_in_range _ _ _ _ _ (by rw [hL]; exact hrange), hL]
      unfold parse_ring_effect_if
      rw [if_pos ⟨by omega, by omega, hbr.1, hr.1, hb.1, hg.1⟩, hsw]
      exact congrArg (fun w => some ((1 : Int), w)) hw
    · rw [h6]
      by_cases h0 : k = 0
      · rw [if_pos h0, if_pos (hkif.1 h0)]
        rfl
      · rw [if_neg h0, if_neg (fun h => h0 (hkif.2 h))]
        rfl
  · rw [parse_value_some, if_neg (by rw [hL]; exact hrange)]
    unfold parse_ring_effect_if
    rw [if_neg (by omega)]

theorem speed_level_ignored_in_range_witness :
    ((1 : Int) ≤ 4 ∧ (4 : Int) ≤ 5 →
      (∃ frame : List Nat,
        (parse_effect hid_ok
            (words_buffer ["fan".toList, "static".toList, "4".toList, "255".toList,
              "1".toList, "2".toList, "3".toList])).map
          (fun res => (res.1, res.2.written)) = some (1, hid_ok.written ++ [frame])
        ∧ frame.get? 6 = some 0xFF)
      ∧ (∃ frame : List Nat,
        (parse_ring_effect hid_ok (words_buffer ["morse".toList, "4".toList, "255".toList,
              "1".toList, "2".toList, "3".toList])).map
          (fun res => (res.1, res.2.written)) = some (1, hid_ok.written ++ [frame])
        ∧ frame.get? 6 = some (if "morse".toList = "static".toList then 0xFF else 0x00)))
    ∧ (¬ ((1 : Int) ≤ 4 ∧ (4 : Int) ≤ 5) → "morse".toList ≠ "static".toList →
      parse_ring_effect hid_ok (words_buffer ["morse".toList, "4".toList, "255".toList,
              "1".toList, "2".toList, "3".toList])
        = some (-1, hid_ok)) :=
  speed_level_ignored_in_range hid_ok "fan".toList "morse".toList "4".toList "255".toList
    "1".toList "2".toList "3".toList [] 4 (by decide) (Or.inr rfl) (Or.inr (Or.inr rfl))
    (by decide) (by decide) (by decide) (by decide) (by decide)

/-! ### Commands and the device -/

theorem poke_length (buf : List Nat) (i v : Nat) : (poke buf i v).length = buf.length := by
  simp [poke]

theorem wraith_effect_update_buf_length
    (channel speed flags mode brightness r1 g1 b1 r2 g2 b2 : Nat) :
    (wraith_effect_update_buf channel speed flags mode brightness r1 g1 b1 r2 g2 b2).length
      = 65 := by
  rw [wraith_effect_update_buf_eq]
  simp

theorem wraith_channel_map_loop_length (ring : List Nat) (fuel i : Nat) (buf : List Nat) :
    (wraith_channel_map_loop ring fuel i buf).length = buf.length := by
  induction fuel generalizing i buf with
  | zero => rfl
  | succ n ih => simp [wraith_channel_map_loop, ih, poke_length]

theorem wraith_channel_map_buf_length (ring : List Nat) (logo fan : Nat) :
    (wraith_channel_map_buf ring logo fan).length = 65 := by
  simp [wraith_channel_map_buf, wraith_channel_map_loop_length, poke_length, memset, CMD_SIZE]

theorem hz_to_bytes_length_eq (dst : List Nat) (off hz : Nat) :
    (hz_to_bytes dst off hz).length = dst.length := by
  obtain ⟨a, b, c, -, -, -, h⟩ := hz_to_bytes_triple hz
  simp [h]

theorem wraith_mirage_buf_length (rhz ghz bhz : Nat) :
    (wraith_mirage_buf rhz ghz bhz).length = 65 := by
  simp [wraith_mirage_buf, hz_to_bytes_length_eq, poke_length, memset, CMD_SIZE]

theorem wraith_query_channel_buf_length (channel : Nat) :
    (wraith_query_channel_buf channel).length = 65 := by
  simp [wraith_query_channel_buf, poke_length, memset, CMD_SIZE]

theorem outcome_ok_reject : outcome_ok (some (-1, none)) := by
  intro r f h
  simp only [Option.some.injEq, Prod.mk.injEq] at h
  exact Or.inl ⟨h.1.symm, h.2.symm⟩

theorem outcome_ok_none : outcome_ok none := by
  intro r f h
  simp at h

theorem outcome_ok_frame (r : Int) (buf : List Nat) (hr : r = 0 ∨ r = 1)
    (hbuf : buf.length = 65) : outcome_ok (some (r, some buf)) := by
  intro r1 f h
  simp only [Option.some.injEq, Prod.mk.injEq] at h
  obtain ⟨rfl, rfl⟩ := h
  exact Or.inr ⟨hr, buf, rfl, hbuf⟩

theorem parse_effect_if_outcome
    (channel mode speed brightness red green blue red2 green2 blue2 flags : Int) :
    ∃ o, outcome_ok o ∧ ∀ dev, parse_effect_if dev channel mode speed brightness red green
      blue red2 green2 blue2 flags = o.map (apply_outcome dev) := by
  unfold parse_effect_if
  split_ifs
  · split
    · exact ⟨none, outcome_ok_none, fun _ => rfl⟩
    · exact ⟨some (-1, none), outcome_ok_reject, fun _ => rfl⟩
    · exact ⟨some (1, some _), outcome_ok_frame 1 _ (Or.inr rfl)
        (wraith_effect_update_buf_length _ _ _ _ _ _ _ _ _ _ _), fun _ => rfl⟩
  · exact ⟨some (-1, none), outcome_ok_reject, fun _ => rfl⟩

theorem parse_effect_outcome (buffer : Option (List Char)) :
    ∃ o, outcome_ok o ∧ ∀ dev, parse_effect dev buffer = o.map (apply_outcome dev) := by
  unfold parse_effect
  split
  · exact ⟨none, outcome_ok_none, fun _ => rfl⟩
  · split
    · exact ⟨none, outcome_ok_none, fun _ => rfl⟩
    · exact parse_effect_if_outcome _ _ _ _ _ _ _ _ _ _ _

theorem parse_ring_effect_if_outcome
    (channel speed brightness red green blue red2 green2 blue2 flags : Int) :
    ∃ o, outcome_ok o ∧ ∀ dev, parse_ring_effect_if dev channel speed brightness red green
      blue red2 green2 blue2 flags = o.map (apply_outcome dev) := by
  unfold parse_ring_effect_if
  split_ifs
  · split
    · exact ⟨none, outcome_ok_none, fun _ => rfl⟩
    · exact ⟨some (-1, none), outcome_ok_reject, fun _ => rfl⟩
    · exact ⟨some (1, some _), outcome_ok_frame 1 _ (Or.inr rfl)
        (wraith_effect_update_buf_length _ _ _ _ _ _ _ _ _ _ _), fun _ => rfl⟩
  · exact ⟨some (-1, none), outcome_ok_reject, fun _ => rfl⟩

theorem parse_ring_effect_outcome (buffer : Option (List Char)) :
    ∃ o, outcome_ok o ∧ ∀ dev, parse_ring_effect dev buffer = o.map (apply_outcome dev) := by
  unfold parse_ring_effect
  split
  · exact ⟨none, outcome_ok_none, fun _ => rfl⟩
  · exact parse_ring_effect_if_outcome _ _ _ _ _ _ _ _ _ _

theorem parse_ring_map_scan_error (fuel i : Nat) (buffer : Option (List Char))
    (ring : List Nat) (r : Int)
    (h : parse_ring_map_scan fuel i buffer ring = some (.error r)) : r = -1 := by
  induction fuel generalizing i buffer ring with
  | zero => simp [parse_ring_map_scan] at h
  | succ n ih =>
    unfold parse_ring_map_scan at h
    split at h
    · simp at h
    · split at h
      · simp at h
      · split_ifs at h
        · simp only [Option.some.injEq, Except.error.injEq] at h
          exact h.symm
        · exact ih _ _ _ h

theorem parse_ring_map_ring_error (buffer : Option (List Char)) (r : Int)
    (h : parse_ring_map_ring buffer = some (.error r)) : r = -1 := by
  unfold parse_ring_map_ring at h
  split at h
  · simp at h
  · rename_i r1 hscan
    simp only [Option.some.injEq, Except.error.injEq] at h
    subst h
    exact parse_ring_map_scan_error _ _ _ _ _ hscan
  · split_ifs at h
    · simp only [Option.some.injEq, Except.error.injEq] at h
      exact h.symm
    · simp at h

theorem parse_ring_map_outcome (buffer : Option (List Char)) :
    ∃ o, outcome_ok o ∧ ∀ dev, parse_ring_map dev buffer = o.map (apply_outcome dev) := by
  unfold parse_ring_map
  split
  · exact ⟨none, outcome_ok_none, fun _ => rfl⟩
  · rename_i r hring
    rw [parse_ring_map_ring_error buffer r hring]
    exact ⟨some (-1, none), outcome_ok_reject, fun _ => rfl⟩
  · exact ⟨some (1, some _), outcome_ok_frame 1 _ (Or.inr rfl)
      (wraith_channel_map_buf_length _ _ _), fun _ => rfl⟩

theorem parse_mirage_outcome (buffer : Option (List Char)) :
    ∃ o, outcome_ok o ∧ ∀ dev, some (parse_mirage dev buffer) = o.map (apply_outcome dev) := by
  unfold parse_mirage
  dsimp only
  split_ifs
  · exact ⟨some (1, some _), outcome_ok_frame 1 _ (Or.inr rfl)
      (wraith_mirage_buf_length _ _ _), fun _ => rfl⟩
  · exact ⟨some (-1, none), outcome_ok_reject, fun _ => rfl⟩

theorem parse_query_channel_outcome (buffer : Option (List Char)) :
    ∃ o, outcome_ok o ∧
      ∀ dev, some (parse_query_channel dev buffer) = o.map (apply_outcome dev) := by
  unfold parse_query_channel
  dsimp only
  split_ifs
  · exact ⟨some (0, some _), outcome_ok_frame 0 _ (Or.inl rfl)
      (wraith_query_channel_buf_length _), fun _ => rfl⟩
  · exact ⟨some (-1, none), outcome_ok_reject, fun _ => rfl⟩

theorem parse_command_outcome_exists (command : List Char) :
    ∃ o, outcome_ok o ∧ ∀ dev, parse_command dev command = o.map (apply_outcome dev) := by
  unfold parse_command
  dsimp only
  split_ifs
  · exact ⟨some (-1, none), outcome_ok_reject, fun _ => rfl⟩
  · exact parse_ring_map_outcome _
  · exact parse_effect_outcome _
  · exact parse_ring_effect_outcome _
  · exact parse_mirage_outcome _
  · exact parse_query_channel_outcome _
  · exact ⟨some (-1, none), outcome_ok_reject, fun _ => rfl⟩

theorem parse_command_outcome (dev : hid_device) (command : List Char) :
    parse_command dev command = (command_outcome command).map (apply_outcome dev)
    ∧ outcome_ok (command_outcome command) := by
  obtain ⟨o, hok, h⟩ := parse_command_outcome_exists command
  have ho : command_outcome command = o := by
    unfold command_outcome
    rw [h hid_ok]
    rcases o with _ | ⟨r, f⟩
    · rfl
    · rcases hok r f rfl with ⟨-, rfl⟩ | ⟨-, buf, rfl, hlen⟩
      · rfl
      · simp [apply_outcome, wraith_communicate_written, hid_ok, CMD_SIZE,
          List.take_of_length_le (le_of_eq hlen)]
  rw [ho]
  exact ⟨h dev, hok⟩

theorem accepted_frame (c : List Char) (frame : List Nat)
    (h : command_outcome c = some (1, some frame)) :
    command_frame c = frame ∧ frame.length = 65 := by
  refine ⟨by simp [command_frame, h], ?_⟩
  rcases (parse_command_outcome hid_ok c).2 1 (some frame) h with ⟨h1, -⟩ | ⟨-, buf, hb, hlen⟩
  · omega
  · simp only [Option.some.injEq] at hb
    rw [hb]
    exact hlen

theorem accepted_not_dash (c : List Char) (frame : List Nat)
    (h : command_outcome c = some (1, some frame)) : c.head? ≠ some '-' := by
  intro hd
  obtain ⟨rest, rfl⟩ : ∃ rest, c = '-' :: rest := by
    cases c with
    | nil => simp at hd
    | cons a rest =>
      simp only [List.head?_cons, Option.some.injEq] at hd
      exact ⟨rest, by rw [hd]⟩
  have hne : ('-' : Char) ≠ ' ' := by decide
  have hrej : parse_command hid_ok ('-' :: rest) = some (-1, hid_ok) := by
    unfold parse_command
    dsimp only
    split_ifs <;> first | rfl | simp_all [strsep, strsep_split]
  unfold command_outcome at h
  rw [hrej] at h
  simp at h

theorem main_loop_accepted (cmds : List (List Char))
    (hvalid : ∀ c ∈ cmds, ∃ frame, command_outcome c = some (1, some frame)) :
    ∀ (dev : hid_device) (n : Nat), n + cmds.length < 2 ^ 32 →
      ∃ final, main_loop cmds dev n = some (n + cmds.length, final)
        ∧ final.written = dev.written ++ cmds.map command_frame := by
  induction cmds with
  | nil => exact fun dev n _ => ⟨dev, rfl, by simp⟩
  | cons c cs ih =>
    intro dev n hn
    obtain ⟨frame, hframe⟩ := hvalid c (by simp)
    obtain ⟨hcf, hlen⟩ := accepted_frame c frame hframe
    have hpc := (parse_command_outcome dev c).1
    rw [hframe] at hpc
    simp only [List.length_cons] at hn
    obtain ⟨final, hfinal, hw⟩ := ih (fun x hx => hvalid x (by simp [hx]))
      (wraith_communicate dev frame).2 (n + 1) (by omega)
    refine ⟨final, ?_, ?_⟩
    · simp only [main_loop, hpc, Option.map_some', apply_outcome]
      rw [if_neg (by decide)]
      have h1 : (n + (1 : Int).toNat) % 2 ^ 32 = n + 1 := by
        rw [Nat.mod_eq_of_lt (by simp; omega)]
        rfl
      rw [h1, hfinal]
      simp only [List.length_cons]
      rw [Nat.add_assoc, Nat.add_comm 1]
    · rw [hw, wraith_communicate_written, List.take_of_length_le (by rw [hlen]; decide)]
      simp [hcf]

theorem main_opened (argv : List (List Char)) (offset : Nat) (cmds : List (List Char))
    (hid_init_result : Int) (dev : hid_device)
    (hverbose : (decide (argv.length ≥ 2) && decide (argv.get? 1 = some "-v".toList))
      = decide (offset = 2))
    (hoff : offset = 1 ∨ offset = 2)
    (hdash : offset = 1 → (argv.getD 1 []).head? ≠ some '-')
    (hdrop : argv.drop offset = cmds) (hargc : offset < argv.length)
    (hinit : 0 ≤ hid_init_result)
    (hne : cmds ≠ []) (hlen : cmds.length < 2 ^ 31)
    (hvalid : ∀ c ∈ cmds, ∃ frame, command_outcome c = some (1, some frame)) :
    ∃ final, main argv hid_init_result (some dev) = some (0, some final)
      ∧ final.written
        = dev.written ++ [wraith_enable_buf] ++ cmds.map command_frame ++ [wraith_apply_buf] := by
  obtain ⟨final, hloop, hw⟩ := main_loop_accepted cmds hvalid (wraith_enable dev) 0 (by omega)
  have hpos : 0 < cmds.length := List.length_pos.2 hne
  refine ⟨wraith_apply final, ?_, ?_⟩
  · unfold main
    simp only [hverbose]
    rcases hoff with rfl | rfl
    · simp only [Nat.reduceEqDiff, decide_False, Bool.false_eq_true, if_false, not_false_eq_true,
        true_and]
      rw [if_neg (fun h => hdash rfl h.2), if_neg (by omega), if_neg (by omega)]
      simp only [hdrop, hloop, Nat.zero_add, hpos, if_true]
    · simp only [decide_True, if_true, not_true_eq_false, false_and, and_false, if_false]
      rw [if_neg (by omega), if_neg (by omega)]
      simp only [hdrop, hloop, Nat.zero_add, hpos, if_true]
  · unfold wraith_apply
    rw [wraith_communicate_written, hw]
    unfold wraith_enable
    rw [wraith_communicate_written]
    rfl

/-- C10: for every non-empty sequence of commands that `parse_command` accepts with return
value 1 (valid effect, ring-effect, ring-map and mirage commands), given with or without a
leading `-v`, on an opened device (whatever its transactions return), `main` transmits
the Enable frame (65 zero bytes except 0x41 0x80 at offsets 1-2), then exactly one 65-byte
frame per command in the order given, then the Apply frame (65 zero bytes except 0x51 0x28
at offsets 1-2 and 0xE0 at offset 5) once and last, and returns exit status 0. -/
theorem main_valid_sequence (prog : List Char) (verbose : Bool) (cmds : List (List Char))
    (hid_init_result : Int) (dev : hid_device)
    (hinit : 0 ≤ hid_init_result)
    (hne : cmds ≠ []) (hlen : cmds.length < 2 ^ 31)
    (hvalid : ∀ c ∈ cmds, ∃ frame, command_outcome c = some (1, some frame)) :
    (∃ final,
      main (prog :: ((if verbose then ["-v".toList] else []) ++ cmds)) hid_init_result
          (some dev) = some (0, some final)
      ∧ final.written
        = dev.written ++ [wraith_enable_buf] ++ cmds.map command_frame ++ [wraith_apply_buf])
    ∧ wraith_enable_buf = [0x00, 0x41, 0x80] ++ List.replicate 62 0
    ∧ wraith_apply_buf = [0x00, 0x51, 0x28, 0x00, 0x00, 0xE0] ++ List.replicate 59 0
    ∧ (∀ c ∈ cmds, (command_frame c).length = 65
        ∧ ∀ d, parse_command d c = some (1, (wraith_communicate d (command_frame c)).2)) := by
  refine ⟨?_, rfl, rfl, ?_⟩
  · cases verbose with
    | true =>
      have hpos := List.length_pos.2 hne
      exact main_opened (prog :: "-v".toList :: cmds) 2 cmds hid_init_result dev (by simp)
        (Or.inr rfl) (by simp) rfl (by simp only [List.length_cons]; omega) hinit hne hlen
        hvalid
    | false =>
      obtain ⟨c, cs, rfl⟩ := List.exists_cons_of_ne_nil hne
      obtain ⟨frame, hframe⟩ := hvalid c (by simp)
      have hd := accepted_not_dash c frame hframe
      have hv : c ≠ "-v".toList := by
        intro h
        rw [h] at hd
        exact hd (by decide)
      exact main_opened (prog :: c :: cs) 1 (c :: cs) hid_init_result dev
        (by simpa using hv) (Or.inl rfl) (fun _ => by simpa using hd) rfl (by simp) hinit hne
        hlen hvalid
  · intro c hc
    obtain ⟨frame, hframe⟩ := hvalid c hc
    obtain ⟨hcf, hl⟩ := accepted_frame c frame hframe
    refine ⟨by rw [hcf]; exact hl, fun d => ?_⟩
    rw [(parse_command_outcome d c).1, hframe, hcf]
    rfl

theorem main_valid_sequence_witness :
    ∃ final,
      main ["wraith".toList, "effect logo static 3 255 255 0 0".toList] 0 (some hid_ok)
        = some (0, some final)
      ∧ final.written =
        [[0x00, 0x41, 0x80] ++ List.replicate 62 0,
         [0x00, 0x51, 0x2C, 0x01, 0x00, 0x05, 0xFF, 0x20, 0x01, 0xFF, 0xFF, 0xFF, 0x00, 0x00,
           0x00, 0x00, 0x00] ++ List.replicate 48 0xFF,
         [0x00, 0x51, 0x28, 0x00, 0x00, 0xE0] ++ List.replicate 59 0] := by
  obtain ⟨⟨final, hmain, hw⟩, -⟩ := main_valid_sequence "wraith".toList false
    ["effect logo static 3 255 255 0 0".toList] 0 hid_ok (by decide) (by decide) (by decide)
    (by
      intro c hc
      rw [List.mem_singleton.1 hc]
      exact ⟨[0x00, 0x51, 0x2C, 0x01, 0x00, 0x05, 0xFF, 0x20, 0x01, 0xFF, 0xFF, 0xFF, 0x00,
        0x00, 0x00, 0x00, 0x00] ++ List.replicate 48 0xFF, by decide⟩)
  refine ⟨final, hmain, ?_⟩
  rw [hw]
  decide

/-! ### Frequency encoding -/

theorem ilog2_aux_spec (fuel : Nat) :
    ∀ n, 0 < n → n ≤ fuel →
      2 ^ ilog2_aux fuel n ≤ n ∧ n < 2 ^ (ilog2_aux fuel n + 1) := by
  induction fuel with
  | zero => intro n h0 h1; omega
  | succ f ih =>
    intro n h0 h1
    unfold ilog2_aux
    split_ifs with h2
    · simp
      omega
    · have hih := ih (n / 2) (by omega) (by omega)
      rw [pow_succ, pow_succ]
      omega

theorem ilog2_spec (n : Nat) (h : 0 < n) : 2 ^ ilog2 n ≤ n ∧ n < 2 ^ (ilog2 n + 1) :=
  ilog2_aux_spec n n h le_rfl

theorem qlog2_spec (x : ℚ) (hx : 0 < x) :
    (2 : ℚ) ^ qlog2 x ≤ x ∧ x < (2 : ℚ) ^ (qlog2 x + 1) := by
  have hnum : 0 < x.num := Rat.num_pos.2 hx
  have hden : 0 < x.den := x.den_pos
  obtain ⟨ha1, ha2⟩ := ilog2_spec x.num.natAbs (Int.natAbs_pos.2 hnum.ne')
  obtain ⟨hb1, hb2⟩ := ilog2_spec x.den hden
  have hxeq : x = (x.num.natAbs : ℚ) / (x.den : ℚ) := by
    have h1 : ((x.num.natAbs : ℤ) : ℚ) = (x.num : ℚ) := by
      rw [Int.natAbs_of_nonneg hnum.le]
    rw [← Int.cast_natCast, h1, Rat.num_div_den]
  set a := ilog2 x.num.natAbs with ha
  set b := ilog2 x.den with hb
  set N := x.num.natAbs with hN
  set D := x.den with hD
  have hDq : (0 : ℚ) < (D : ℚ) := by exact_mod_cast hden
  have ha1q : (2 : ℚ) ^ a ≤ (N : ℚ) := by exact_mod_cast ha1
  have ha2q : (N : ℚ) < (2 : ℚ) ^ (a + 1) := by exact_mod_cast ha2
  have hb1q : (2 : ℚ) ^ b ≤ (D : ℚ) := by exact_mod_cast hb1
  have hb2q : (D : ℚ) < (2 : ℚ) ^ (b + 1) := by exact_mod_cast hb2
  have h2 : (0 : ℚ) < 2 := by norm_num
  have hpa : (0 : ℚ) < (2 : ℚ) ^ a := pow_pos h2 a
  have hpb : (0 : ℚ) < (2 : ℚ) ^ b := pow_pos h2 b
  -- 2 ^ (a - b - 1) < x < 2 ^ (a - b + 1)
  have hlow : (2 : ℚ) ^ ((a : ℤ) - (b : ℤ) - 1) < x := by
    rw [zpow_sub₀ h2.ne', zpow_sub₀ h2.ne', zpow_natCast, zpow_natCast, zpow_one, hxeq,
      div_div, div_lt_div_iff₀ (by positivity) hDq]
    rw [pow_succ] at hb2q
    nlinarith
  have hupp : x < (2 : ℚ) ^ ((a : ℤ) - (b : ℤ) + 1) := by
    rw [zpow_add₀ h2.ne', zpow_sub₀ h2.ne', zpow_natCast, zpow_natCast, zpow_one, hxeq,
      div_mul_eq_mul_div, div_lt_div_iff₀ hDq hpb]
    rw [pow_succ] at ha2q
    nlinarith
  unfold qlog2
  simp only [← ha, ← hb]
  split_ifs with h
  · exact ⟨h, hupp⟩
  · refine ⟨hlow.le, ?_⟩
    rw [sub_add_cancel]
    exact not_le.1 h

theorem round_half_even_floor_le (s : ℚ) : ⌊s⌋ ≤ round_half_even s := by
  unfold round_half_even
  split_ifs <;> omega

theorem round_half_even_le_floor (s : ℚ) : round_half_even s ≤ ⌊s⌋ + 1 := by
  unfold round_half_even
  split_ifs <;> omega

theorem round_half_even_le (s : ℚ) : (round_half_even s : ℚ) ≤ s + 1 / 2 := by
  have hf := Int.floor_le s
  unfold round_half_even
  split_ifs with h
  · push_cast
    rcases h with h | ⟨h, -⟩ <;> linarith
  · linarith

theorem round_half_even_ge (s : ℚ) : s - 1 / 2 ≤ (round_half_even s : ℚ) := by
  have hf := Int.lt_floor_add_one s
  unfold round_half_even
  split_ifs with h
  · push_cast
    linarith
  · have h1 : ¬ (1 / 2 < s - ⌊s⌋) := fun h1 => h (Or.inl h1)
    linarith

theorem round_half_even_int (n : ℤ) : round_half_even (n : ℚ) = n := by
  unfold round_half_even
  simp only [Int.floor_intCast, sub_self]
  rw [if_neg]
  rintro (h | ⟨h, -⟩) <;> norm_num at h

theorem round_half_even_mono (s t : ℚ) (h : s ≤ t) : round_half_even s ≤ round_half_even t := by
  have hfl : ⌊s⌋ ≤ ⌊t⌋ := Int.floor_mono h
  rcases hfl.lt_or_eq with hlt | heq
  · have h1 := round_half_even_le_floor s
    have h2 := round_half_even_floor_le t
    omega
  · unfold round_half_even
    rw [← heq]
    split_ifs with hs ht ht
    · exact le_rfl
    · exfalso
      apply ht
      rcases hs with hs | ⟨hs, hodd⟩
      · exact Or.inl (by linarith)
      · rcases (show (1 : ℚ) / 2 ≤ t - ⌊s⌋ by linarith).lt_or_eq with h1 | h1
        · exact Or.inl h1
        · exact Or.inr ⟨h1.symm, hodd⟩
    · omega
    · exact le_rfl

theorem two_zpow_pos (e : ℤ) : (0 : ℚ) < (2 : ℚ) ^ e := zpow_pos (by norm_num) e

/-- The scaled significand of a positive `x` lies in `[2 ^ (p - 1), 2 ^ p)`. -/
theorem fl_scaled_bounds (p : Nat) (x : ℚ) (hx : 0 < x) :
    (2 : ℚ) ^ ((p : ℤ) - 1) ≤ x * (2 : ℚ) ^ ((p : ℤ) - 1 - qlog2 x)
    ∧ x * (2 : ℚ) ^ ((p : ℤ) - 1 - qlog2 x) < (2 : ℚ) ^ (p : ℤ) := by
  obtain ⟨h1, h2⟩ := qlog2_spec x hx
  have hpos := two_zpow_pos ((p : ℤ) - 1 - qlog2 x)
  have e1 : (2 : ℚ) ^ ((p : ℤ) - 1) = (2 : ℚ) ^ qlog2 x * (2 : ℚ) ^ ((p : ℤ) - 1 - qlog2 x) := by
    rw [← zpow_add₀ (by norm_num : (2 : ℚ) ≠ 0)]
    congr 1
    ring
  have e2 : (2 : ℚ) ^ (p : ℤ)
      = (2 : ℚ) ^ (qlog2 x + 1) * (2 : ℚ) ^ ((p : ℤ) - 1 - qlog2 x) := by
    rw [← zpow_add₀ (by norm_num : (2 : ℚ) ≠ 0)]
    congr 1
    ring
  rw [e1, e2]
  exact ⟨mul_le_mul_of_nonneg_right h1 hpos.le, mul_lt_mul_of_pos_right h2 hpos⟩

theorem fl_round_eq (p : Nat) (x : ℚ) :
    fl_round p x = (round_half_even (x * (2 : ℚ) ^ ((p : ℤ) - 1 - qlog2 x)) : ℚ)
      * (2 : ℚ) ^ (qlog2 x - ((p : ℤ) - 1)) := rfl

theorem scaled_unscale (p : Nat) (x : ℚ) :
    x * (2 : ℚ) ^ ((p : ℤ) - 1 - qlog2 x) * (2 : ℚ) ^ (qlog2 x - ((p : ℤ) - 1)) = x := by
  rw [mul_assoc, ← zpow_add₀ (by norm_num : (2 : ℚ) ≠ 0)]
  have : (p : ℤ) - 1 - qlog2 x + (qlog2 x - ((p : ℤ) - 1)) = 0 := by ring
  rw [this, zpow_zero, mul_one]

theorem two_zpow_pred (p : Nat) (hp : 1 ≤ p) :
    (2 : ℚ) ^ ((p : ℤ) - 1) = (((2 : ℤ) ^ (p - 1) : ℤ) : ℚ) := by
  have : (p : ℤ) - 1 = ((p - 1 : ℕ) : ℤ) := by omega
  rw [this, zpow_natCast]
  push_cast
  rfl

/-- The rounded significand of a positive `x` lies in `[2 ^ (p - 1), 2 ^ p]`. -/
theorem fl_mantissa_bounds (p : Nat) (hp : 1 ≤ p) (x : ℚ) (hx : 0 < x) :
    (2 : ℚ) ^ ((p : ℤ) - 1) ≤ (round_half_even (x * (2 : ℚ) ^ ((p : ℤ) - 1 - qlog2 x)) : ℚ)
    ∧ (round_half_even (x * (2 : ℚ) ^ ((p : ℤ) - 1 - qlog2 x)) : ℚ) ≤ (2 : ℚ) ^ (p : ℤ) := by
  obtain ⟨h1, h2⟩ := fl_scaled_bounds p x hx
  set s := x * (2 : ℚ) ^ ((p : ℤ) - 1 - qlog2 x) with hs
  constructor
  · rw [two_zpow_pred p hp] at h1 ⊢
    have hf : (2 : ℤ) ^ (p - 1) ≤ ⌊s⌋ := Int.le_floor.2 h1
    have := round_half_even_floor_le s
    exact_mod_cast le_trans hf this
  · have e : (2 : ℚ) ^ (p : ℤ) = (((2 : ℤ) ^ p : ℤ) : ℚ) := by
      rw [zpow_natCast]
      push_cast
      rfl
    rw [e] at h2 ⊢
    have hf : ⌊s⌋ < (2 : ℤ) ^ p := Int.floor_lt.2 h2
    have := round_half_even_le_floor s
    have h3 : round_half_even s ≤ (2 : ℤ) ^ p := by omega
    exact_mod_cast h3

theorem fl_round_pos (p : Nat) (hp : 1 ≤ p) (x : ℚ) (hx : 0 < x) : 0 < fl_round p x := by
  rw [fl_round_eq]
  exact mul_pos (lt_of_lt_of_le (two_zpow_pos _) (fl_mantissa_bounds p hp x hx).1)
    (two_zpow_pos _)

theorem fl_round_zero (p : Nat) : fl_round p 0 = 0 := by
  rw [fl_round_eq]
  have : round_half_even ((0 : ℚ) * (2 : ℚ) ^ ((p : ℤ) - 1 - qlog2 0)) = 0 := by
    rw [zero_mul]
    exact round_half_even_int 0
  rw [this]
  simp

/-- Relative error of rounding upwards: at most `2 ^ (-p)`. -/
theorem fl_round_le (p : Nat) (x : ℚ) (hx : 0 < x) :
    fl_round p x ≤ x * (1 + 1 / (2 : ℚ) ^ (p : ℤ)) := by
  obtain ⟨h1, -⟩ := fl_scaled_bounds p x hx
  have hu := scaled_unscale p x
  rw [fl_round_eq]
  set s := x * (2 : ℚ) ^ ((p : ℤ) - 1 - qlog2 x) with hs
  set u := (2 : ℚ) ^ (qlog2 x - ((p : ℤ) - 1)) with hu1
  have hupos : 0 < u := two_zpow_pos _
  have hr := round_half_even_le s
  have hhalf : (1 : ℚ) / 2 ≤ s * (1 / (2 : ℚ) ^ (p : ℤ)) := by
    have e : (2 : ℚ) ^ (p : ℤ) = (2 : ℚ) ^ ((p : ℤ) - 1) * 2 := by
      rw [← zpow_add_one₀ (by norm_num : (2 : ℚ) ≠ 0)]
      congr 1
      ring
    have hpp := two_zpow_pos ((p : ℤ) - 1)
    rw [e, mul_one_div, le_div_iff₀ (by positivity)]
    linarith
  calc (round_half_even s : ℚ) * u ≤ (s + 1 / 2) * u := mul_le_mul_of_nonneg_right hr hupos.le
    _ ≤ (s * (1 + 1 / (2 : ℚ) ^ (p : ℤ))) * u := by
        apply mul_le_mul_of_nonneg_right _ hupos.le
        linarith
    _ = (s * u) * (1 + 1 / (2 : ℚ) ^ (p : ℤ)) := by ring
    _ = x * (1 + 1 / (2 : ℚ) ^ (p : ℤ)) := by rw [hu]

theorem one_lt_two_rat : (1 : ℚ) < 2 := by norm_num

/-- Rounding leaves a representable value unchanged. -/
theorem fl_round_exact (p : Nat) (x : ℚ) (h : representable p x) :
    fl_round p x = x := by
  rcases h with rfl | ⟨a, z, ha0, ha, rfl⟩
  · exact fl_round_zero p
  · have hx : (0 : ℚ) < (a : ℚ) * (2 : ℚ) ^ z :=
      mul_pos (by exact_mod_cast ha0) (two_zpow_pos z)
    obtain ⟨h1, -⟩ := fl_scaled_bounds p _ hx
    have hu := scaled_unscale p ((a : ℚ) * (2 : ℚ) ^ z)
    rw [fl_round_eq]
    set e := qlog2 ((a : ℚ) * (2 : ℚ) ^ z) with he
    have hs : (a : ℚ) * (2 : ℚ) ^ z * (2 : ℚ) ^ ((p : ℤ) - 1 - e)
        = (a : ℚ) * (2 : ℚ) ^ (z + ((p : ℤ) - 1 - e)) := by
      rw [mul_assoc, ← zpow_add₀ (by norm_num : (2 : ℚ) ≠ 0)]
    rw [hs] at h1 hu ⊢
    set t := z + ((p : ℤ) - 1 - e) with ht
    have ht0 : 0 ≤ t := by
      by_contra hneg
      have hneg : t ≤ -1 := by omega
      have h2 : (2 : ℚ) ^ t ≤ (2 : ℚ) ^ (-1 : ℤ) := zpow_le_zpow_right₀ one_lt_two_rat.le hneg
      have h3 : (a : ℚ) < (2 : ℚ) ^ (p : ℤ) := by
        rw [zpow_natCast]
        exact_mod_cast ha
      have h4 : (2 : ℚ) ^ (p : ℤ) = (2 : ℚ) ^ ((p : ℤ) - 1) * 2 := by
        rw [← zpow_add_one₀ (by norm_num : (2 : ℚ) ≠ 0)]
        congr 1
        ring
      have h5 : (a : ℚ) * (2 : ℚ) ^ t ≤ (a : ℚ) * (2 : ℚ) ^ (-1 : ℤ) :=
        mul_le_mul_of_nonneg_left h2 (by positivity)
      have h6 : (2 : ℚ) ^ (-1 : ℤ) = 1 / 2 := by norm_num
      rw [h6] at h5
      have := two_zpow_pos ((p : ℤ) - 1)
      linarith
    obtain ⟨n, hn⟩ : ∃ n : ℕ, t = (n : ℤ) := ⟨t.toNat, (Int.toNat_of_nonneg ht0).symm⟩
    have hint : (a : ℚ) * (2 : ℚ) ^ t = (((a : ℤ) * (2 : ℤ) ^ n : ℤ) : ℚ) := by
      rw [hn, zpow_natCast]
      push_cast
      rfl
    rw [hint, round_half_even_int, ← hint]
    exact hu

/-- Rounding is monotone on positive values. -/
theorem fl_round_mono (p : Nat) (hp : 1 ≤ p) (x y : ℚ) (hx : 0 < x) (hxy : x ≤ y) :
    fl_round p x ≤ fl_round p y := by
  have hy : 0 < y := lt_of_lt_of_le hx hxy
  obtain ⟨hx1, hx2⟩ := qlog2_spec x hx
  obtain ⟨hy1, hy2⟩ := qlog2_spec y hy
  have hexy : qlog2 x ≤ qlog2 y := by
    have : (2 : ℚ) ^ qlog2 x < (2 : ℚ) ^ (qlog2 y + 1) :=
      lt_of_le_of_lt hx1 (lt_of_le_of_lt hxy hy2)
    have := (zpow_lt_zpow_iff_right₀ one_lt_two_rat).1 this
    omega
  rw [fl_round_eq, fl_round_eq]
  rcases hexy.lt_or_eq with hlt | heq
  · obtain ⟨-, hmx⟩ := fl_mantissa_bounds p hp x hx
    obtain ⟨hmy, -⟩ := fl_mantissa_bounds p hp y hy
    have hux := two_zpow_pos (qlog2 x - ((p : ℤ) - 1))
    have huy := two_zpow_pos (qlog2 y - ((p : ℤ) - 1))
    calc (round_half_even (x * (2 : ℚ) ^ ((p : ℤ) - 1 - qlog2 x)) : ℚ)
          * (2 : ℚ) ^ (qlog2 x - ((p : ℤ) - 1))
        ≤ (2 : ℚ) ^ (p : ℤ) * (2 : ℚ) ^ (qlog2 x - ((p : ℤ) - 1)) :=
          mul_le_mul_of_nonneg_right hmx hux.le
      _ = (2 : ℚ) ^ (qlog2 x + 1) := by
          rw [← zpow_add₀ (by norm_num : (2 : ℚ) ≠ 0)]
          congr 1
          ring
      _ ≤ (2 : ℚ) ^ qlog2 y := zpow_le_zpow_right₀ one_lt_two_rat.le (by omega)
      _ = (2 : ℚ) ^ ((p : ℤ) - 1) * (2 : ℚ) ^ (qlog2 y - ((p : ℤ) - 1)) := by
          rw [← zpow_add₀ (by norm_num : (2 : ℚ) ≠ 0)]
          congr 1
          ring
      _ ≤ (round_half_even (y * (2 : ℚ) ^ ((p : ℤ) - 1 - qlog2 y)) : ℚ)
          * (2 : ℚ) ^ (qlog2 y - ((p : ℤ) - 1)) :=
          mul_le_mul_of_nonneg_right hmy huy.le
  · rw [← heq]
    have hu := two_zpow_pos (qlog2 x - ((p : ℤ) - 1))
    apply mul_le_mul_of_nonneg_right _ hu.le
    have hs : x * (2 : ℚ) ^ ((p : ℤ) - 1 - qlog2 x) ≤ y * (2 : ℚ) ^ ((p : ℤ) - 1 - qlog2 x) :=
      mul_le_mul_of_nonneg_right hxy (two_zpow_pos _).le
    exact_mod_cast round_half_even_mono _ _ hs

theorem representable_nat (p : Nat) (n : Nat) (h : n < 2 ^ p) : representable p (n : ℚ) := by
  rcases Nat.eq_zero_or_pos n with rfl | h0
  · exact Or.inl (by simp)
  · exact Or.inr ⟨n, 0, h0, h, by simp⟩

theorem representable_two_pow (p : Nat) (hp : 1 ≤ p) (k : Nat) :
    representable p ((2 : ℚ) ^ k) := by
  refine Or.inr ⟨1, k, by norm_num, ?_, by simp⟩
  calc 1 < 2 ^ 1 := by norm_num
    _ ≤ 2 ^ p := Nat.pow_le_pow_right (by norm_num) hp

theorem representable_mono (p q : Nat) (hpq : p ≤ q) (x : ℚ) (h : representable p x) :
    representable q x := by
  rcases h with h | ⟨a, z, h0, ha, hx⟩
  · exact Or.inl h
  · exact Or.inr ⟨a, z, h0, lt_of_lt_of_le ha (Nat.pow_le_pow_right (by norm_num) hpq), hx⟩

theorem representable_mul_two_zpow (p : Nat) (x : ℚ) (k : ℤ) (h : representable p x) :
    representable p (x * (2 : ℚ) ^ k) := by
  rcases h with h | ⟨a, z, h0, ha, hx⟩
  · exact Or.inl (by rw [h, zero_mul])
  · refine Or.inr ⟨a, z + k, h0, ha, ?_⟩
    rw [hx, mul_assoc, ← zpow_add₀ (by norm_num : (2 : ℚ) ≠ 0)]

/-- The result of rounding is representable. -/
theorem representable_fl_round (p : Nat) (hp : 1 ≤ p) (x : ℚ) (hx : 0 ≤ x) :
    representable p (fl_round p x) := by
  rcases hx.lt_or_eq with hx | rfl
  · obtain ⟨h1, h2⟩ := fl_mantissa_bounds p hp x hx
    rw [fl_round_eq]
    set q := round_half_even (x * (2 : ℚ) ^ ((p : ℤ) - 1 - qlog2 x)) with hq
    set u := qlog2 x - ((p : ℤ) - 1) with hu
    rw [two_zpow_pred p hp] at h1
    have h1z : (2 : ℤ) ^ (p - 1) ≤ q := by exact_mod_cast h1
    have h2z : q ≤ (2 : ℤ) ^ p := by
      have e : (2 : ℚ) ^ (p : ℤ) = (((2 : ℤ) ^ p : ℤ) : ℚ) := by
        rw [zpow_natCast]
        push_cast
        rfl
      rw [e] at h2
      exact_mod_cast h2
    have hpp : (0 : ℤ) < (2 : ℤ) ^ (p - 1) := by positivity
    have hsucc : (2 : ℤ) ^ p = (2 : ℤ) ^ (p - 1) * 2 := by
      rw [← pow_succ]
      congr 1
      omega
    rcases h2z.lt_or_eq with hlt | heq
    · refine Or.inr ⟨q.toNat, u, by omega, ?_, ?_⟩
      · have : (q.toNat : ℤ) < (2 : ℤ) ^ p := by rw [Int.toNat_of_nonneg (by omega)]; exact hlt
        exact_mod_cast this
      · have : ((q.toNat : ℕ) : ℚ) = (q : ℚ) := by
          rw [← Int.cast_natCast, Int.toNat_of_nonneg (by omega)]
        rw [this]
    · refine Or.inr ⟨2 ^ (p - 1), u + 1, by positivity, ?_, ?_⟩
      · exact Nat.pow_lt_pow_right (by norm_num) (by omega)
      · rw [heq, hsucc, zpow_add_one₀ (by norm_num : (2 : ℚ) ≠ 0)]
        push_cast
        ring
  · rw [fl_round_zero]
    exact Or.inl rfl

/-- The fractional part of a representable value is representable. -/
theorem representable_fract (p : Nat) (x : ℚ) (h : representable p x) :
    representable p (x - ⌊x⌋) := by
  rcases h with rfl | ⟨a, z, ha0, ha, rfl⟩
  · exact Or.inl (by simp)
  · rcases le_or_lt 0 z with hz | hz
    · obtain ⟨n, rfl⟩ : ∃ n : ℕ, z = (n : ℤ) := ⟨z.toNat, (Int.toNat_of_nonneg hz).symm⟩
      have hint : (a : ℚ) * (2 : ℚ) ^ (n : ℤ) = (((a : ℤ) * (2 : ℤ) ^ n : ℤ) : ℚ) := by
        rw [zpow_natCast]
        push_cast
        rfl
      rw [hint, Int.floor_intCast, sub_self]
      exact Or.inl rfl
    · obtain ⟨n, hn⟩ : ∃ n : ℕ, -z = (n : ℤ) := ⟨(-z).toNat, (Int.toNat_of_nonneg (by omega)).symm⟩
      have hzn : z = -(n : ℤ) := by omega
      have hx : (a : ℚ) * (2 : ℚ) ^ z = ((a : ℕ) : ℚ) / ((2 ^ n : ℕ) : ℚ) := by
        rw [hzn, zpow_neg, zpow_natCast]
        push_cast
        rw [div_eq_mul_inv]
      have hfl : ⌊(a : ℚ) * (2 : ℚ) ^ z⌋ = ((a / 2 ^ n : ℕ) : ℤ) := by
        rw [hx, Rat.floor_natCast_div_natCast]
        rfl
      have hpos : (0 : ℚ) < ((2 ^ n : ℕ) : ℚ) := by positivity
      have hfrac : (a : ℚ) * (2 : ℚ) ^ z - ((a / 2 ^ n : ℕ) : ℤ)
          = ((a % 2 ^ n : ℕ) : ℚ) * (2 : ℚ) ^ z := by
        have hdm : (a : ℚ) = ((a % 2 ^ n : ℕ) : ℚ) + ((2 ^ n : ℕ) : ℚ) * ((a / 2 ^ n : ℕ) : ℚ) := by
          exact_mod_cast (Nat.mod_add_div a (2 ^ n)).symm
        have hz2 : (2 : ℚ) ^ z = 1 / ((2 ^ n : ℕ) : ℚ) := by
          rw [hzn, zpow_neg, zpow_natCast]
          push_cast
          rw [one_div]
        rw [hz2, Int.cast_natCast]
        generalize ((a % 2 ^ n : ℕ) : ℚ) = C at hdm ⊢
        generalize ((a / 2 ^ n : ℕ) : ℚ) = B at hdm ⊢
        generalize ((2 ^ n : ℕ) : ℚ) = P at hdm hpos ⊢
        rw [hdm]
        field_simp
      rw [hfl, hfrac]
      rcases Nat.eq_zero_or_pos (a % 2 ^ n) with h0 | h0
      · exact Or.inl (by rw [h0]; simp)
      · exact Or.inr ⟨a % 2 ^ n, z, h0, lt_of_le_of_lt (Nat.mod_le _ _) ha, rfl⟩

theorem to_float_nat (n : Nat) (h : n ≤ 2 ^ 24) : to_float (n : ℚ) = n := by
  unfold to_float
  rcases h.lt_or_eq with hlt | heq
  · exact fl_round_exact 24 _ (representable_nat 24 n hlt)
  · have := fl_round_exact 24 _ (representable_two_pow 24 (by norm_num) 24)
    rw [heq]
    exact_mod_cast this

theorem to_double_nat (n : Nat) (h : n < 2 ^ 53) : to_double (n : ℚ) = n := by
  unfold to_double
  exact fl_round_exact 53 _ (representable_nat 53 n h)

theorem div_bounds (hz : Nat) (h1 : 1 ≤ hz) :
    256 * (1500000 / (256 * hz)) * hz ≤ 1500000
    ∧ 1500001 ≤ 256 * (1500000 / (256 * hz) + 1) * hz := by
  have hpos : 0 < 256 * hz := by omega
  have hle := Nat.div_mul_le_self 1500000 (256 * hz)
  have hlt := Nat.lt_succ_self (1500000 / (256 * hz))
  rw [Nat.div_lt_iff_lt_mul hpos] at hlt
  constructor
  · calc 256 * (1500000 / (256 * hz)) * hz = 1500000 / (256 * hz) * (256 * hz) := by ring
      _ ≤ 1500000 := hle
  · calc 1500001 ≤ (1500000 / (256 * hz)).succ * (256 * hz) := hlt
      _ = 256 * (1500000 / (256 * hz) + 1) * hz := by
        rw [Nat.succ_eq_add_one]
        ring

/-- The single-precision quotient `v` stays within the 256-wide interval of the exact
quotient `1500000 / hz`, with room for one more rounding to double. -/
theorem hz_v_bounds (hz : Nat) (h1 : 1 ≤ hz) :
    0 < hz_v hz
    ∧ ((256 * (1500000 / (256 * hz)) : ℕ) : ℚ) ≤ hz_v hz
    ∧ hz_v hz * (1 + 1 / (2 : ℚ) ^ (53 : ℤ)) < ((256 * (1500000 / (256 * hz) + 1) : ℕ) : ℚ) := by
  obtain ⟨hd1, hd2⟩ := div_bounds hz h1
  set k := 1500000 / (256 * hz) with hk
  have hzq : (1 : ℚ) ≤ (hz : ℚ) := by exact_mod_cast h1
  have hd1q : (256 : ℚ) * k * hz ≤ 1500000 := by exact_mod_cast hd1
  have hd2q : (1500001 : ℚ) ≤ 256 * (k + 1) * hz := by exact_mod_cast hd2
  have hHpos : 0 < to_float (hz : ℚ) := fl_round_pos 24 (by norm_num) _ (by linarith)
  have hxpos : 0 < (1500000 : ℚ) / to_float (hz : ℚ) := div_pos (by norm_num) hHpos
  have hvpos : 0 < hz_v hz := fl_round_pos 24 (by norm_num) _ hxpos
  have hvle := fl_round_le 24 _ hxpos
  have heps : (1 + 1 / (2 : ℚ) ^ (24 : ℤ)) * (1 + 1 / (2 : ℚ) ^ (53 : ℤ)) * 1500000 < 1500001 := by
    norm_num
  have he53 : (0 : ℚ) < 1 + 1 / (2 : ℚ) ^ (53 : ℤ) := by positivity
  refine ⟨hvpos, ?_, ?_⟩
  · rcases Nat.eq_zero_or_pos k with h0 | h0
    · rw [h0]
      simpa using hvpos.le
    · have hk24 : 256 * k < 2 ^ 24 := by
        have : 256 * k * 1 ≤ 256 * k * hz := Nat.mul_le_mul_left _ h1
        omega
      have hhz24 : hz ≤ 2 ^ 24 := by
        by_contra hbig
        have : 256 * 1 * 2 ^ 24 ≤ 256 * k * hz :=
          Nat.mul_le_mul (Nat.mul_le_mul_left _ h0) (by omega)
        omega
      have hH : to_float (hz : ℚ) = hz := to_float_nat hz hhz24
      have hx : ((256 * k : ℕ) : ℚ) ≤ (1500000 : ℚ) / to_float (hz : ℚ) := by
        rw [hH, le_div_iff₀ (by linarith)]
        push_cast
        linarith
      have hmono := fl_round_mono 24 (by norm_num) _ _
        (by exact_mod_cast (by omega : 0 < 256 * k)) hx
      rw [fl_round_exact 24 _ (representable_nat 24 _ hk24)] at hmono
      exact hmono
  · have hHge : (hz : ℚ) ≤ to_float (hz : ℚ) ∨ (2 : ℚ) ^ 24 ≤ to_float (hz : ℚ) := by
      rcases Nat.le_total hz (2 ^ 24) with hle | hge
      · exact Or.inl (to_float_nat hz hle).ge
      · right
        have h2 : ((2 ^ 24 : ℕ) : ℚ) ≤ (hz : ℚ) := by exact_mod_cast hge
        have h24 := to_float_nat (2 ^ 24) le_rfl
        have hm : to_float ((2 ^ 24 : ℕ) : ℚ) ≤ to_float (hz : ℚ) :=
          fl_round_mono 24 (by norm_num) _ _ (by positivity) h2
        rw [h24] at hm
        exact_mod_cast hm
    have hx : (1500000 : ℚ) / to_float (hz : ℚ) * 1500001
        ≤ 256 * (k + 1) * 1500000 := by
      rw [div_mul_eq_mul_div, div_le_iff₀ hHpos]
      rcases hHge with h | h
      · nlinarith
      · have hk0 : (0 : ℚ) ≤ k := by positivity
        nlinarith
    have hv : hz_v hz ≤ (1500000 : ℚ) / to_float (hz : ℚ) * (1 + 1 / (2 : ℚ) ^ (24 : ℤ)) := hvle
    push_cast
    nlinarith

theorem div_le_bound (hz : Nat) (h1 : 1 ≤ hz) : 1500000 / (256 * hz) ≤ 5859 := by
  calc 1500000 / (256 * hz) ≤ 1500000 / 256 :=
        Nat.div_le_div_left (by omega) (by norm_num)
    _ = 5859 := by norm_num

/-- The variable `m` is the truncated quotient of `1500000` by `256 * hz`. -/
theorem hz_m_eq (hz : Nat) (h1 : 1 ≤ hz) : hz_m hz = 1500000 / (256 * hz) := by
  obtain ⟨hvpos, hlo, hhi⟩ := hz_v_bounds hz h1
  have hkb := div_le_bound hz h1
  set k := 1500000 / (256 * hz) with hk
  have hypos : 0 < hz_v hz / 256 := by positivity
  have hyle := fl_round_le 53 _ hypos
  have hlow : (k : ℚ) ≤ to_double (hz_v hz / 256) := by
    rcases Nat.eq_zero_or_pos k with h0 | h0
    · rw [h0]
      simpa using (fl_round_pos 53 (by norm_num) _ hypos).le
    · have hy : (k : ℚ) ≤ hz_v hz / 256 := by
        rw [le_div_iff₀ (by norm_num)]
        push_cast at hlo
        linarith
      have hm : to_double (k : ℚ) ≤ to_double (hz_v hz / 256) :=
        fl_round_mono 53 (by norm_num) _ _ (by exact_mod_cast h0) hy
      rwa [to_double_nat k (by omega)] at hm
  have hupp : to_double (hz_v hz / 256) < (k : ℚ) + 1 := by
    have h3 : to_double (hz_v hz / 256)
        ≤ hz_v hz / 256 * (1 + 1 / (2 : ℚ) ^ (53 : ℤ)) := hyle
    push_cast at hhi
    linarith
  have hfl : ⌊to_double (hz_v hz / 256)⌋ = (k : ℤ) := by
    rw [Int.floor_eq_iff]
    exact ⟨by exact_mod_cast hlow, by exact_mod_cast hupp⟩
  unfold hz_m to_unsigned
  rw [hfl, Int.toNat_natCast]
  exact Nat.mod_eq_of_lt (by omega)

theorem poke_get_self (buf : List Nat) (i v : Nat) (h : i < buf.length) :
    (poke buf i v).get? i = some (v % 256) := by
  simp [poke, h]

theorem poke_get_other (buf : List Nat) (i j v : Nat) (h : i ≠ j) :
    (poke buf i v).get? j = buf.get? j := by
  simp [poke, List.getElem?_set_ne h]

/-- C7: for every frequency `hz` with `1 ≤ hz` (an `unsigned`, so below `2 ^ 32`), the
first byte written by `hz_to_bytes` is `min (1500000 / (256 * hz)) 255` with truncating
division: it saturates at 255 (so it is 255 for `hz ≤ 22`), never wraps modulo 256, and
is 0 for `hz ≥ 5860`. -/
theorem hz_to_bytes_divisor (dst : List Nat) (off hz : Nat) (hoff : off < dst.length)
    (h1 : 1 ≤ hz) (h32 : hz < 2 ^ 32) :
    (hz_to_bytes dst off hz).get? off = some (min (1500000 / (256 * hz)) 255)
    ∧ (hz ≤ 22 → (hz_to_bytes dst off hz).get? off = some 255)
    ∧ (5860 ≤ hz → (hz_to_bytes dst off hz).get? off = some 0) := by
  have hmain : (hz_to_bytes dst off hz).get? off = some (min (1500000 / (256 * hz)) 255) := by
    unfold hz_to_bytes
    rw [if_neg (by omega)]
    dsimp only
    rw [poke_get_other _ _ _ _ (by omega), poke_get_other _ _ _ _ (by omega),
      poke_get_self _ _ _ hoff, hz_m_eq hz h1]
    congr 1
    split_ifs with h
    · rw [Nat.mod_eq_of_lt (by omega)]
      omega
    · omega
  refine ⟨hmain, fun h22 => ?_, fun h5860 => ?_⟩
  · rw [hmain]
    have : 255 ≤ 1500000 / (256 * hz) := by
      rw [Nat.le_div_iff_mul_le (by omega)]
      omega
    congr 1
    omega
  · rw [hmain]
    have : 1500000 / (256 * hz) = 0 := Nat.div_eq_of_lt (by omega)
    rw [this]
    rfl

theorem hz_to_bytes_divisor_witness :
    (hz_to_bytes [0, 0, 0] 0 1000).get? 0 = some (min (1500000 / (256 * 1000)) 255)
    ∧ (1000 ≤ 22 → (hz_to_bytes [0, 0, 0] 0 1000).get? 0 = some 255)
    ∧ (5860 ≤ 1000 → (hz_to_bytes [0, 0, 0] 0 1000).get? 0 = some 0) :=
  hz_to_bytes_divisor [0, 0, 0] 0 1000 (by decide) (by decide) (by decide)

theorem hz_v_eq_encode_v (hz : Nat) (h : hz ≤ 2 ^ 24) : hz_v hz = encode_v hz := by
  unfold hz_v encode_v
  rw [to_float_nat hz h]

theorem encode_m_eq (hz : Nat) (h1 : 1 ≤ hz) (h : hz ≤ 2 ^ 24) :
    encode_m hz = 1500000 / (256 * hz) := by
  obtain ⟨hvpos, hlo, hhi⟩ := hz_v_bounds hz h1
  rw [hz_v_eq_encode_v hz h] at hvpos hlo hhi
  have hfl : ⌊encode_v hz / 256⌋ = ((1500000 / (256 * hz) : ℕ) : ℤ) := by
    rw [Int.floor_eq_iff, Int.cast_natCast]
    generalize 1500000 / (256 * hz) = k at hlo hhi
    push_cast at hlo hhi
    have he : (0 : ℚ) < 1 / (2 : ℚ) ^ (53 : ℤ) := by positivity
    constructor
    · rw [le_div_iff₀ (by norm_num)]
      linarith
    · rw [div_lt_iff₀ (by norm_num)]
      nlinarith
  unfold encode_m
  rw [hfl, Int.toNat_natCast]

theorem hz_r_eq_encode_r (hz : Nat) (h1 : 1 ≤ hz) (h : hz ≤ 2 ^ 24) :
    hz_r hz = encode_r hz := by
  have hkb := div_le_bound hz h1
  unfold hz_r encode_r
  rw [hz_m_eq hz h1, encode_m_eq hz h1 h, hz_v_eq_encode_v hz h,
    to_float_nat _ (by omega)]
  congr 3
  unfold to_double
  apply fl_round_exact
  refine Or.inr ⟨4 * (1500000 / (256 * hz)) + 3, -2, by omega, by omega, ?_⟩
  rw [zpow_neg]
  push_cast
  norm_num
  ring

theorem encode_r_bounds (hz : Nat) (h1 : 1 ≤ hz) (h : hz ≤ 2 ^ 24) :
    0 < encode_r hz ∧ encode_r hz ≤ 342 := by
  obtain ⟨hvpos, hlo, hhi⟩ := hz_v_bounds hz h1
  rw [hz_v_eq_encode_v hz h] at hvpos hlo hhi
  have hk := encode_m_eq hz h1 h
  have hden : (0 : ℚ) < (encode_m hz : ℚ) + 3 / 4 := by positivity
  have hw : 0 < encode_v hz / ((encode_m hz : ℚ) + 3 / 4) := div_pos hvpos hden
  have hwle : encode_v hz / ((encode_m hz : ℚ) + 3 / 4) ≤ ((342 : ℕ) : ℚ) := by
    rw [div_le_iff₀ hden, hk]
    generalize 1500000 / (256 * hz) = k at hlo hhi
    push_cast at hhi ⊢
    have he : (0 : ℚ) < 1 / (2 : ℚ) ^ (53 : ℤ) := by positivity
    have hk0 : (0 : ℚ) ≤ (k : ℚ) := by positivity
    nlinarith
  have hd : 0 < to_double (encode_v hz / ((encode_m hz : ℚ) + 3 / 4)) :=
    fl_round_pos 53 (by norm_num) _ hw
  have hdle : to_double (encode_v hz / ((encode_m hz : ℚ) + 3 / 4)) ≤ ((342 : ℕ) : ℚ) := by
    have := fl_round_mono 53 (by norm_num) _ _ hw hwle
    rwa [show fl_round 53 ((342 : ℕ) : ℚ) = ((342 : ℕ) : ℚ) from
      to_double_nat 342 (by norm_num)] at this
  refine ⟨fl_round_pos 24 (by norm_num) _ hd, ?_⟩
  have := fl_round_mono 24 (by norm_num) _ _ hd hdle
  rw [show fl_round 24 ((342 : ℕ) : ℚ) = ((342 : ℕ) : ℚ) from
    to_float_nat 342 (by norm_num)] at this
  exact_mod_cast this

theorem encode_r_representable (hz : Nat) (h1 : 1 ≤ hz) (h : hz ≤ 2 ^ 24) :
    representable 24 (encode_r hz) := by
  obtain ⟨hvpos, -, -⟩ := hz_v_bounds hz h1
  rw [hz_v_eq_encode_v hz h] at hvpos
  have hden : (0 : ℚ) < (encode_m hz : ℚ) + 3 / 4 := by positivity
  exact representable_fl_round 24 (by norm_num) _
    (fl_round_pos 53 (by norm_num) _ (div_pos hvpos hden)).le

/-- The variables `r0` and `r1` are the integer part of `r` and the first eight fraction
bits of `r`: the conversions and the subtraction in between are exact. -/
theorem hz_r0_r1_eq (hz : Nat) (h1 : 1 ≤ hz) (h : hz ≤ 2 ^ 24) :
    hz_r0 hz = ⌊encode_r hz⌋.toNat
    ∧ hz_r1 hz = ⌊(encode_r hz - ⌊encode_r hz⌋) * 256⌋.toNat
    ∧ ⌊(encode_r hz - ⌊encode_r hz⌋) * 256⌋.toNat < 256 := by
  obtain ⟨hrpos, hrle⟩ := encode_r_bounds hz h1 h
  have hrep := encode_r_representable hz h1 h
  have hfl0 : 0 ≤ ⌊encode_r hz⌋ := Int.floor_nonneg.2 hrpos.le
  have hfl342 : ⌊encode_r hz⌋ ≤ 342 := by
    have : ⌊encode_r hz⌋ ≤ ⌊(342 : ℚ)⌋ := Int.floor_mono hrle
    simpa using this
  have hr0 : hz_r0 hz = ⌊encode_r hz⌋.toNat := by
    unfold hz_r0 to_unsigned
    rw [hz_r_eq_encode_r hz h1 h]
    exact Nat.mod_eq_of_lt (by omega)
  have hcast : ((⌊encode_r hz⌋.toNat : ℕ) : ℚ) = ((⌊encode_r hz⌋ : ℤ) : ℚ) := by
    rw [← Int.cast_natCast, Int.toNat_of_nonneg hfl0]
  have hfrac0 : 0 ≤ encode_r hz - ⌊encode_r hz⌋ := by
    linarith [Int.floor_le (encode_r hz)]
  have hfrac1 : encode_r hz - ⌊encode_r hz⌋ < 1 := by
    linarith [Int.lt_floor_add_one (encode_r hz)]
  have hfrep := representable_fract 24 _ hrep
  have h256 : representable 53 ((encode_r hz - ⌊encode_r hz⌋) * 256) := by
    have := representable_mul_two_zpow 24 _ 8 hfrep
    have e : ((2 : ℚ) ^ (8 : ℤ)) = 256 := by norm_num
    rw [e] at this
    exact representable_mono 24 53 (by norm_num) _ this
  have hflr : 0 ≤ ⌊(encode_r hz - ⌊encode_r hz⌋) * 256⌋ :=
    Int.floor_nonneg.2 (by positivity)
  have hflr256 : ⌊(encode_r hz - ⌊encode_r hz⌋) * 256⌋ < 256 := by
    rw [Int.floor_lt]
    push_cast
    linarith
  refine ⟨hr0, ?_, by omega⟩
  unfold hz_r1 to_unsigned
  rw [hr0, hz_r_eq_encode_r hz h1 h, to_float_nat _ (by omega), hcast]
  unfold to_float to_double
  rw [fl_round_exact 24 _ hfrep, fl_round_exact 53 _ h256]
  exact Nat.mod_eq_of_lt (by omega)

/-- C6 (as stated, refuted): at 1000 Hz section 4.1 gives the triple (5, 222, 260) but
`hz_to_bytes` writes (5, 222, 4), the third byte being `r0` modulo 256; at 1 Hz section 4.1
with `r` formed from the saturated `m = 255` gives (255, 26, 5865) but `hz_to_bytes` writes
(255, 251, 255), `r` being formed from the unsaturated `m = 5859`. -/
theorem hz_to_bytes_not_spec_encode :
    spec_encode 1000 = (5, 222, 260) ∧ hz_to_bytes [0, 0, 0] 0 1000 = [5, 222, 4]
    ∧ spec_encode 1 = (255, 26, 5865) ∧ hz_to_bytes [0, 0, 0] 0 1 = [255, 251, 255] := by
  decide!

/-- C6 (amended): for every frequency `hz` with `1 ≤ hz ≤ 65536`, with `v` the quotient
`1500000 / hz` rounded to single precision, `m = floor (v / 256)` not saturated, and `r`
the quotient `v / (m + 0.75)` rounded to double and then to single precision, the third
byte written by `hz_to_bytes` is `floor r` modulo 256 and the second byte is
`floor ((r - floor r) * 256)`; `m` is the truncated quotient `1500000 / (256 * hz)`. -/
theorem hz_to_bytes_fraction (dst : List Nat) (off hz : Nat) (hoff : off + 2 < dst.length)
    (h1 : 1 ≤ hz) (h2 : hz ≤ 65536) :
    (hz_to_bytes dst off hz).get? (off + 2) = some (⌊encode_r hz⌋.toNat % 256)
    ∧ (hz_to_bytes dst off hz).get? (off + 1)
        = some ⌊(encode_r hz - ⌊encode_r hz⌋) * 256⌋.toNat
    ∧ encode_m hz = 1500000 / (256 * hz) := by
  have h24 : hz ≤ 2 ^ 24 := by omega
  obtain ⟨hr0, hr1, hlt⟩ := hz_r0_r1_eq hz h1 h24
  refine ⟨?_, ?_, encode_m_eq hz h1 h24⟩
  · unfold hz_to_bytes
    rw [if_neg (by omega)]
    dsimp only
    rw [poke_get_self _ _ _ (by simpa [poke_length] using hoff), hr0]
  · unfold hz_to_bytes
    rw [if_neg (by omega)]
    dsimp only
    rw [poke_get_other _ _ _ _ (by omega),
      poke_get_self _ _ _ (by simp only [poke_length]; omega), hr1,
      Nat.mod_eq_of_lt hlt]

theorem hz_to_bytes_fraction_witness :
    (hz_to_bytes [0, 0, 0] 0 1000).get? (0 + 2) = some (⌊encode_r 1000⌋.toNat % 256)
    ∧ (hz_to_bytes [0, 0, 0] 0 1000).get? (0 + 1)
        = some ⌊(encode_r 1000 - ⌊encode_r 1000⌋) * 256⌋.toNat
    ∧ encode_m 1000 = 1500000 / (256 * 1000) :=
  hz_to_bytes_fraction [0, 0, 0] 0 1000 (by decide) (by decide) (by decide)

/-! ### The command loop in general -/

theorem main_opened_eq (argv : List (List Char)) (offset : Nat) (cmds : List (List Char))
    (hid_init_result : Int) (dev : hid_device)
    (hverbose : (decide (argv.length ≥ 2) && decide (argv.get? 1 = some "-v".toList))
      = decide (offset = 2))
    (hoff : offset = 1 ∨ offset = 2)
    (hdash : offset = 1 → (argv.getD 1 []).head? ≠ some '-')
    (hdrop : argv.drop offset = cmds) (hargc : offset < argv.length)
    (hinit : 0 ≤ hid_init_result) :
    main argv hid_init_result (some dev)
      = (main_loop cmds (wraith_enable dev) 0).map
          (fun res => (0, some (if res.1 > 0 then wraith_apply res.2 else res.2))) := by
  have hfin : ∀ o : Option (Nat × hid_device),
      (match o with
        | none => none
        | some (n_commands, dev) =>
          some ((0 : Int), some (if n_commands > 0 then wraith_apply dev else dev)))
      = o.map (fun res => (0, some (if res.1 > 0 then wraith_apply res.2 else res.2))) := by
    intro o
    rcases o with _ | ⟨n, d⟩ <;> rfl
  unfold main
  simp only [hverbose]
  rcases hoff with rfl | rfl
  · simp only [Nat.reduceEqDiff, decide_False, Bool.false_eq_true, if_false, not_false_eq_true,
      true_and]
    rw [if_neg (fun h => hdash rfl h.2), if_neg (by omega), if_neg (by omega)]
    simp only [hdrop]
    exact hfin _
  · simp only [decide_True, if_true, not_true_eq_false, false_and, and_false, if_false]
    rw [if_neg (by omega), if_neg (by omega)]
    simp only [hdrop]
    exact hfin _

theorem main_plain_eq (prog c : List Char) (cs : List (List Char))
    (hid_init_result : Int) (dev : hid_device)
    (hd : c.head? ≠ some '-') (hinit : 0 ≤ hid_init_result) :
    main (prog :: c :: cs) hid_init_result (some dev)
      = (main_loop (c :: cs) (wraith_enable dev) 0).map
          (fun res => (0, some (if res.1 > 0 then wraith_apply res.2 else res.2))) := by
  have hv : c ≠ "-v".toList := by
    intro h
    rw [h] at hd
    exact hd (by decide)
  exact main_opened_eq (prog :: c :: cs) 1 (c :: cs) hid_init_result dev
    (by simpa using hv) (Or.inl rfl) (fun _ => by simpa using hd) rfl (by simp) hinit

theorem main_loop_append_accepted (xs : List (List Char))
    (hvalid : ∀ c ∈ xs, ∃ frame, command_outcome c = some (1, some frame))
    (ys : List (List Char)) :
    ∀ (dev : hid_device) (n : Nat), n + xs.length < 2 ^ 32 →
      ∃ mid, mid.written = dev.written ++ xs.map command_frame
        ∧ main_loop (xs ++ ys) dev n = main_loop ys mid (n + xs.length) := by
  induction xs with
  | nil => exact fun dev n _ => ⟨dev, by simp, by simp⟩
  | cons c cs ih =>
    intro dev n hn
    obtain ⟨frame, hframe⟩ := hvalid c (by simp)
    obtain ⟨hcf, hlen⟩ := accepted_frame c frame hframe
    have hpc := (parse_command_outcome dev c).1
    rw [hframe] at hpc
    simp only [List.length_cons] at hn
    obtain ⟨mid, hw, hmid⟩ := ih (fun x hx => hvalid x (by simp [hx]))
      (wraith_communicate dev frame).2 (n + 1) (by omega)
    refine ⟨mid, ?_, ?_⟩
    · rw [hw, wraith_communicate_written, List.take_of_length_le (by rw [hlen]; decide)]
      simp [hcf]
    · simp only [List.cons_append, main_loop, hpc, Option.map_some', apply_outcome]
      rw [if_neg (by decide)]
      have h1 : (n + (1 : Int).toNat) % 2 ^ 32 = n + 1 := by
        rw [Nat.mod_eq_of_lt (by simp; omega)]
        rfl
      have h2 : n + (c :: cs).length = n + 1 + cs.length := by
        simp only [List.length_cons]
        omega
      rw [h1, h2]
      exact hmid

theorem main_loop_rejected (bad : List Char) (rest : List (List Char))
    (hbad : command_outcome bad = some (-1, none)) (dev : hid_device) (n : Nat) :
    main_loop (bad :: rest) dev n = some (n, dev) := by
  have hpc := (parse_command_outcome dev bad).1
  rw [hbad] at hpc
  simp only [main_loop, hpc, Option.map_some', apply_outcome]
  rw [if_pos (by decide)]

/-- C11 (as stated, refuted): two valid operations followed by an invalid third give the
frames Enable, effect update, mirage and then the Apply frame. -/
theorem main_apply_sent_after_invalid :
    (main ["wraith".toList, "effect logo static 3 255 255 0 0".toList,
        "mirage 0 0 0".toList, "bogus".toList] 0 (some hid_ok)).map
      (fun res => res.2.map (fun d => d.written))
      = some (some [wraith_enable_buf,
          wraith_effect_update_buf 0x05 0xFF 0x20 0x01 0xFF 0xFF 0x00 0x00 0x00 0x00 0x00,
          wraith_mirage_buf 0 0 0,
          wraith_apply_buf])
    ∧ command_outcome "bogus".toList = some (-1, none) := by
  decide

/-- C11 (amended): for every sequence of one or more valid operations (accepted with
return value 1) followed by an operation that `parse_command` rejects, `main` transmits
Enable, the frames of the valid operations in order and then the Apply frame once; the
rejected operation and the operations after it transmit nothing. -/
theorem main_apply_after_invalid (prog : List Char) (cmds : List (List Char))
    (bad : List Char) (rest : List (List Char)) (hid_init_result : Int) (dev : hid_device)
    (hinit : 0 ≤ hid_init_result)
    (hne : cmds ≠ []) (hlen : cmds.length < 2 ^ 31)
    (hvalid : ∀ c ∈ cmds, ∃ frame, command_outcome c = some (1, some frame))
    (hbad : command_outcome bad = some (-1, none)) :
    ∃ status final,
      main (prog :: (cmds ++ bad :: rest)) hid_init_result (some dev)
        = some (status, some final)
      ∧ final.written
        = dev.written ++ [wraith_enable_buf] ++ cmds.map command_frame ++ [wraith_apply_buf] := by
  obtain ⟨c, cs, rfl⟩ := List.exists_cons_of_ne_nil hne
  obtain ⟨frame, hframe⟩ := hvalid c (by simp)
  have hd := accepted_not_dash c frame hframe
  obtain ⟨mid, hw, hmid⟩ := main_loop_append_accepted (c :: cs) hvalid (bad :: rest)
    (wraith_enable dev) 0 (by omega)
  rw [main_loop_rejected bad rest hbad] at hmid
  have hmain := main_plain_eq prog c (cs ++ bad :: rest) hid_init_result dev hd hinit
  rw [List.cons_append] at hmid
  rw [List.cons_append, hmain, hmid]
  refine ⟨0, wraith_apply mid, ?_, ?_⟩
  · simp
  · unfold wraith_apply
    rw [wraith_communicate_written, hw]
    unfold wraith_enable
    rw [wraith_communicate_written]
    rfl

theorem main_apply_after_invalid_witness :
    ∃ status final,
      main ("wraith".toList :: (["effect logo static 3 255 255 0 0".toList,
          "mirage 0 0 0".toList] ++ "bogus".toList :: [])) 0 (some hid_ok)
        = some (status, some final)
      ∧ final.written
        = hid_ok.written ++ [wraith_enable_buf]
          ++ ["effect logo static 3 255 255 0 0".toList, "mirage 0 0 0".toList].map command_frame
          ++ [wraith_apply_buf] :=
  main_apply_after_invalid "wraith".toList
    ["effect logo static 3 255 255 0 0".toList, "mirage 0 0 0".toList] "bogus".toList []
    0 hid_ok (by decide) (by decide) (by decide)
    (by
      intro c hc
      simp only [List.mem_cons, List.mem_singleton, List.not_mem_nil, or_false] at hc
      rcases hc with rfl | rfl
      · exact ⟨wraith_effect_update_buf 0x05 0xFF 0x20 0x01 0xFF 0xFF 0x00 0x00 0x00 0x00 0x00,
          by decide⟩
      · exact ⟨wraith_mirage_buf 0 0 0, by decide⟩)
    (by decide)

/-- C12 (the code at the failing input): with the device opened, a command sequence whose
only command is rejected by `parse_command` (return value -1), and one whose second
command is rejected, both end with exit status 0; only the path without a device returns
1. The `ret = 1` of the loop is stored in the loop's own `ret`. -/
theorem main_exit_status_after_parse_failure :
    (parse_command hid_ok "bogus".toList).map (fun res => res.1) = some (-1)
    ∧ (main ["wraith".toList, "bogus".toList] 0 (some hid_ok)).map (fun res => res.1) = some 0
    ∧ (parse_command hid_ok "effect logo static 9 255 255 0 0".toList).map (fun res => res.1)
        = some (-1)
    ∧ (main ["wraith".toList, "effect logo static 3 255 255 0 0".toList,
          "effect logo static 9 255 255 0 0".toList] 0 (some hid_ok)).map (fun res => res.1)
        = some 0
    ∧ (main ["wraith".toList, "bogus".toList] 0 none).map (fun res => res.1) = some 1 := by
  decide

theorem apply_outcome_written (d1 d2 : hid_device) (o : Int × Option (List Nat))
    (hw : d1.written = d2.written) :
    (apply_outcome d1 o).1 = (apply_outcome d2 o).1
    ∧ (apply_outcome d1 o).2.written = (apply_outcome d2 o).2.written := by
  rcases o with ⟨r, _ | buf⟩
  · exact ⟨rfl, hw⟩
  · refine ⟨rfl, ?_⟩
    simp only [apply_outcome, wraith_communicate_written, hw]

theorem main_loop_congr (cmds : List (List Char)) :
    ∀ (d1 d2 : hid_device) (n : Nat), d1.written = d2.written →
      (main_loop cmds d1 n).map (fun res => (res.1, res.2.written))
        = (main_loop cmds d2 n).map (fun res => (res.1, res.2.written)) := by
  induction cmds with
  | nil =>
    intro d1 d2 n hw
    simp [main_loop, hw]
  | cons c cs ih =>
    intro d1 d2 n hw
    have h1 := (parse_command_outcome d1 c).1
    have h2 := (parse_command_outcome d2 c).1
    rcases ho : command_outcome c with _ | o
    · rw [ho] at h1 h2
      simp only [main_loop, h1, h2, Option.map_none']
    · rw [ho] at h1 h2
      obtain ⟨hr, hw1⟩ := apply_outcome_written d1 d2 o hw
      simp only [main_loop, h1, h2, Option.map_some']
      rw [← hr]
      split_ifs
      · simp [hw1]
      · exact ih _ _ _ hw1

theorem main_tail_congr (cmds : List (List Char)) (d1 d2 : hid_device)
    (hw : d1.written = d2.written) :
    Option.map (fun res : Int × Option hid_device => (res.1, res.2.map (fun d => d.written)))
        (match main_loop cmds d1 0 with
          | none => none
          | some (n_commands, dev) =>
            some ((0 : Int), some (if n_commands > 0 then wraith_apply dev else dev)))
      = Option.map
        (fun res : Int × Option hid_device => (res.1, res.2.map (fun d => d.written)))
        (match main_loop cmds d2 0 with
          | none => none
          | some (n_commands, dev) =>
            some ((0 : Int), some (if n_commands > 0 then wraith_apply dev else dev))) := by
  have h := main_loop_congr cmds d1 d2 0 hw
  rcases h1 : main_loop cmds d1 0 with _ | ⟨n1, f1⟩ <;>
    rcases h2 : main_loop cmds d2 0 with _ | ⟨n2, f2⟩ <;>
    rw [h1, h2] at h
  · simp at h
  · simp at h
  · simp only [Option.map_some', Option.some.injEq, Prod.mk.injEq] at h
    obtain ⟨rfl, hf⟩ := h
    simp only [Option.map_some', Option.some.injEq, Prod.mk.injEq, true_and]
    split_ifs
    · simp [wraith_apply, wraith_communicate_written, hf]
    · exact hf

/-- C13 (as stated, refuted): on a device whose every write fails, so that the
transaction of the effect command fails (`wraith_communicate` returns -1), a single valid
effect command is still followed by the Apply frame. -/
theorem main_apply_sent_after_failed_transaction :
    (wraith_communicate (wraith_enable hid_fail)
        (wraith_effect_update_buf 0x05 0xFF 0x20 0x01 0xFF 0xFF 0x00 0x00 0x00 0x00 0x00)).1 = -1
    ∧ (main ["wraith".toList, "effect logo static 3 255 255 0 0".toList] 0
        (some hid_fail)).map (fun res => (res.1, res.2.map (fun d => d.written)))
      = some (0, some [wraith_enable_buf,
          wraith_effect_update_buf 0x05 0xFF 0x20 0x01 0xFF 0xFF 0x00 0x00 0x00 0x00 0x00,
          wraith_apply_buf]) := by
  decide

/-- C13 (amended): the result of an HID transaction is not propagated. The value
`parse_command` returns, the exit status of `main` and the frames `main` hands to
`hid_write` do not depend on what the device's writes and reads return: an operation
whose transaction fails is counted as applied, the later operations are attempted and
Apply is sent exactly as on a device whose transactions all succeed. -/
theorem main_ignores_transaction_results (argv : List (List Char)) (hid_init_result : Int)
    (dev1 dev2 : hid_device) (hw : dev1.written = dev2.written) :
    (main argv hid_init_result (some dev1)).map
        (fun res => (res.1, res.2.map (fun d => d.written)))
      = (main argv hid_init_result (some dev2)).map
        (fun res => (res.1, res.2.map (fun d => d.written)))
    ∧ ∀ command, (parse_command dev1 command).map (fun res => res.1)
        = (parse_command dev2 command).map (fun res => res.1) := by
  constructor
  · have hen : (wraith_enable dev1).written = (wraith_enable dev2).written := by
      unfold wraith_enable
      rw [wraith_communicate_written, wraith_communicate_written, hw]
    unfold main
    dsimp only
    split_ifs <;> first | rfl | exact main_tail_congr _ _ _ hen
  · intro command
    rw [(parse_command_outcome dev1 command).1, (parse_command_outcome dev2 command).1]
    rcases command_outcome command with _ | o
    · rfl
    · simp [(apply_outcome_written dev1 dev2 o hw).1]

theorem main_ignores_transaction_results_witness :
    (main ["wraith".toList, "effect logo static 3 255 255 0 0".toList] 0 (some hid_fail)).map
        (fun res => (res.1, res.2.map (fun d => d.written)))
      = (main ["wraith".toList, "effect logo static 3 255 255 0 0".toList] 0 (some hid_ok)).map
        (fun res => (res.1, res.2.map (fun d => d.written)))
    ∧ ∀ command, (parse_command hid_fail command).map (fun res => res.1)
        = (parse_command hid_ok command).map (fun res => res.1) :=
  main_ignores_transaction_results
    ["wraith".toList, "effect logo static 3 255 255 0 0".toList] 0 hid_fail hid_ok rfl

/-! ### Effect commands in general -/

theorem parse_effect_words (dev : hid_device) (ch md : List Char) (rest : List (List Char))
    (c m : Int) (hsp : ∀ t ∈ ch :: md :: rest, ' ' ∉ t)
    (hc : parse_channel (some ch) = some c) (hm : parse_mode (some md) = some m) :
    parse_effect dev (words_buffer (ch :: md :: rest))
      = parse_effect_if dev c m
          (parse_value (rest.get? 0) 1 5 false (-1))
          (parse_value (rest.get? 1) 0 255 false (-1))
          (parse_value (rest.get? 2) 0 255 false (-1))
          (parse_value (rest.get? 3) 0 255 false (-1))
          (parse_value (rest.get? 4) 0 255 false (-1))
          (parse_value (rest.get? 5) 0 255 true 0)
          (parse_value (rest.get? 6) 0 255 true 0)
          (parse_value (rest.get? 7) 0 255 true 0)
          (parse_value (rest.get? 8) 0 255 true 0x20) := by
  have hn := strsep_nth_words _ hsp
  simp only [parse_effect, hn, List.get?, hc, hm]

theorem parse_ring_effect_words (dev : hid_device) (rc : List Char)
    (rest : List (List Char)) (k : Int) (hsp : ∀ t ∈ rc :: rest, ' ' ∉ t)
    (hk : parse_ring_channel (some rc) = some k) :
    parse_ring_effect dev (words_buffer (rc :: rest))
      = parse_ring_effect_if dev k
          (parse_value (rest.get? 0) 1 5 false (-1))
          (parse_value (rest.get? 1) 0 255 false (-1))
          (parse_value (rest.get? 2) 0 255 false (-1))
          (parse_value (rest.get? 3) 0 255 false (-1))
          (parse_value (rest.get? 4) 0 255 false (-1))
          (parse_value (rest.get? 5) 0 255 true 0)
          (parse_value (rest.get? 6) 0 255 true 0)
          (parse_value (rest.get? 7) 0 255 true 0)
          (parse_value (rest.get? 8) 0 255 true 0x20) := by
  have hn := strsep_nth_words _ hsp
  simp only [parse_ring_effect, hn, List.get?, hk]

theorem parse_effect_if_frame (dev : hid_device) (c m L B R G Bl R2 G2 B2 F : Int) (sp : Int)
    (hguard : c ≥ 0 ∧ m ≥ 0 ∧ L ≥ 0 ∧ B ≥ 0 ∧ R ≥ 0 ∧ Bl ≥ 0 ∧ G ≥ 0)
    (hsw : effect_switch m L = some (some sp)) :
    (parse_effect_if dev c m L B R G Bl R2 G2 B2 F).map (fun res => (res.1, res.2.written))
      = some (1, dev.written ++
          [[0x00, 0x51, 0x2C, 0x01, 0x00, to_uchar c % 256, to_uchar sp % 256, to_uchar F % 256,
            to_uchar m % 256, 0xFF, to_uchar B % 256, to_uchar R % 256, to_uchar G % 256,
            to_uchar Bl % 256, to_uchar R2 % 256, to_uchar G2 % 256, to_uchar B2 % 256]
          ++ List.replicate 48 0xFF]) := by
  unfold parse_effect_if
  rw [if_pos hguard, hsw]
  simp only [Option.map_some', wraith_effect_update_written]

theorem parse_ring_effect_if_frame (dev : hid_device) (k L B R G Bl R2 G2 B2 F : Int)
    (mode sp : Int)
    (hguard : k ≥ 0 ∧ L ≥ 0 ∧ B ≥ 0 ∧ R ≥ 0 ∧ Bl ≥ 0 ∧ G ≥ 0)
    (hsw : ring_effect_switch k L = some (some (mode, sp))) :
    (parse_ring_effect_if dev k L B R G Bl R2 G2 B2 F).map (fun res => (res.1, res.2.written))
      = some (1, dev.written ++
          [[0x00, 0x51, 0x2C, 0x01, 0x00, to_uchar k % 256, to_uchar sp % 256, to_uchar F % 256,
            to_uchar mode % 256, 0xFF, to_uchar B % 256, to_uchar R % 256, to_uchar G % 256,
            to_uchar Bl % 256, to_uchar R2 % 256, to_uchar G2 % 256, to_uchar B2 % 256]
          ++ List.replicate 48 0xFF]) := by
  unfold parse_ring_effect_if
  rw [if_pos hguard, hsw]
  simp only [Option.map_some', wraith_effect_update_written]

theorem parse_value_nonneg_iff (s : List Char) (lo hi : Int) (ig : Bool) (hlo : 0 ≤ lo) :
    parse_value (some s) lo hi ig (-1) ≥ 0
      ↔ lo ≤ to_int (strtoul s) ∧ to_int (strtoul s) ≤ hi := by
  rw [parse_value_some]
  split_ifs with h
  · exact ⟨fun _ => h, fun _ => le_trans hlo h.1⟩
  · exact ⟨fun h0 => absurd h0 (by decide), fun h1 => absurd h1 h⟩

theorem to_uchar_lt (x : Int) : to_uchar x < 256 := by
  unfold to_uchar
  omega

theorem to_uchar_mod (x : Int) : to_uchar x % 256 = to_uchar x :=
  Nat.mod_eq_of_lt (to_uchar_lt x)

theorem to_uchar_of_byte (x : Int) (h0 : 0 ≤ x) (h1 : x ≤ 255) : to_uchar x = x.toNat := by
  unfold to_uchar
  omega

/-! ### Name lookup -/

theorem FIND_VALUE_loop_not_mem (str : List Char) (strings : List (List Char))
    (values : List Nat) (h : str ∉ strings) :
    ∀ fuel i, i ≤ strings.length →
      FIND_VALUE_loop str strings values fuel i
        = if strings.length - i < fuel then none else some (-1) := by
  intro fuel
  induction fuel with
  | zero => intro i _; simp [FIND_VALUE_loop]
  | succ fuel ih =>
    intro i hi
    rcases Nat.lt_or_ge i strings.length with hlt | hge
    · have hget : strings.get? i = some (strings.get ⟨i, hlt⟩) := List.get?_eq_get hlt
      have hne : strings.get ⟨i, hlt⟩ ≠ str := by
        intro he
        exact h (he ▸ List.get_mem strings i hlt)
      simp only [FIND_VALUE_loop, hget, if_neg hne]
      rw [ih (i + 1) hlt]
      have hiff : strings.length - (i + 1) < fuel ↔ strings.length - i < fuel + 1 := by omega
      simp only [hiff]
    · have hget : strings.get? i = none := List.get?_eq_none.2 hge
      simp only [FIND_VALUE_loop, hget]
      rw [if_pos (by omega)]

theorem FIND_VALUE_not_mem (str : List Char) (strings : List (List Char))
    (values : List Nat) (h : str ∉ strings) (hne : strings ≠ []) :
    FIND_VALUE (some str) strings values = none := by
  have hlen : 0 < strings.length := List.length_pos.2 hne
  simp only [FIND_VALUE]
  rw [FIND_VALUE_loop_not_mem str strings values h _ 0 (Nat.zero_le _), if_pos]
  simp only [SIZEOF_POINTER]
  omega

theorem FIND_VALUE_loop_mem (str : List Char) (strings : List (List Char))
    (values : List Nat) (v : Int) (hv : 0 ≤ v) :
    ∀ fuel i, FIND_VALUE_loop str strings values fuel i = some v → str ∈ strings := by
  intro fuel
  induction fuel with
  | zero =>
    intro i h
    simp only [FIND_VALUE_loop, Option.some.injEq] at h
    omega
  | succ fuel ih =>
    intro i h
    simp only [FIND_VALUE_loop] at h
    cases hget : strings.get? i with
    | none => rw [hget] at h; simp at h
    | some s =>
      rw [hget] at h
      simp only at h
      by_cases hs : s = str
      · exact hs ▸ List.get?_mem hget
      · rw [if_neg hs] at h
        exact ih (i + 1) h

/-- C18: for a non-null name, each of `parse_channel`, `parse_mode` and
`parse_ring_channel` reads past the end of its table (result `none`) exactly when the name
is not an entry of the table, so it never returns -1 for such a name: the loop runs to
`sizeof(strings)`, the table's size in bytes, not to its number of entries. For the name
`bogus` all three read past the end (with 8-byte and with 4-byte pointers), whereas the
same loop bounded by the two entries of the channel table returns -1. -/
theorem find_value_reads_past_table (s : List Char) :
    (parse_channel (some s) = none ↔ s ∉ ["logo".toList, "fan".toList])
    ∧ (parse_mode (some s) = none
        ↔ s ∉ ["static".toList, "cycle".toList, "breath".toList])
    ∧ (parse_ring_channel (some s) = none ↔ s ∉ ring_channel_strings)
    ∧ parse_channel (some s) ≠ some (-1)
    ∧ parse_mode (some s) ≠ some (-1)
    ∧ parse_ring_channel (some s) ≠ some (-1)
    ∧ parse_channel (some "bogus".toList) = none
    ∧ parse_mode (some "bogus".toList) = none
    ∧ parse_ring_channel (some "bogus".toList) = none
    ∧ FIND_VALUE_loop "bogus".toList ["logo".toList, "fan".toList]
        [CHANNEL_LOGO, CHANNEL_FAN] (2 * 4) 0 = none
    ∧ FIND_VALUE_loop "bogus".toList ["logo".toList, "fan".toList]
        [CHANNEL_LOGO, CHANNEL_FAN] 2 0 = some (-1) := by
  have h1 : parse_channel (some s) = none ↔ s ∉ ["logo".toList, "fan".toList] := by
    constructor
    · intro h hm
      simp only [List.mem_cons, List.mem_singleton, List.mem_nil_iff, or_false] at hm
      rcases hm with rfl | rfl <;> exact absurd h (by decide)
    · intro hm
      exact FIND_VALUE_not_mem _ _ _ hm (by decide)
  have h2 : parse_mode (some s) = none
      ↔ s ∉ ["static".toList, "cycle".toList, "breath".toList] := by
    constructor
    · intro h hm
      simp only [List.mem_cons, List.mem_singleton, List.mem_nil_iff, or_false] at hm
      rcases hm with rfl | rfl | rfl <;> exact absurd h (by decide)
    · intro hm
      exact FIND_VALUE_not_mem _ _ _ hm (by decide)
  have h3 : parse_ring_channel (some s) = none ↔ s ∉ ring_channel_strings := by
    constructor
    · intro h hm
      simp only [ring_channel_strings, List.mem_cons, List.mem_singleton, List.mem_nil_iff,
        or_false] at hm
      rcases hm with rfl | rfl | rfl | rfl | rfl | rfl | rfl | rfl | rfl <;>
        exact absurd h (by decide)
    · intro hm
      exact FIND_VALUE_not_mem _ _ _ hm (by decide)
  refine ⟨h1, h2, h3, ?_, ?_, ?_, by decide, by decide, by decide, by decide, by decide⟩
  · by_cases hm : s ∈ ["logo".toList, "fan".toList]
    · simp only [List.mem_cons, List.mem_singleton, List.mem_nil_iff, or_false] at hm
      rcases hm with rfl | rfl <;> decide
    · rw [h1.2 hm]
      exact fun h => by cases h
  · by_cases hm : s ∈ ["static".toList, "cycle".toList, "breath".toList]
    · simp only [List.mem_cons, List.mem_singleton, List.mem_nil_iff, or_false] at hm
      rcases hm with rfl | rfl | rfl <;> decide
    · rw [h2.2 hm]
      exact fun h => by cases h
  · by_cases hm : s ∈ ring_channel_strings
    · simp only [ring_channel_strings, List.mem_cons, List.mem_singleton, List.mem_nil_iff,
        or_false] at hm
      rcases hm with rfl | rfl | rfl | rfl | rfl | rfl | rfl | rfl | rfl <;> decide
    · rw [h3.2 hm]
      exact fun h => by cases h

/-! ### Mirage ranges -/

/-- C19: `parse_mirage` accepts a command of three space-free words exactly when the red
and the blue value lie in 0..65536 and the green value lies in 0..65336, so the green
range is narrower: the value 65400 is accepted as red and as blue (`65400 0 65400` returns
1) but not as green (`0 65400 0` and `65400 65400 65400` return -1). -/
theorem parse_mirage_green_range (dev : hid_device) (r g b : List Char)
    (hsp : ∀ t ∈ [r, g, b], ' ' ∉ t) :
    ((parse_mirage dev (words_buffer [r, g, b])).1 = 1
      ↔ (0 ≤ to_int (strtoul r) ∧ to_int (strtoul r) ≤ 65536)
        ∧ (0 ≤ to_int (strtoul g) ∧ to_int (strtoul g) ≤ 65336)
        ∧ (0 ≤ to_int (strtoul b) ∧ to_int (strtoul b) ≤ 65536))
    ∧ (parse_mirage hid_ok (some "65400 0 65400".toList)).1 = 1
    ∧ (parse_mirage hid_ok (some "0 65400 0".toList)).1 = -1
    ∧ (parse_mirage hid_ok (some "65400 65400 65400".toList)).1 = -1 := by
  refine ⟨?_, by decide, by decide, by decide⟩
  have hn := strsep_nth_words _ hsp
  have hr := parse_value_nonneg_iff r 0 65536 false (le_refl 0)
  have hg := parse_value_nonneg_iff g 0 65336 false (le_refl 0)
  have hb := parse_value_nonneg_iff b 0 65536 false (le_refl 0)
  simp only [parse_mirage, hn, List.get?]
  split_ifs with h
  · exact ⟨fun _ => ⟨hr.1 h.1, hg.1 h.2.1, hb.1 h.2.2⟩, fun _ => rfl⟩
  · constructor
    · intro h1
      have h2 : ((-1 : Int) = 1) := h1
      exact absurd h2 (by decide)
    · intro h1
      exact absurd ⟨hr.2 h1.1, hg.2 h1.2.1, hb.2 h1.2.2⟩ h

theorem parse_mirage_green_range_witness :
    ((parse_mirage hid_ok (words_buffer ["65400".toList, "65400".toList, "65400".toList])).1 = 1
      ↔ (0 ≤ to_int (strtoul "65400".toList) ∧ to_int (strtoul "65400".toList) ≤ 65536)
        ∧ (0 ≤ to_int (strtoul "65400".toList) ∧ to_int (strtoul "65400".toList) ≤ 65336)
        ∧ (0 ≤ to_int (strtoul "65400".toList) ∧ to_int (strtoul "65400".toList) ≤ 65536))
    ∧ (parse_mirage hid_ok (some "65400 0 65400".toList)).1 = 1
    ∧ (parse_mirage hid_ok (some "0 65400 0".toList)).1 = -1
    ∧ (parse_mirage hid_ok (some "65400 65400 65400".toList)).1 = -1 :=
  parse_mirage_green_range hid_ok "65400".toList "65400".toList "65400".toList (by decide)

/-! ### Ring effects -/

/-- C16: with speed level 3, brightness 255 and colour 255 0 0, a ring-effect command on
each of the first eight ring channels (static, cycle, breath, rainbow, bounce, chase,
swirl, morse) returns 1 and transmits one frame whose byte at offset 5 is the channel's
id; on the ninth channel, `off` (id 0xFE), the same command returns -1 and transmits
nothing, and so does every ring-effect on channel id 0xFE whatever the other values. -/
theorem ring_effect_off_rejected :
    (ring_channel_strings.take 8).map (fun n =>
        (parse_ring_effect hid_ok (words_buffer [n, "3".toList, "255".toList, "255".toList,
            "0".toList, "0".toList])).map
          (fun res => (res.1, res.2.written.map (fun f => f.get? 5))))
      = (ring_channel_values.take 8).map (fun id => some ((1 : Int), [some id]))
    ∧ ring_channel_strings.drop 8 = ["off".toList]
    ∧ parse_ring_channel (some "off".toList) = some ((CHANNEL_OFF : Nat) : Int)
    ∧ (parse_ring_effect hid_ok (some "off 3 255 255 0 0".toList)).map
        (fun res => (res.1, res.2.written)) = some (-1, [])
    ∧ command_outcome "ring-effect off 3 255 255 0 0".toList = some (-1, none)
    ∧ (∀ (dev : hid_device) (L B R G Bl R2 G2 B2 F : Int),
        parse_ring_effect_if dev ((CHANNEL_OFF : Nat) : Int) L B R G Bl R2 G2 B2 F
          = some (-1, dev)) := by
  refine ⟨by decide, by decide, by decide, by decide, by decide, ?_⟩
  intro dev L B R G Bl R2 G2 B2 F
  unfold parse_ring_effect_if
  have hsw : ring_effect_switch ((CHANNEL_OFF : Nat) : Int) L = some none := by
    simp [ring_effect_switch, CHANNEL_OFF, CHANNEL_RING_STATIC, CHANNEL_RING_COLOUR_CYCLE,
      CHANNEL_RING_BREATH, CHANNEL_RING_RAINBOW, CHANNEL_RING_BOUNCE, CHANNEL_RING_CHASE,
      CHANNEL_RING_SWIRL, CHANNEL_RING_MORSE]
  rw [hsw]
  split_ifs <;> rfl

theorem parse_ring_effect_if_accept (dev dev1 : hid_device)
    (k L B R G Bl R2 G2 B2 F : Int)
    (h : parse_ring_effect_if dev k L B R G Bl R2 G2 B2 F = some (1, dev1)) :
    0 ≤ k ∧ ∃ m sp : Int, ring_effect_switch k L = some (some (m, sp))
      ∧ dev1.written = dev.written ++
          [[0x00, 0x51, 0x2C, 0x01, 0x00, to_uchar k % 256, to_uchar sp % 256, to_uchar F % 256,
            to_uchar m % 256, 0xFF, to_uchar B % 256, to_uchar R % 256, to_uchar G % 256,
            to_uchar Bl % 256, to_uchar R2 % 256, to_uchar G2 % 256, to_uchar B2 % 256]
          ++ List.replicate 48 0xFF] := by
  unfold parse_ring_effect_if at h
  by_cases hg : k ≥ 0 ∧ L ≥ 0 ∧ B ≥ 0 ∧ R ≥ 0 ∧ Bl ≥ 0 ∧ G ≥ 0
  · rw [if_pos hg] at h
    refine ⟨hg.1, ?_⟩
    cases hsw : ring_effect_switch k L with
    | none => rw [hsw] at h; simp at h
    | some o =>
      cases o with
      | none => rw [hsw] at h; simp at h
      | some p =>
        obtain ⟨m, sp⟩ := p
        rw [hsw] at h
        simp only [Option.some.injEq, Prod.mk.injEq, true_and] at h
        exact ⟨m, sp, rfl, by rw [← h, wraith_effect_update_written]⟩
  · rw [if_neg hg] at h
    simp at h

theorem table_at_level (t : List Nat) (L : Int) (hL : 1 ≤ L ∧ L ≤ 5) (ht : t.length = 5) :
    ∃ b, table_at t (L - 1) = some b := by
  obtain ⟨h1, h5⟩ := hL
  have hlt : (L - 1).toNat < t.length := by omega
  refine ⟨t.get ⟨(L - 1).toNat, hlt⟩, ?_⟩
  unfold table_at
  rw [if_pos (by omega)]
  exact List.get?_eq_get hlt

theorem ring_effect_switch_ne_none (k L : Int) (hL : 1 ≤ L ∧ L ≤ 5) :
    ring_effect_switch k L ≠ none := by
  obtain ⟨b1, hb1⟩ := table_at_level cycle_speed L hL rfl
  obtain ⟨b2, hb2⟩ := table_at_level breath_speed L hL rfl
  obtain ⟨b3, hb3⟩ := table_at_level rainbow_speed L hL rfl
  obtain ⟨b4, hb4⟩ := table_at_level chase_speed L hL rfl
  obtain ⟨b5, hb5⟩ := table_at_level swirl_speed L hL rfl
  unfold ring_effect_switch
  rw [hb1, hb2, hb3, hb4, hb5]
  split_ifs <;> simp

theorem ring_effect_switch_names :
    ∀ n ∈ ring_channel_strings, ∀ L ∈ ([1, 2, 3, 4, 5] : List Int),
      ∀ o ∈ ((ring_effect_switch ((ring_channel_id n : Nat) : Int) L).getD none).toList,
        (0 ≤ o.1 ∧ o.1 < 256 ∧ 0 ≤ o.2 ∧ o.2 < 256)
        ∧ (n, o.1.toNat, some o.2.toNat) ∈
          [("static".toList, 0xFF, some 0xFF),
           ("cycle".toList, 0xFF, cycle_speed.get? (L.toNat - 1)),
           ("breath".toList, 0x03, breath_speed.get? (L.toNat - 1)),
           ("rainbow".toList, 0x05, rainbow_speed.get? (L.toNat - 1)),
           ("bounce".toList, 0xFF, some 0x00),
           ("chase".toList, 0xC3, chase_speed.get? (L.toNat - 1)),
           ("swirl".toList, 0x4A, swirl_speed.get? (L.toNat - 1)),
           ("morse".toList, 0x05, some 0x00)] := by
  decide

/-- C17: for every ring-effect command of space-free words that is accepted (returns 1)
and whose speed level `L` is in 1..5, the channel name is one of static, cycle, breath,
rainbow, bounce, chase, swirl, morse, one frame is transmitted, and its mode byte (offset
8) and speed byte (offset 6) are: static 0xFF, 0xFF; cycle 0xFF, cycle_speed[L-1]; breath
0x03, breath_speed[L-1]; rainbow 0x05, rainbow_speed[L-1]; bounce 0xFF, 0x00; chase 0xC3,
chase_speed[L-1]; swirl 0x4A, swirl_speed[L-1]; morse 0x05, 0x00. With `L` in 1..5 the
switch reads no table out of bounds, whatever the channel. -/
theorem ring_effect_mode_speed_table (dev dev1 : hid_device) (rc lvl : List Char)
    (rest : List (List Char)) (hsp : ∀ t ∈ rc :: lvl :: rest, ' ' ∉ t)
    (hL : 1 ≤ to_int (strtoul lvl) ∧ to_int (strtoul lvl) ≤ 5)
    (hacc : parse_ring_effect dev (words_buffer (rc :: lvl :: rest)) = some (1, dev1)) :
    (∀ k : Int, ring_effect_switch k (to_int (strtoul lvl)) ≠ none)
    ∧ ∃ (frame : List Nat) (mode speed : Nat),
      dev1.written = dev.written ++ [frame]
      ∧ frame.get? 8 = some mode ∧ frame.get? 6 = some speed
      ∧ (rc = "static".toList ∨ rc = "cycle".toList ∨ rc = "breath".toList
          ∨ rc = "rainbow".toList ∨ rc = "bounce".toList ∨ rc = "chase".toList
          ∨ rc = "swirl".toList ∨ rc = "morse".toList)
      ∧ (rc = "static".toList → mode = 0xFF ∧ speed = 0xFF)
      ∧ (rc = "cycle".toList → mode = 0xFF
          ∧ cycle_speed.get? ((to_int (strtoul lvl)).toNat - 1) = some speed)
      ∧ (rc = "breath".toList → mode = 0x03
          ∧ breath_speed.get? ((to_int (strtoul lvl)).toNat - 1) = some speed)
      ∧ (rc = "rainbow".toList → mode = 0x05
          ∧ rainbow_speed.get? ((to_int (strtoul lvl)).toNat - 1) = some speed)
      ∧ (rc = "bounce".toList → mode = 0xFF ∧ speed = 0x00)
      ∧ (rc = "chase".toList → mode = 0xC3
          ∧ chase_speed.get? ((to_int (strtoul lvl)).toNat - 1) = some speed)
      ∧ (rc = "swirl".toList → mode = 0x4A
          ∧ swirl_speed.get? ((to_int (strtoul lvl)).toNat - 1) = some speed)
      ∧ (rc = "morse".toList → mode = 0x05 ∧ speed = 0x00) := by
  refine ⟨fun k => ring_effect_switch_ne_none k _ hL, ?_⟩
  cases hk : parse_ring_channel (some rc) with
  | none =>
    have hn := strsep_nth_words _ hsp
    simp [parse_ring_effect, hn, hk] at hacc
  | some k =>
    rw [parse_ring_effect_words dev rc (lvl :: rest) k hsp hk] at hacc
    simp only [List.get?] at hacc
    rw [parse_value_in_range _ _ _ _ _ hL] at hacc
    obtain ⟨hk0, m, sp, hsw, hw⟩ := parse_ring_effect_if_accept _ _ _ _ _ _ _ _ _ _ _ _ hacc
    have hmem : rc ∈ ring_channel_strings := FIND_VALUE_loop_mem rc _ _ k hk0 _ _ hk
    have hkid : k = ((ring_channel_id rc : Nat) : Int) :=
      Option.some.inj (hk.symm.trans (ring_channel_strings_spec rc hmem).2.2)
    have hLmem : to_int (strtoul lvl) ∈ ([1, 2, 3, 4, 5] : List Int) := by
      obtain ⟨h1, h5⟩ := hL
      generalize to_int (strtoul lvl) = L at h1 h5
      interval_cases L <;> simp
    have ho : (m, sp) ∈
        ((ring_effect_switch ((ring_channel_id rc : Nat) : Int) (to_int (strtoul lvl))).getD
          none).toList := by
      rw [← hkid, hsw]
      simp
    obtain ⟨⟨hm0, hm1, hs0, hs1⟩, htab⟩ := ring_effect_switch_names rc hmem _ hLmem _ ho
    refine ⟨_, m.toNat, sp.toNat, hw, ?_, ?_, ?_⟩
    · simp only [List.cons_append, List.get?_cons_succ, List.get?_cons_zero, to_uchar_mod]
      rw [to_uchar_of_byte m hm0 (by omega)]
    · simp only [List.cons_append, List.get?_cons_succ, List.get?_cons_zero, to_uchar_mod]
      rw [to_uchar_of_byte sp hs0 (by omega)]
    · simp only [List.mem_cons, List.mem_singleton, List.mem_nil_iff, or_false,
        Prod.mk.injEq] at htab
      rcases htab with ⟨rfl, hm, hs⟩ | ⟨rfl, hm, hs⟩ | ⟨rfl, hm, hs⟩ | ⟨rfl, hm, hs⟩
        | ⟨rfl, hm, hs⟩ | ⟨rfl, hm, hs⟩ | ⟨rfl, hm, hs⟩ | ⟨rfl, hm, hs⟩ <;>
        refine ⟨by decide, ?_, ?_, ?_, ?_, ?_, ?_, ?_, ?_⟩ <;> intro h <;>
        first
        | exact absurd h (by decide)
        | exact ⟨hm, hs.symm⟩
        | exact ⟨hm, Option.some.inj hs⟩

theorem ring_effect_mode_speed_table_witness :
    ∃ (frame : List Nat) (mode speed : Nat),
      (wraith_effect_update hid_ok 9 0x6E 0x20 0xC3 255 1 2 3 0 0 0).written
        = hid_ok.written ++ [frame]
      ∧ frame.get? 8 = some mode ∧ frame.get? 6 = some speed
      ∧ mode = 0xC3 ∧ chase_speed.get? ((to_int (strtoul "3".toList)).toNat - 1) = some speed := by
  obtain ⟨-, frame, mode, speed, hw, h8, h6, -, -, -, -, -, -, hchase, -, -⟩ :=
    ring_effect_mode_speed_table hid_ok (wraith_effect_update hid_ok 9 0x6E 0x20 0xC3 255 1 2 3 0 0 0)
      "chase".toList "3".toList ["255".toList, "1".toList, "2".toList, "3".toList]
      (by decide) (by decide) rfl
  exact ⟨frame, mode, speed, hw, h8, h6, hchase rfl⟩

/-! ### Optional parameters -/

theorem effect_switch_some (m L : Int) (hL : 1 ≤ L ∧ L ≤ 5) (hm : m = 1 ∨ m = 2 ∨ m = 3) :
    ∃ sp : Int, effect_switch m L = some (some sp) := by
  obtain ⟨b1, hb1⟩ := table_at_level cycle_speed L hL rfl
  obtain ⟨b2, hb2⟩ := table_at_level breath_speed L hL rfl
  unfold effect_switch
  rw [hb1, hb2]
  rcases hm with rfl | rfl | rfl <;> simp [ MODE_STATIC, MODE_COLOUR_CYCLE, MODE_BREATH]

theorem ring_effect_switch_some (k L : Int) (hL : 1 ≤ L ∧ L ≤ 5)
    (hk : k = 0 ∨ k = 2 ∨ k = 1 ∨ k = 7 ∨ k = 8 ∨ k = 9 ∨ k = 10 ∨ k = 11) :
    ∃ m sp : Int, ring_effect_switch k L = some (some (m, sp)) := by
  obtain ⟨b1, hb1⟩ := table_at_level cycle_speed L hL rfl
  obtain ⟨b2, hb2⟩ := table_at_level breath_speed L hL rfl
  obtain ⟨b3, hb3⟩ := table_at_level rainbow_speed L hL rfl
  obtain ⟨b4, hb4⟩ := table_at_level chase_speed L hL rfl
  obtain ⟨b5, hb5⟩ := table_at_level swirl_speed L hL rfl
  unfold ring_effect_switch
  rw [hb1, hb2, hb3, hb4, hb5]
  rcases hk with rfl | rfl | rfl | rfl | rfl | rfl | rfl | rfl <;>
    simp [CHANNEL_RING_STATIC, CHANNEL_RING_COLOUR_CYCLE, CHANNEL_RING_BREATH,
      CHANNEL_RING_RAINBOW, CHANNEL_RING_BOUNCE, CHANNEL_RING_CHASE, CHANNEL_RING_SWIRL,
      CHANNEL_RING_MORSE]

theorem to_uchar_parse_value (s : List Char) (ig : Bool) (d : Int) (hd0 : 0 ≤ d)
    (hd1 : d ≤ 255) :
    to_uchar (parse_value (some s) 0 255 ig d)
      = if 0 ≤ to_int (strtoul s) ∧ to_int (strtoul s) ≤ 255 then (to_int (strtoul s)).toNat
        else d.toNat := by
  rw [parse_value_some]
  split_ifs with h
  · exact to_uchar_of_byte _ h.1 h.2
  · exact to_uchar_of_byte _ hd0 hd1

/-- C15 (as stated, refuted): an effect command whose red2 is 256 and whose flags value is
999, and a ring-effect command whose green2 is 300 and whose flags value is 256, both
otherwise valid, return 1 and transmit a frame in which the out-of-range values are
replaced by 0 (secondary colour, offsets 14-16) and 0x20 (flags, offset 7). -/
theorem optional_out_of_range_encoded :
    ((command_outcome "effect fan breath 3 255 1 2 3 256 5 6 999".toList).map Prod.fst
        = some 1
      ∧ (command_frame "effect fan breath 3 255 1 2 3 256 5 6 999".toList).get? 14 = some 0
      ∧ (command_frame "effect fan breath 3 255 1 2 3 256 5 6 999".toList).get? 7
        = some 0x20)
    ∧ ((command_outcome "ring-effect breath 3 255 1 2 3 4 300 6 256".toList).map Prod.fst
        = some 1
      ∧ (command_frame "ring-effect breath 3 255 1 2 3 4 300 6 256".toList).get? 15 = some 0
      ∧ (command_frame "ring-effect breath 3 255 1 2 3 4 300 6 256".toList).get? 7
        = some 0x20) := by
  refine ⟨⟨?_, ?_, ?_⟩, ⟨?_, ?_, ?_⟩⟩ <;> decide

/-- C15 (amended): an effect command (channel logo or fan, mode static, cycle or breath)
and a ring-effect command (channel static, cycle, breath, rainbow, bounce, chase, swirl or
morse) with all nine numeric words given are rejected with -1 and no frame when the speed
level is outside 1-5 or the brightness, red, green or blue value is outside 0-255;
otherwise they return 1 and transmit one frame each, in which red2, green2, blue2
(offsets 14, 15, 16) and flags (offset 7) hold the given value when it is in 0-255 and
the default (0 for the colour components, 0x20 for flags) when it is not. -/
theorem optional_parameters_defaulted (dev : hid_device)
    (ch md rc lvl br r g b r2 g2 b2 fl : List Char)
    (hsp : ∀ t ∈ [ch, md, rc, lvl, br, r, g, b, r2, g2, b2, fl], ' ' ∉ t)
    (hch : ch = "logo".toList ∨ ch = "fan".toList)
    (hmd : md = "static".toList ∨ md = "cycle".toList ∨ md = "breath".toList)
    (hrc : rc = "static".toList ∨ rc = "cycle".toList ∨ rc = "breath".toList
      ∨ rc = "rainbow".toList ∨ rc = "bounce".toList ∨ rc = "chase".toList
      ∨ rc = "swirl".toList ∨ rc = "morse".toList) :
    (¬ ((1 ≤ to_int (strtoul lvl) ∧ to_int (strtoul lvl) ≤ 5)
        ∧ (0 ≤ to_int (strtoul br) ∧ to_int (strtoul br) ≤ 255)
        ∧ (0 ≤ to_int (strtoul r) ∧ to_int (strtoul r) ≤ 255)
        ∧ (0 ≤ to_int (strtoul g) ∧ to_int (strtoul g) ≤ 255)
        ∧ (0 ≤ to_int (strtoul b) ∧ to_int (strtoul b) ≤ 255)) →
      parse_effect dev (words_buffer [ch, md, lvl, br, r, g, b, r2, g2, b2, fl])
        = some (-1, dev)
      ∧ parse_ring_effect dev (words_buffer [rc, lvl, br, r, g, b, r2, g2, b2, fl])
        = some (-1, dev))
    ∧ ((1 ≤ to_int (strtoul lvl) ∧ to_int (strtoul lvl) ≤ 5)
        ∧ (0 ≤ to_int (strtoul br) ∧ to_int (strtoul br) ≤ 255)
        ∧ (0 ≤ to_int (strtoul r) ∧ to_int (strtoul r) ≤ 255)
        ∧ (0 ≤ to_int (strtoul g) ∧ to_int (strtoul g) ≤ 255)
        ∧ (0 ≤ to_int (strtoul b) ∧ to_int (strtoul b) ≤ 255) →
      ∃ f1 f2 : List Nat,
        (parse_effect dev (words_buffer [ch, md, lvl, br, r, g, b, r2, g2, b2, fl])).map
          (fun res => (res.1, res.2.written)) = some (1, dev.written ++ [f1])
        ∧ (parse_ring_effect dev (words_buffer [rc, lvl, br, r, g, b, r2, g2, b2, fl])).map
          (fun res => (res.1, res.2.written)) = some (1, dev.written ++ [f2])
        ∧ ∀ f ∈ [f1, f2],
          f.get? 14 = some (if 0 ≤ to_int (strtoul r2) ∧ to_int (strtoul r2) ≤ 255
            then (to_int (strtoul r2)).toNat else 0)
          ∧ f.get? 15 = some (if 0 ≤ to_int (strtoul g2) ∧ to_int (strtoul g2) ≤ 255
            then (to_int (strtoul g2)).toNat else 0)
          ∧ f.get? 16 = some (if 0 ≤ to_int (strtoul b2) ∧ to_int (strtoul b2) ≤ 255
            then (to_int (strtoul b2)).toNat else 0)
          ∧ f.get? 7 = some (if 0 ≤ to_int (strtoul fl) ∧ to_int (strtoul fl) ≤ 255
            then (to_int (strtoul fl)).toNat else 0x20)) := by
  have hsp1 : ∀ t ∈ [ch, md, lvl, br, r, g, b, r2, g2, b2, fl], ' ' ∉ t := by
    intro t ht
    rcases List.mem_cons.1 ht with rfl | ht
    · exact hsp _ (List.mem_cons_self _ _)
    · rcases List.mem_cons.1 ht with rfl | ht
      · exact hsp _ (List.mem_cons_of_mem _ (List.mem_cons_self _ _))
      · exact hsp t (List.mem_cons_of_mem _ (List.mem_cons_of_mem _
          (List.mem_cons_of_mem _ ht)))
  have hsp2 : ∀ t ∈ [rc, lvl, br, r, g, b, r2, g2, b2, fl], ' ' ∉ t :=
    fun t ht => hsp t (List.mem_cons_of_mem _ (List.mem_cons_of_mem _ ht))
  obtain ⟨c, hc, hc0⟩ : ∃ c : Int, parse_channel (some ch) = some c ∧ 0 ≤ c := by
    rcases hch with rfl | rfl
    · exact ⟨5, by decide, by decide⟩
    · exact ⟨6, by decide, by decide⟩
  obtain ⟨m, hm, hm123⟩ : ∃ m : Int, parse_mode (some md) = some m
      ∧ (m = 1 ∨ m = 2 ∨ m = 3) := by
    rcases hmd with rfl | rfl | rfl
    · exact ⟨1, by decide, by decide⟩
    · exact ⟨2, by decide, by decide⟩
    · exact ⟨3, by decide, by decide⟩
  obtain ⟨k, hk, hkid⟩ : ∃ k : Int, parse_ring_channel (some rc) = some k
      ∧ (k = 0 ∨ k = 2 ∨ k = 1 ∨ k = 7 ∨ k = 8 ∨ k = 9 ∨ k = 10 ∨ k = 11) := by
    rcases hrc with rfl | rfl | rfl | rfl | rfl | rfl | rfl | rfl
    · exact ⟨0, by decide, by decide⟩
    · exact ⟨2, by decide, by decide⟩
    · exact ⟨1, by decide, by decide⟩
    · exact ⟨7, by decide, by decide⟩
    · exact ⟨8, by decide, by decide⟩
    · exact ⟨9, by decide, by decide⟩
    · exact ⟨10, by decide, by decide⟩
    · exact ⟨11, by decide, by decide⟩
  have hlv := parse_value_nonneg_iff lvl 1 5 false (by decide)
  have hbv := parse_value_nonneg_iff br 0 255 false (le_refl 0)
  have hrv := parse_value_nonneg_iff r 0 255 false (le_refl 0)
  have hgv := parse_value_nonneg_iff g 0 255 false (le_refl 0)
  have hblv := parse_value_nonneg_iff b 0 255 false (le_refl 0)
  rw [parse_effect_words dev ch md [lvl, br, r, g, b, r2, g2, b2, fl] c m hsp1 hc hm,
    parse_ring_effect_words dev rc [lvl, br, r, g, b, r2, g2, b2, fl] k hsp2 hk]
  simp only [List.get?]
  constructor
  · intro hreq
    constructor
    · unfold parse_effect_if
      rw [if_neg]
      rintro ⟨-, -, h1, h2, h3, h4, h5⟩
      exact hreq ⟨hlv.1 h1, hbv.1 h2, hrv.1 h3, hgv.1 h5, hblv.1 h4⟩
    · unfold parse_ring_effect_if
      rw [if_neg]
      rintro ⟨-, h1, h2, h3, h4, h5⟩
      exact hreq ⟨hlv.1 h1, hbv.1 h2, hrv.1 h3, hgv.1 h5, hblv.1 h4⟩
  · rintro ⟨hL, hB, hR, hG, hBl⟩
    have hm0 : m ≥ 0 := by omega
    have hk0 : k ≥ 0 := by omega
    obtain ⟨sp, hsw⟩ := effect_switch_some m (parse_value (some lvl) 1 5 false (-1))
      (by rw [parse_value_in_range _ _ _ _ _ hL]; exact hL) hm123
    obtain ⟨rm, rsp, hrsw⟩ := ring_effect_switch_some k (parse_value (some lvl) 1 5 false (-1))
      (by rw [parse_value_in_range _ _ _ _ _ hL]; exact hL) hkid
    refine ⟨_, _,
      parse_effect_if_frame dev c m _ _ _ _ _ _ _ _ _ sp
        ⟨hc0, hm0, hlv.2 hL, hbv.2 hB, hrv.2 hR, hblv.2 hBl, hgv.2 hG⟩ hsw,
      parse_ring_effect_if_frame dev k _ _ _ _ _ _ _ _ _ rm rsp
        ⟨hk0, hlv.2 hL, hbv.2 hB, hrv.2 hR, hblv.2 hBl, hgv.2 hG⟩ hrsw, ?_⟩
    intro f hf
    simp only [List.mem_cons, List.mem_singleton, List.mem_nil_iff, or_false] at hf
    have e0 : ∀ s : List Char, to_uchar (parse_value (some s) 0 255 true 0)
        = if 0 ≤ to_int (strtoul s) ∧ to_int (strtoul s) ≤ 255 then (to_int (strtoul s)).toNat
          else 0 :=
      fun s => to_uchar_parse_value s true 0 (le_refl 0) (by decide)
    have e1 : to_uchar (parse_value (some fl) 0 255 true 0x20)
        = if 0 ≤ to_int (strtoul fl) ∧ to_int (strtoul fl) ≤ 255
          then (to_int (strtoul fl)).toNat else 0x20 :=
      to_uchar_parse_value fl true 0x20 (by decide) (by decide)
    rcases hf with rfl | rfl <;>
      simp only [List.cons_append, List.get?_cons_succ, List.get?_cons_zero, to_uchar_mod] <;>
      (refine ⟨?_, ?_, ?_, ?_⟩ <;> simp only [e0, e1])

theorem optional_parameters_defaulted_witness :
    ∃ f1 f2 : List Nat,
      (parse_effect hid_ok (words_buffer ["fan".toList, "breath".toList, "3".toList,
          "255".toList, "1".toList, "2".toList, "3".toList, "256".toList, "5".toList,
          "6".toList, "999".toList])).map
        (fun res => (res.1, res.2.written)) = some (1, hid_ok.written ++ [f1])
      ∧ (parse_ring_effect hid_ok (words_buffer ["chase".toList, "3".toList,
          "255".toList, "1".toList, "2".toList, "3".toList, "256".toList, "5".toList,
          "6".toList, "999".toList])).map
        (fun res => (res.1, res.2.written)) = some (1, hid_ok.written ++ [f2])
      ∧ ∀ f ∈ [f1, f2],
        f.get? 14 = some (if 0 ≤ to_int (strtoul "256".toList)
            ∧ to_int (strtoul "256".toList) ≤ 255
          then (to_int (strtoul "256".toList)).toNat else 0)
        ∧ f.get? 15 = some (if 0 ≤ to_int (strtoul "5".toList)
            ∧ to_int (strtoul "5".toList) ≤ 255
          then (to_int (strtoul "5".toList)).toNat else 0)
        ∧ f.get? 16 = some (if 0 ≤ to_int (strtoul "6".toList)
            ∧ to_int (strtoul "6".toList) ≤ 255
          then (to_int (strtoul "6".toList)).toNat else 0)
        ∧ f.get? 7 = some (if 0 ≤ to_int (strtoul "999".toList)
            ∧ to_int (strtoul "999".toList) ≤ 255
          then (to_int (strtoul "999".toList)).toNat else 0x20) :=
  (optional_parameters_defaulted hid_ok "fan".toList "breath".toList "chase".toList
    "3".toList "255".toList "1".toList "2".toList "3".toList "256".toList "5".toList
    "6".toList "999".toList (by decide) (by decide) (by decide) (by decide)).2 (by decide)

/-! ### Queries -/

theorem wraith_query_channel_buf_eq (channel : Nat) :
    wraith_query_channel_buf channel
      = [0x00, 0x40, 0x21, channel % 256] ++ List.replicate 61 0 := rfl

theorem parse_command_query (dev : hid_device) (t : List Char) (hsp : ' ' ∉ t)
    (hlen : t.length < 242)
    (hid : 0 ≤ to_int (strtoul t) ∧ to_int (strtoul t) ≤ 15) :
    parse_command dev ("query-channel".toList ++ ' ' :: t)
      = some (0, wraith_query_channel dev (to_int (strtoul t)).toNat) := by
  have hs : strsep (some ("query-channel".toList ++ ' ' :: t)) ' '
      = (some "query-channel".toList, some t) := by
    have h := (strsep_split_word "query-channel".toList (by decide)).2 t
    simp only [strsep, h]
  have hn : strsep_nth (some t) 0 = some t := strsep_nth_words [t] (by simpa using hsp) 0
  unfold parse_command
  rw [if_neg (by simp; omega)]
  simp only [hs]
  rw [if_pos trivial]
  unfold parse_query_channel
  simp only [hn]
  rw [parse_value_in_range _ _ _ _ _ hid, if_pos hid.1,
    to_uchar_of_byte _ hid.1 (by omega)]
  rw [if_neg (by decide), if_neg (by decide), if_neg (by decide), if_neg (by decide)]

theorem main_loop_queries (ids : List (List Char))
    (hsp : ∀ t ∈ ids, ' ' ∉ t) (hlen : ∀ t ∈ ids, t.length < 242)
    (hid : ∀ t ∈ ids, 0 ≤ to_int (strtoul t) ∧ to_int (strtoul t) ≤ 15) :
    ∀ dev : hid_device, ∃ final,
      main_loop (ids.map (fun t => "query-channel".toList ++ ' ' :: t)) dev 0
        = some (0, final)
      ∧ final.written = dev.written
          ++ ids.map (fun t => [0x00, 0x40, 0x21, (to_int (strtoul t)).toNat]
              ++ List.replicate 61 0) := by
  induction ids with
  | nil => exact fun dev => ⟨dev, rfl, by simp⟩
  | cons t ts ih =>
    intro dev
    have hpc := parse_command_query dev t (hsp t (by simp)) (hlen t (by simp)) (hid t (by simp))
    obtain ⟨h0, h15⟩ := hid t (by simp)
    obtain ⟨final, hfinal, hw⟩ := ih (fun x hx => hsp x (by simp [hx]))
      (fun x hx => hlen x (by simp [hx])) (fun x hx => hid x (by simp [hx]))
      (wraith_query_channel dev (to_int (strtoul t)).toNat)
    refine ⟨final, ?_, ?_⟩
    · simp only [List.map_cons, main_loop, hpc]
      rw [if_neg (by decide)]
      exact hfinal
    · rw [hw]
      unfold wraith_query_channel
      rw [wraith_communicate_written, wraith_query_channel_buf_eq,
        Nat.mod_eq_of_lt (by omega)]
      simp [CMD_SIZE]

/-- C20: for every non-empty sequence of query-channel commands whose id word is
space-free and has a value in 0..15, given with or without a leading `-v`, on an opened
device (whatever its transactions return), `main` returns exit status 0 and transmits the
Enable frame followed by exactly one query frame per command in the order given (65 zero
bytes except 0x40 0x21 at offsets 1-2 and the id at offset 3); the Apply frame is not
among the frames transmitted, the command loop ending with `n_commands` equal to 0. -/
theorem main_query_only (prog : List Char) (verbose : Bool) (ids : List (List Char))
    (hid_init_result : Int) (dev : hid_device)
    (hinit : 0 ≤ hid_init_result) (hne : ids ≠ [])
    (hsp : ∀ t ∈ ids, ' ' ∉ t) (hlen : ∀ t ∈ ids, t.length < 242)
    (hid : ∀ t ∈ ids, 0 ≤ to_int (strtoul t) ∧ to_int (strtoul t) ≤ 15) :
    (main (prog :: ((if verbose then ["-v".toList] else [])
          ++ ids.map (fun t => "query-channel".toList ++ ' ' :: t))) hid_init_result
        (some dev)).map (fun res => (res.1, res.2.map (fun d => d.written)))
      = some (0, some (dev.written ++ ([wraith_enable_buf]
          ++ ids.map (fun t => [0x00, 0x40, 0x21, (to_int (strtoul t)).toNat]
              ++ List.replicate 61 0))))
    ∧ wraith_apply_buf ∉ [wraith_enable_buf]
          ++ ids.map (fun t => [0x00, 0x40, 0x21, (to_int (strtoul t)).toNat]
              ++ List.replicate 61 0)
    ∧ (main_loop (ids.map (fun t => "query-channel".toList ++ ' ' :: t))
        (wraith_enable dev) 0).map Prod.fst = some 0
    ∧ wraith_enable_buf = [0x00, 0x41, 0x80] ++ List.replicate 62 0
    ∧ wraith_apply_buf = [0x00, 0x51, 0x28, 0x00, 0x00, 0xE0] ++ List.replicate 59 0 := by
  obtain ⟨final, hloop, hw⟩ := main_loop_queries ids hsp hlen hid (wraith_enable dev)
  refine ⟨?_, ?_, by rw [hloop]; rfl, rfl, rfl⟩
  · have hmain : main (prog :: ((if verbose then ["-v".toList] else [])
          ++ ids.map (fun t => "query-channel".toList ++ ' ' :: t))) hid_init_result
        (some dev)
        = (main_loop (ids.map (fun t => "query-channel".toList ++ ' ' :: t))
            (wraith_enable dev) 0).map
          (fun res => (0, some (if res.1 > 0 then wraith_apply res.2 else res.2))) := by
      have hpos : 0 < ids.length := List.length_pos.2 hne
      cases verbose with
      | true =>
        exact main_opened_eq
          (prog :: "-v".toList :: ids.map (fun t => "query-channel".toList ++ ' ' :: t)) 2
          (ids.map (fun t => "query-channel".toList ++ ' ' :: t)) hid_init_result dev
          (by simp) (Or.inr rfl) (by simp) rfl
          (by simp only [List.length_cons, List.length_map]; omega) hinit
      | false =>
        obtain ⟨t, ts, rfl⟩ := List.exists_cons_of_ne_nil hne
        exact main_plain_eq prog ("query-channel".toList ++ ' ' :: t)
          (ts.map (fun t => "query-channel".toList ++ ' ' :: t)) hid_init_result dev
          (by simp) hinit
    have hen : (wraith_enable dev).written = dev.written ++ [wraith_enable_buf] := by
      unfold wraith_enable
      rw [wraith_communicate_written]
      rfl
    rw [hmain, hloop]
    simp only [Option.map_some', gt_iff_lt, lt_self_iff_false, if_false, hw, hen,
      List.append_assoc]
  · intro hmem
    simp only [List.singleton_append, List.mem_cons, List.mem_map] at hmem
    rcases hmem with h | ⟨t, -, h⟩
    · exact absurd h (by decide)
    · have h1 : (some 0x40 : Option Nat) = some 0x51 := congrArg (fun f => f.get? 1) h
      exact absurd h1 (by decide)

theorem main_query_only_witness :
    (main ["wraith".toList, "query-channel 5".toList, "query-channel 0x0f".toList] 0
        (some hid_ok)).map (fun res => (res.1, res.2.map (fun d => d.written)))
      = some (0, some [[0x00, 0x41, 0x80] ++ List.replicate 62 0,
          [0x00, 0x40, 0x21, 5] ++ List.replicate 61 0,
          [0x00, 0x40, 0x21, 15] ++ List.replicate 61 0]) :=
  (main_query_only "wraith".toList false ["5".toList, "0x0f".toList] 0 hid_ok (by decide)
    (by decide) (by decide) (by decide) (by decide)).1

/-! ### Rejected commands -/

/-- C14 (the code at the failing input): a command that names an unknown channel or mode
(`effect bogus static 3 255 255 0 0`, `effect logo bogus 3 255 255 0 0`,
`ring-effect bogus 3 255 255 0 0`, `ring-map static bogus`) is not rejected with -1: on
every device `parse_command` has no defined result for it, because the name lookup reads
past the end of its table, and this holds for every unknown space-free channel name given
to `parse_effect` and `parse_ring_effect`. For the other kinds of rejection the device is
untouched: whenever `parse_command` returns a negative value, that value is -1 and the
device is exactly as it was (no frame built or written, nothing read), as for an unknown
command word, a missing or out-of-range required parameter, a missing name and an empty
ring-map. -/
theorem parse_command_reject_no_frame (dev : hid_device) (command : List Char) (r : Int)
    (dev1 : hid_device) (h : parse_command dev command = some (r, dev1)) (hr : r < 0) :
    (r = -1 ∧ dev1 = dev)
    ∧ command_outcome "bogus".toList = some (-1, none)
    ∧ command_outcome "effect logo static 3 255 255".toList = some (-1, none)
    ∧ command_outcome "effect logo static 9 255 255 0 0".toList = some (-1, none)
    ∧ command_outcome "ring-effect static 3 256 255 0 0".toList = some (-1, none)
    ∧ command_outcome "mirage 1000 70000 0".toList = some (-1, none)
    ∧ command_outcome "query-channel 16".toList = some (-1, none)
    ∧ command_outcome "effect".toList = some (-1, none)
    ∧ command_outcome "ring-map".toList = some (-1, none)
    ∧ (∀ d : hid_device,
        parse_command d "effect bogus static 3 255 255 0 0".toList = none
        ∧ parse_command d "effect logo bogus 3 255 255 0 0".toList = none
        ∧ parse_command d "ring-effect bogus 3 255 255 0 0".toList = none
        ∧ parse_command d "ring-map static bogus".toList = none)
    ∧ (∀ (d : hid_device) (name : List Char) (rest : List (List Char)),
        (∀ t ∈ name :: rest, ' ' ∉ t) → name ∉ ["logo".toList, "fan".toList] →
        parse_effect d (words_buffer (name :: rest)) = none)
    ∧ (∀ (d : hid_device) (name : List Char) (rest : List (List Char)),
        (∀ t ∈ name :: rest, ' ' ∉ t) → name ∉ ring_channel_strings →
        parse_ring_effect d (words_buffer (name :: rest)) = none) := by
  refine ⟨?_, by decide, by decide, by decide, by decide, by decide, by decide, by decide,
    by decide, ?_, ?_, ?_⟩
  · obtain ⟨hpc, hok⟩ := parse_command_outcome dev command
    rw [hpc] at h
    rcases ho : command_outcome command with _ | ⟨r1, f⟩
    · rw [ho] at h
      simp at h
    · rw [ho] at h
      simp only [Option.map_some', Option.some.injEq] at h
      rcases hok r1 f ho with ⟨rfl, rfl⟩ | ⟨h01, -⟩
      · simp only [apply_outcome, Prod.mk.injEq] at h
        exact ⟨h.1.symm, h.2.symm⟩
      · have : r1 = r := by
          have := congrArg Prod.fst h
          simpa [apply_outcome] using this
        omega
  · intro d
    have hnone : ∀ c : List Char, command_outcome c = none → parse_command d c = none := by
      intro c hc
      rw [(parse_command_outcome d c).1, hc]
      rfl
    exact ⟨hnone _ (by decide), hnone _ (by decide), hnone _ (by decide),
      hnone _ (by decide)⟩
  · intro d name rest hsp hname
    have hn := strsep_nth_words _ hsp
    have hpc : parse_channel (some name) = none :=
      FIND_VALUE_not_mem _ _ _ hname (by decide)
    simp only [parse_effect, hn, List.get?, hpc]
  · intro d name rest hsp hname
    have hn := strsep_nth_words _ hsp
    have hpc : parse_ring_channel (some name) = none :=
      FIND_VALUE_not_mem _ _ _ hname (by decide)
    simp only [parse_ring_effect, hn, List.get?, hpc]

theorem parse_command_reject_no_frame_witness :
    ((-1 : Int) = -1 ∧ hid_ok = hid_ok)
    ∧ command_outcome "bogus".toList = some (-1, none)
    ∧ command_outcome "effect logo static 3 255 255".toList = some (-1, none)
    ∧ command_outcome "effect logo static 9 255 255 0 0".toList = some (-1, none)
    ∧ command_outcome "ring-effect static 3 256 255 0 0".toList = some (-1, none)
    ∧ command_outcome "mirage 1000 70000 0".toList = some (-1, none)
    ∧ command_outcome "query-channel 16".toList = some (-1, none)
    ∧ command_outcome "effect".toList = some (-1, none)
    ∧ command_outcome "ring-map".toList = some (-1, none)
    ∧ (∀ d : hid_device,
        parse_command d "effect bogus static 3 255 255 0 0".toList = none
        ∧ parse_command d "effect logo bogus 3 255 255 0 0".toList = none
        ∧ parse_command d "ring-effect bogus 3 255 255 0 0".toList = none
        ∧ parse_command d "ring-map static bogus".toList = none)
    ∧ (∀ (d : hid_device) (name : List Char) (rest : List (List Char)),
        (∀ t ∈ name :: rest, ' ' ∉ t) → name ∉ ["logo".toList, "fan".toList] →
        parse_effect d (words_buffer (name :: rest)) = none)
    ∧ (∀ (d : hid_device) (name : List Char) (rest : List (List Char)),
        (∀ t ∈ name :: rest, ' ' ∉ t) → name ∉ ring_channel_strings →
        parse_ring_effect d (words_buffer (name :: rest)) = none) :=
  parse_command_reject_no_frame hid_ok "bogus".toList (-1) hid_ok rfl (by decide)

end Wraith
